import Mathlib

/-!
# Verification of the SkypeParser extraction/config utilities

Shallow embedding of the Python modules `src/utils/config.py` and
`src/utils/file_handler.py` of the `skypeparser` repository, together with
proofs about the embedded operations.

Conventions used throughout:

* Python `dict`s produced by `json.load`/literal syntax are modelled as
  ordered association lists `List (String × Json)`; lookup takes the first
  matching key and insertion replaces in place (preserving order) or appends,
  matching CPython dict semantics for the programs at hand.
* Python exceptions are modelled with `Except PyError`; each `PyError`
  constructor names the Python exception class the code can raise.
* Machine-level details that the code never exercises (floats in JSON,
  the recursion limit, `str.format` conversion/format-spec suffixes) are
  noted at the definition that abstracts them.
-/

/-- Python exception classes that the modelled code can raise. -/
inductive PyError where
  /-- `IndexError` (used by `read_tarfile` for an archive without JSON members). -/
  | indexError
  /-- `KeyError` (failed dict/member lookup, unknown `str.format` field). -/
  | keyError
  /-- `AttributeError` (attribute access such as `.get`/`.format` on a value
      of the wrong type). -/
  | attributeError
  /-- `TypeError` (e.g. item assignment on a non-dict). -/
  | typeError
  /-- `ValueError` (malformed `int()` input or malformed format string). -/
  | valueError
  /-- `UnicodeDecodeError` from `bytes.decode`. -/
  | unicodeDecodeError
  /-- `json.JSONDecodeError`. -/
  | jsonDecodeError
  /-- The interactive `input()` loop of `read_tarfile` (reached only when
      several JSON members exist, no valid `select_json` is given and
      `auto_select` is false); it blocks on the console, which has no
      counterpart in a pure model. -/
  | interactivePrompt
deriving DecidableEq, Repr

/-- JSON values as produced by Python `json.load`/`json.loads`.

Floating-point numbers are omitted: none of the configuration files,
defaults or archive fixtures of the repository use them, and the JSON
parser model below reports an error on them. -/
inductive Json where
  | null : Json
  | bool (b : Bool) : Json
  | int (n : Int) : Json
  | str (s : String) : Json
  | arr (elems : List Json) : Json
  | obj (entries : List (String × Json)) : Json
deriving Repr

/-- First-match lookup in an association list, i.e. Python `d[k]` /
`k in d` on a `dict` (keys are unique in dicts coming from `json.load`). -/
def dlookup : List (String × Json) → String → Option Json
  | [], _ => none
  | (k, v) :: rest, key => if k = key then some v else dlookup rest key

/-- Python `d[k] = v` on a dict modelled as an ordered association list:
replace the first binding of `k` in place, else append a new binding. -/
def dinsert : List (String × Json) → String → Json → List (String × Json)
  | [], key, v => [(key, v)]
  | (k, w) :: rest, key, v =>
      if k = key then (k, v) :: rest else (k, w) :: dinsert rest key v

/-- Lookup of a key inside a `Json` value: `some` only when the value is an
object containing the key. -/
def jLookup (j : Json) (key : String) : Option Json :=
  match j with
  | .obj es => dlookup es key
  | _ => none

/-- Two-level lookup `cfg[sect][key]`. -/
def jLookup2 (j : Json) (sect key : String) : Option Json :=
  match jLookup j sect with
  | some v => jLookup v key
  | none => none

/-- Python `config.get(k, default)`. -/
def dlookupD (es : List (String × Json)) (key : String) (dflt : Json) : Json :=
  match dlookup es key with
  | some v => v
  | none => dflt

/-! ## The `message_types` table and `DEFAULT_CONFIG` (`src/utils/config.py`, lines 16-48) -/

/-- The `message_types` table of `DEFAULT_CONFIG` (`config.py` lines 32-46). -/
def defaultMessageTypes : List (String × Json) :=
  [ ("Event/Call", .str "***A call started/ended***"),
    ("Poll", .str "***Created a poll***"),
    ("RichText/Media_Album", .str "***Sent an album of images***"),
    ("RichText/Media_AudioMsg", .str "***Sent a voice message***"),
    ("RichText/Media_CallRecording", .str "***Sent a call recording***"),
    ("RichText/Media_Card", .str "***Sent a media card***"),
    ("RichText/Media_FlikMsg", .str "***Sent a moji***"),
    ("RichText/Media_GenericFile", .str "***Sent a file***"),
    ("RichText/Media_Video", .str "***Sent a video message***"),
    ("RichText/UriObject", .str "***Sent a photo***"),
    ("RichText/ScheduledCallInvite", .str "***Scheduled a call***"),
    ("RichText/Location", .str "***Sent a location***"),
    ("RichText/Contacts", .str "***Sent a contact***") ]

/-- The default message format string of `DEFAULT_CONFIG` (`config.py` line 47). -/
def defaultMessageFormat : String := "***Sent a {message_type}***"

/-- `DEFAULT_CONFIG` (`config.py` lines 16-48) as an ordered association list. -/
def defaultEntries : List (String × Json) :=
  [ ("database", .obj
      [ ("host", .str "localhost"),
        ("port", .int 5432),
        ("dbname", .str "skype_archive"),
        ("user", .str "postgres"),
        ("password", .str "") ]),
    ("output", .obj
      [ ("directory", .str "output"),
        ("overwrite", .bool false) ]),
    ("logging", .obj
      [ ("level", .str "INFO"),
        ("file", .null) ]),
    ("message_types", .obj defaultMessageTypes),
    ("default_message_format", .str defaultMessageFormat) ]

/-- `DEFAULT_CONFIG` as a `Json` object. -/
def defaultConfigJson : Json := .obj defaultEntries

/-! ## Python `str.format` (as used with the single keyword `message_type`)

`config.py` line 152 calls `default_format.format(message_type=msg_type)`.
The model parses the format string into literal characters and replacement
fields and then renders it.  Conversion (`!r`) and format-spec (`:>10`)
suffixes inside a replacement field are not separated out: a field whose
text is not exactly `message_type` renders to an error, which matches
Python for every format string appearing in the repository and its claims.
-/

/-- The `\x7b` character (opening brace). -/
def lbrace : Char := Char.ofNat 123

/-- The `\x7d` character (closing brace). -/
def rbrace : Char := Char.ofNat 125

/-- One parsed component of a format string: a literal character or a
replacement field with the given field text. -/
inductive FmtItem where
  | lit (c : Char) : FmtItem
  | field (name : String) : FmtItem
deriving DecidableEq, Repr

/-- Scan the characters of a replacement field up to the closing brace.
Returns the field text and the remaining characters, or `none` when the
field is unterminated. -/
def splitFieldChars : List Char → Option (List Char × List Char)
  | [] => none
  | c :: rest =>
      if c = rbrace then some ([], rest)
      else
        match splitFieldChars rest with
        | some (nm, r) => some (c :: nm, r)
        | none => none

/-- Parse a format string into items.  `ValueError` models Python's
"Single '{' encountered in format string" family of errors.  The fuel is
only consumed when a replacement field is crossed, so `length + 1` fuel
always suffices (see `pyFormat`). -/
def parseFmtAux : Nat → List Char → Except PyError (List FmtItem)
  | 0, _ => .error .valueError
  | _ + 1, [] => .ok []
  | f + 1, c :: rest =>
      if c = lbrace then
        match rest with
        | [] => .error .valueError
        | c2 :: rest2 =>
            if c2 = lbrace then
              (parseFmtAux f rest2).map (fun items => .lit lbrace :: items)
            else
              match splitFieldChars (c2 :: rest2) with
              | some (nm, r) =>
                  (parseFmtAux f r).map (fun items => .field (String.mk nm) :: items)
              | none => .error .valueError
      else if c = rbrace then
        match rest with
        | [] => .error .valueError
        | c2 :: rest2 =>
            if c2 = rbrace then
              (parseFmtAux f rest2).map (fun items => .lit rbrace :: items)
            else .error .valueError
      else (parseFmtAux f rest).map (fun items => .lit c :: items)

/-- Is every character a decimal digit? (A purely numeric field text is a
positional index, giving `IndexError` when no positional args are passed.) -/
def allDigits : List Char → Bool
  | [] => true
  | c :: rest => c.isDigit && allDigits rest

/-- Render parsed format items against the single keyword argument
`message_type := sub`, as in `fmt.format(message_type=sub)`:
an empty or numeric field is a positional reference (`IndexError`, since no
positional arguments are supplied), any other field name except
`message_type` is an unknown keyword (`KeyError`). -/
def renderFmtItems (sub : String) : List FmtItem → Except PyError (List Char)
  | [] => .ok []
  | .lit c :: rest => (renderFmtItems sub rest).map (fun t => c :: t)
  | .field nm :: rest =>
      if nm = "message_type" then
        (renderFmtItems sub rest).map (fun t => sub.data ++ t)
      else if nm = "" then .error .indexError
      else if allDigits nm.data then .error .indexError
      else .error .keyError

/-- Python `fmt.format(message_type=sub)`. -/
def pyFormat (fmt : String) (sub : String) : Except PyError String :=
  match parseFmtAux (fmt.data.length + 1) fmt.data with
  | .ok items => (renderFmtItems sub items).map (fun cs => String.mk cs)
  | .error e => .error e

/-! ## `get_message_type_description` (`config.py`, lines 135-152) -/

/-- `get_message_type_description(config, msg_type)` (`config.py` lines
135-152).  Mirrors the source exactly, including Python's eager evaluation
of the fallback: the expression

`message_types.get(msg_type, default_format.format(message_type=msg_type))`

first resolves the `.get` attribute (an `AttributeError` when
`message_types` is not a dict), then evaluates the default argument
`default_format.format(...)` (an `AttributeError` when `default_format` is
not a string, or a format error) — even when `msg_type` is a key of the
table — and only then performs the lookup. -/
def get_message_type_description (config : List (String × Json)) (msg_type : String) :
    Except PyError Json :=
  if msg_type = "" then .ok (.str "Unknown message type")
  else
    let message_types := dlookupD config "message_types" (.obj [])
    let default_format := dlookupD config "default_message_format" (.str defaultMessageFormat)
    match message_types with
    | .obj mt =>
        match default_format with
        | .str f =>
            (pyFormat f msg_type).map (fun d =>
              match dlookup mt msg_type with
              | some v => v
              | none => .str d)
        | _ => .error .attributeError
    | _ => .error .attributeError

/-! ## Lemmas about lookup/format used by the `get_message_type_description` claims -/

theorem dlookup_mem {es : List (String × Json)} {k : String} {v : Json}
    (h : dlookup es k = some v) : (k, v) ∈ es := by
  induction es with
  | nil => simp [dlookup] at h
  | cons p rest ih =>
      obtain ⟨k0, v0⟩ := p
      by_cases hk : k0 = k
      · subst hk
        simp [dlookup] at h
        simp [h]
      · simp [dlookup, hk] at h
        exact List.mem_cons_of_mem _ (ih h)

/-- Is this `Json` value a string? -/
def isStrOf : Json → Bool
  | .str _ => true
  | _ => false

/-- Does this format item only refer to the `message_type` keyword? -/
def fieldOk : FmtItem → Bool
  | .lit _ => true
  | .field nm => nm = "message_type"

theorem renderFmtItems_total (sub : String) (items : List FmtItem)
    (h : ∀ it ∈ items, fieldOk it = true) :
    ∃ cs, renderFmtItems sub items = .ok cs := by
  induction items with
  | nil => exact ⟨[], rfl⟩
  | cons it rest ih =>
      obtain ⟨cs, hcs⟩ := ih (fun x hx => h x (List.mem_cons_of_mem _ hx))
      have hit := h it (List.mem_cons_self _ _)
      cases it with
      | lit c => exact ⟨c :: cs, by simp [renderFmtItems, hcs, Except.map]⟩
      | field nm =>
          have hnm : nm = "message_type" := by simpa [fieldOk] using hit
          subst hnm
          exact ⟨sub.data ++ cs, by simp [renderFmtItems, hcs, Except.map]⟩

/-- Rendering the repository's default format string substitutes the raw
type between the literal pieces. -/
theorem pyFormat_defaultMessageFormat (rt : String) :
    pyFormat defaultMessageFormat rt = .ok ("***Sent a " ++ rt ++ "***") := by
  obtain ⟨l⟩ := rt
  rfl

/-- C4, amended, core fact: under the stated well-formedness of the two
configuration entries the function is total and string-valued. -/
theorem get_message_type_description_total
    (config : List (String × Json)) (mt : List (String × Json)) (f : String)
    (items : List FmtItem) (rt : String)
    (hmt : dlookupD config "message_types" (.obj []) = .obj mt)
    (hfm : dlookupD config "default_message_format" (.str defaultMessageFormat) = .str f)
    (hparse : parseFmtAux (f.data.length + 1) f.data = .ok items)
    (hitems : ∀ it ∈ items, fieldOk it = true)
    (hstr : ∀ p ∈ mt, isStrOf p.2 = true) :
    ∃ s, get_message_type_description config rt = .ok (.str s) := by
  by_cases hrt : rt = ""
  · exact ⟨"Unknown message type", by simp [get_message_type_description, hrt]⟩
  · obtain ⟨cs, hcs⟩ := renderFmtItems_total rt items hitems
    have hfmt : pyFormat f rt = .ok (String.mk cs) := by
      unfold pyFormat
      rw [hparse]
      simp [hcs, Except.map]
    cases hl : dlookup mt rt with
    | some v =>
        obtain ⟨s, hs⟩ : ∃ s, v = .str s := by
          have := hstr _ (dlookup_mem hl)
          cases v <;> simp [isStrOf] at this ⊢
        refine ⟨s, ?_⟩
        simp only [get_message_type_description, if_neg hrt, hmt, hfm, hfmt, Except.map, hl, hs]
    | none =>
        refine ⟨String.mk cs, ?_⟩
        simp only [get_message_type_description, if_neg hrt, hmt, hfm, hfmt, Except.map, hl]

/-! ## Claim C4 -/

/-- C4 counterexample: `get_message_type_description` is not total over all
configuration mappings.  With `default_message_format` set to the string
`"{oops}"` and a nonempty unknown message type, the eager evaluation of
`default_format.format(message_type=msg_type)` raises `KeyError` (unknown
keyword field `oops`), so the function raises instead of returning a
string. -/
theorem get_message_type_description_raises_on_bad_format :
    get_message_type_description [("default_message_format", .str "{oops}")] "x"
      = .error .keyError := rfl

/-- C4, amended: `get_message_type_description(config, msg_type)` returns a
string and never raises, provided the configuration's `message_types` entry
(if present) is a mapping whose values are strings, and its
`default_message_format` entry (if present) is a string whose replacement
fields are all exactly `{message_type}`.  (Without those provisos the claim
fails, see `get_message_type_description_raises_on_bad_format`.) -/
theorem get_message_type_description_total_on_wf_config
    (config : List (String × Json)) (mt : List (String × Json)) (f : String)
    (items : List FmtItem) (rt : String)
    (hmt : dlookupD config "message_types" (.obj []) = .obj mt)
    (hfm : dlookupD config "default_message_format" (.str defaultMessageFormat) = .str f)
    (hparse : parseFmtAux (f.data.length + 1) f.data = .ok items)
    (hitems : ∀ it ∈ items, fieldOk it = true)
    (hstr : ∀ p ∈ mt, isStrOf p.2 = true) :
    ∃ s, get_message_type_description config rt = .ok (.str s) :=
  get_message_type_description_total config mt f items rt hmt hfm hparse hitems hstr

/-- Witness for C4 (amended) at the repository's default configuration and
an unknown raw type. -/
theorem get_message_type_description_total_on_wf_config_witness :
    ∃ s, get_message_type_description defaultEntries "Totally/Unknown" = .ok (.str s) :=
  get_message_type_description_total_on_wf_config defaultEntries defaultMessageTypes
    defaultMessageFormat
    [.lit '*', .lit '*', .lit '*', .lit 'S', .lit 'e', .lit 'n', .lit 't', .lit ' ',
     .lit 'a', .lit ' ', .field "message_type", .lit '*', .lit '*', .lit '*']
    "Totally/Unknown" rfl rfl rfl (by decide) (by decide)

/-! ## Claim C7 -/

/-- C7: on any configuration mapping carrying the default `message_types`
table and the default format string, `get_message_type_description` returns
`"Unknown message type"` for the empty raw type, the table's description
for every raw type that is a key of the table (in particular
`"RichText/Location"`), and the default format with the raw type
substituted for any other nonempty raw type. -/
theorem get_message_type_description_on_defaults
    (config : List (String × Json))
    (hmt : dlookup config "message_types" = some (.obj defaultMessageTypes))
    (hfm : dlookup config "default_message_format" = some (.str defaultMessageFormat)) :
    get_message_type_description config "" = .ok (.str "Unknown message type")
    ∧ (∀ (rt : String) (v : Json), dlookup defaultMessageTypes rt = some v →
        get_message_type_description config rt = .ok v)
    ∧ get_message_type_description config "RichText/Location"
        = .ok (.str "***Sent a location***")
    ∧ ∀ rt : String, rt ≠ "" → dlookup defaultMessageTypes rt = none →
        get_message_type_description config rt = .ok (.str ("***Sent a " ++ rt ++ "***")) := by
  have hmtD : dlookupD config "message_types" (.obj []) = .obj defaultMessageTypes := by
    simp [dlookupD, hmt]
  have hfmD : dlookupD config "default_message_format" (.str defaultMessageFormat)
      = .str defaultMessageFormat := by
    simp [dlookupD, hfm]
  have hkey : ∀ (rt : String) (v : Json), dlookup defaultMessageTypes rt = some v →
      get_message_type_description config rt = .ok v := by
    intro rt v hl
    have hrt : rt ≠ "" := by
      intro he
      subst he
      simp [show dlookup defaultMessageTypes "" = none from rfl] at hl
    have hfmt := pyFormat_defaultMessageFormat rt
    simp only [get_message_type_description, if_neg hrt, hmtD, hfmD, hfmt, Except.map, hl]
  refine ⟨by simp [get_message_type_description], hkey, ?_, ?_⟩
  · exact hkey "RichText/Location" (.str "***Sent a location***") rfl
  · intro rt hrt hnone
    have hfmt := pyFormat_defaultMessageFormat rt
    simp only [get_message_type_description, if_neg hrt, hmtD, hfmD, hfmt, Except.map, hnone]

/-- Witness for C7 at the default configuration itself, instantiating the
table-lookup case at `"Event/Call"` and the fallback case at
`"Totally/Unknown"`. -/
theorem get_message_type_description_on_defaults_witness :
    get_message_type_description defaultEntries "" = .ok (.str "Unknown message type")
    ∧ get_message_type_description defaultEntries "Event/Call"
        = .ok (.str "***A call started/ended***")
    ∧ get_message_type_description defaultEntries "RichText/Location"
        = .ok (.str "***Sent a location***")
    ∧ get_message_type_description defaultEntries "Totally/Unknown"
        = .ok (.str "***Sent a Totally/Unknown***") := by
  obtain ⟨h1, h2, h3, h4⟩ := get_message_type_description_on_defaults defaultEntries rfl rfl
  exact ⟨h1, h2 "Event/Call" (.str "***A call started/ended***") rfl, h3,
    h4 "Totally/Unknown" (by decide) rfl⟩

/-! ## `load_config` (`config.py`, lines 50-115)

The filesystem and `json.load` are modelled by passing each optional file
as `Option Json`: `none` stands for "argument omitted, path missing, or
unreadable/unparsable contents" — all of which the source logs and skips
(`config.py` lines 66-74 and 77-88) — and `some v` for a file whose JSON
payload parses to `v`.  The process environment is a `String`-to-`String`
association list.  Python's recursion limit (a `RecursionError` from
`_deep_update` on ~1000-deep nesting, which the surrounding `except` would
catch after a partial in-place update) is not modelled: `deepUpdate` below
is total. -/

/-- `_deep_update(target, source)` (`config.py` lines 174-186): for each
`key, value` of `source` in order, recurse when both the existing entry and
the new value are dicts, otherwise assign. -/
def deepUpdate (t : List (String × Json)) : List (String × Json) → List (String × Json)
  | [] => t
  | (k, v) :: rest =>
      match dlookup t k, v with
      | some (.obj td), .obj sd => deepUpdate (dinsert t k (.obj (deepUpdate td sd))) rest
      | _, _ => deepUpdate (dinsert t k v) rest
termination_by s => sizeOf s
decreasing_by all_goals simp_wf <;> omega

/-- `os.getenv` over the modelled environment. -/
def getenv : List (String × String) → String → Option String
  | [], _ => none
  | (k, v) :: rest, key => if k = key then some v else getenv rest key

/-- Python `int(s)` on a string: optional surrounding ASCII whitespace, an
optional sign, then one or more decimal digits (PEP-515 underscores are not
modelled; no claim uses them).  Empty or malformed input raises
`ValueError`. -/
def pyIntDigits : List Char → Option Nat
  | [] => none
  | [c] => if c.isDigit then some (c.toNat - 48) else none
  | c :: rest =>
      if c.isDigit then
        match pyIntDigits rest with
        | some n => some ((c.toNat - 48) * 10 ^ rest.length + n)
        | none => none
      else none

/-- Characters `int()` strips from both ends. -/
def isPyWs (c : Char) : Bool :=
  c = ' ' || c = '\t' || c = '\n' || c = '\r' || c = '\x0b' || c = '\x0c'

/-- Strip leading and trailing whitespace, as `int()` does. -/
def pyStrip (cs : List Char) : List Char :=
  ((cs.dropWhile isPyWs).reverse.dropWhile isPyWs).reverse

/-- Python `int(s)`. -/
def pyInt (s : String) : Except PyError Int :=
  match pyStrip s.data with
  | '-' :: ds =>
      match pyIntDigits ds with
      | some n => .ok (-(n : Int))
      | none => .error .valueError
  | '+' :: ds =>
      match pyIntDigits ds with
      | some n => .ok (n : Int)
      | none => .error .valueError
  | ds =>
      match pyIntDigits ds with
      | some n => .ok (n : Int)
      | none => .error .valueError

/-- Python `s.lower()` (ASCII; the environment values compared against
`('true', 'yes', '1')` are ASCII). -/
def pyLower (s : String) : String := String.mk (s.data.map Char.toLower)

/-- `config[sect][key] = v`: fails with `TypeError` when the `sect` entry
is not a dict (as item assignment does in Python), `KeyError` when `sect`
is missing. -/
def setNested (cfg : Json) (sect key : String) (v : Json) : Except PyError Json :=
  match cfg with
  | .obj es =>
      match dlookup es sect with
      | some (.obj inner) => .ok (.obj (dinsert es sect (.obj (dinsert inner key v))))
      | some _ => .error .typeError
      | none => .error .keyError
  | _ => .error .typeError

/-- One `if os.getenv(VAR): config[sect][key] = conv(os.getenv(VAR))`
block of `config.py` lines 92-113.  A set-but-empty variable is falsy and
skipped; conversion errors (`int()` on a non-numeral) propagate. -/
def envSet (env : List (String × String)) (var sect key : String)
    (conv : String → Except PyError Json) (cfg : Json) : Except PyError Json :=
  match getenv env var with
  | none => .ok cfg
  | some s =>
      if s = "" then .ok cfg
      else
        match conv s with
        | .ok v => setNested cfg sect key v
        | .error e => .error e

/-- Conversion used for the plain string environment overrides. -/
def convStr (s : String) : Except PyError Json := .ok (.str s)

/-- Conversion used for `POSTGRES_PORT` (`int(os.getenv('POSTGRES_PORT'))`). -/
def convInt (s : String) : Except PyError Json :=
  match pyInt s with
  | .ok n => .ok (.int n)
  | .error e => .error e

/-- Conversion used for `OUTPUT_OVERWRITE`
(`.lower() in ('true', 'yes', '1')`). -/
def convTruthy (s : String) : Except PyError Json :=
  .ok (.bool (pyLower s = "true" || pyLower s = "yes" || pyLower s = "1"))

/-- The message-types-file branch (`config.py` lines 77-88): a wholesale
assignment of the file's `message_types` and `default_message_format`
entries when present.  A non-dict payload always ends in a caught
`TypeError` before any assignment completes, i.e. it is skipped. -/
def applyMessageTypesFile (cfg1 : List (String × Json)) :
    Option Json → List (String × Json)
  | some (.obj src) =>
      let t1 :=
        match dlookup src "message_types" with
        | some v => dinsert cfg1 "message_types" v
        | none => cfg1
      match dlookup src "default_message_format" with
      | some v => dinsert t1 "default_message_format" v
      | none => t1
  | _ => cfg1

/-- The environment-override phase (`config.py` lines 92-113), applied in
source order. -/
def applyEnv (env : List (String × String)) (cfg : Json) : Except PyError Json :=
  (envSet env "POSTGRES_HOST" "database" "host" convStr cfg).bind fun c1 =>
  (envSet env "POSTGRES_PORT" "database" "port" convInt c1).bind fun c2 =>
  (envSet env "POSTGRES_DB" "database" "dbname" convStr c2).bind fun c3 =>
  (envSet env "POSTGRES_USER" "database" "user" convStr c3).bind fun c4 =>
  (envSet env "POSTGRES_PASSWORD" "database" "password" convStr c4).bind fun c5 =>
  (envSet env "OUTPUT_DIR" "output" "directory" convStr c5).bind fun c6 =>
  (envSet env "OUTPUT_OVERWRITE" "output" "overwrite" convTruthy c6).bind fun c7 =>
  (envSet env "LOG_LEVEL" "logging" "level" convStr c7).bind fun c8 =>
  envSet env "LOG_FILE" "logging" "file" convStr c8

/-- `load_config(config_file, message_types_file)` (`config.py` lines
50-115) under the environment `env`: a deep copy of `DEFAULT_CONFIG`
(value semantics here; the heap-level copy is verified separately), then
the deep merge of the main config file, then the message-types file
assignments, then the environment overrides. -/
def load_config (configFile messageTypesFile : Option Json)
    (env : List (String × String)) : Except PyError Json :=
  let cfg0 := defaultEntries
  let cfg1 :=
    match configFile with
    | some (.obj src) => deepUpdate cfg0 src
    | _ => cfg0
  let cfg2 := applyMessageTypesFile cfg1 messageTypesFile
  applyEnv env (.obj cfg2)

/-! ## Lemmas about the merge primitives -/

theorem dinsert_dlookup (t : List (String × Json)) (a b : String) (v : Json) :
    dlookup (dinsert t a v) b = if a = b then some v else dlookup t b := by
  induction t with
  | nil => by_cases h : a = b <;> simp [dinsert, dlookup, h]
  | cons p rest ih =>
      obtain ⟨k, w⟩ := p
      by_cases hka : k = a
      · subst hka
        by_cases hkb : k = b <;> simp [dinsert, dlookup, hkb]
      · by_cases hkb : k = b
        · subst hkb
          have : ¬(a = k) := fun h => hka h.symm
          simp [dinsert, dlookup, hka, this]
        · simp [dinsert, dlookup, hka, hkb, ih]

theorem except_bind_ok {α β ε : Type} {x : Except ε α} {f : α → Except ε β} {b : β}
    (h : x.bind f = .ok b) : ∃ a, x = .ok a ∧ f a = .ok b := by
  cases x with
  | ok a => exact ⟨a, rfl, h⟩
  | error e => simp [Except.bind] at h

theorem deepUpdate_dlookup_isSome (s t : List (String × Json)) (k : String)
    (h : (dlookup t k).isSome = true) :
    (dlookup (deepUpdate t s) k).isSome = true := by
  induction s generalizing t with
  | nil => simpa [deepUpdate] using h
  | cons p rest ih =>
      obtain ⟨k0, v⟩ := p
      have hins : ∀ w : Json, (dlookup (dinsert t k0 w) k).isSome = true := by
        intro w
        rw [dinsert_dlookup]
        by_cases hk : k0 = k <;> simp [hk, h]
      unfold deepUpdate
      cases hl : dlookup t k0 with
      | some u => cases u <;> cases v <;> exact ih _ (hins _)
      | none => cases v <;> exact ih _ (hins _)

theorem deepUpdate_dlookup_of_not_mem (s t : List (String × Json)) (k : String)
    (h : dlookup s k = none) :
    dlookup (deepUpdate t s) k = dlookup t k := by
  induction s generalizing t with
  | nil => simp [deepUpdate]
  | cons p rest ih =>
      obtain ⟨k0, v⟩ := p
      have hk0 : ¬(k0 = k) := by
        intro he
        simp [dlookup, he] at h
      have hrest : dlookup rest k = none := by
        simpa [dlookup, hk0] using h
      have hins : ∀ w : Json, dlookup (dinsert t k0 w) k = dlookup t k := by
        intro w
        rw [dinsert_dlookup]
        simp [hk0]
      unfold deepUpdate
      cases hl : dlookup t k0 with
      | some u =>
          cases u <;> cases v <;> rw [ih _ hrest] <;> exact hins _
      | none => cases v <;> rw [ih _ hrest] <;> exact hins _

/-! ## Lemmas about the environment-override phase -/

theorem setNested_jLookup2_self {cfg c2 : Json} {sect key : String} {v : Json}
    (h : setNested cfg sect key v = .ok c2) :
    jLookup2 c2 sect key = some v := by
  cases cfg with
  | obj es =>
      cases hl : dlookup es sect with
      | some u =>
          cases u <;> simp [setNested, hl] at h
          case obj inner =>
            subst h
            simp [jLookup2, jLookup, dinsert_dlookup]
      | none => simp [setNested, hl] at h
  | null => simp [setNested] at h
  | bool b => simp [setNested] at h
  | int n => simp [setNested] at h
  | str s => simp [setNested] at h
  | arr xs => simp [setNested] at h

theorem setNested_jLookup2_other {cfg c2 : Json} {sect key s0 k0 : String} {v : Json}
    (h : setNested cfg sect key v = .ok c2) (hne : sect ≠ s0 ∨ key ≠ k0) :
    jLookup2 c2 s0 k0 = jLookup2 cfg s0 k0 := by
  cases cfg with
  | obj es =>
      cases hl : dlookup es sect with
      | some u =>
          cases u <;> simp [setNested, hl] at h
          case obj inner =>
            subst h
            by_cases hs : sect = s0
            · subst hs
              rcases hne with hne | hne
              · exact absurd rfl hne
              · simp [jLookup2, jLookup, dinsert_dlookup, hl, hne]
            · simp [jLookup2, jLookup, dinsert_dlookup, hs]
      | none => simp [setNested, hl] at h
  | null => simp [setNested] at h
  | bool b => simp [setNested] at h
  | int n => simp [setNested] at h
  | str s => simp [setNested] at h
  | arr xs => simp [setNested] at h

theorem setNested_jLookup_isSome {cfg c2 : Json} {sect key : String} {v : Json} {k : String}
    (h : setNested cfg sect key v = .ok c2)
    (hk : (jLookup cfg k).isSome = true) :
    (jLookup c2 k).isSome = true := by
  cases cfg with
  | obj es =>
      cases hl : dlookup es sect with
      | some u =>
          cases u <;> simp [setNested, hl] at h
          case obj inner =>
            subst h
            rw [jLookup] at hk ⊢
            rw [dinsert_dlookup]
            by_cases hs : sect = k <;> simp [hs, hk]
      | none => simp [setNested, hl] at h
  | null => simp [setNested] at h
  | bool b => simp [setNested] at h
  | int n => simp [setNested] at h
  | str s => simp [setNested] at h
  | arr xs => simp [setNested] at h

theorem envSet_jLookup2_other {env : List (String × String)} {var sect key s0 k0 : String}
    {conv : String → Except PyError Json} {cfg c2 : Json}
    (h : envSet env var sect key conv cfg = .ok c2) (hne : sect ≠ s0 ∨ key ≠ k0) :
    jLookup2 c2 s0 k0 = jLookup2 cfg s0 k0 := by
  unfold envSet at h
  cases hg : getenv env var with
  | none => rw [hg] at h; cases h; rfl
  | some s =>
      rw [hg] at h
      dsimp only at h
      by_cases hs : s = ""
      · rw [if_pos hs] at h; cases h; rfl
      · rw [if_neg hs] at h
        cases hc : conv s with
        | ok v => rw [hc] at h; exact setNested_jLookup2_other h hne
        | error e => rw [hc] at h; exact absurd h (by simp)

theorem envSet_jLookup2_self {env : List (String × String)} {var sect key : String}
    {conv : String → Except PyError Json} {cfg c2 : Json} {s : String} {v : Json}
    (h : envSet env var sect key conv cfg = .ok c2)
    (hg : getenv env var = some s) (hs : s ≠ "") (hc : conv s = .ok v) :
    jLookup2 c2 sect key = some v := by
  unfold envSet at h
  rw [hg] at h
  dsimp only at h
  rw [if_neg hs, hc] at h
  exact setNested_jLookup2_self h

theorem envSet_jLookup_isSome {env : List (String × String)} {var sect key : String}
    {conv : String → Except PyError Json} {cfg c2 : Json} {k : String}
    (h : envSet env var sect key conv cfg = .ok c2)
    (hk : (jLookup cfg k).isSome = true) :
    (jLookup c2 k).isSome = true := by
  unfold envSet at h
  cases hg : getenv env var with
  | none => rw [hg] at h; cases h; exact hk
  | some s =>
      rw [hg] at h
      dsimp only at h
      by_cases hs : s = ""
      · rw [if_pos hs] at h; cases h; exact hk
      · rw [if_neg hs] at h
        cases hc : conv s with
        | ok v => rw [hc] at h; exact setNested_jLookup_isSome h hk
        | error e => rw [hc] at h; exact absurd h (by simp)

/-! ## Decimal numerals and `int()` -/

/-- A plain decimal numeral: nonempty, decimal digits only. -/
def isNumeral (s : String) : Bool := !s.data.isEmpty && allDigits s.data

/-- The number denoted by a decimal numeral (most significant digit first). -/
def decValue (s : String) : Nat :=
  s.data.foldl (fun acc c => acc * 10 + (c.toNat - 48)) 0

theorem allDigits_iff (ds : List Char) :
    allDigits ds = true ↔ ∀ c ∈ ds, c.isDigit = true := by
  induction ds with
  | nil => simp [allDigits]
  | cons c rest ih => simp [allDigits, ih]

theorem digit_not_pyWs (c : Char) (h : c.isDigit = true) : isPyWs c = false := by
  by_contra hw
  rw [Bool.not_eq_false] at hw
  simp only [isPyWs, Bool.or_eq_true, decide_eq_true_eq] at hw
  rcases hw with ((((h1 | h1) | h1) | h1) | h1) | h1 <;> subst h1 <;> simp [Char.isDigit] at h

theorem dropWhile_pyWs_of_digits (ds : List Char) (h : allDigits ds = true) :
    ds.dropWhile isPyWs = ds := by
  cases ds with
  | nil => rfl
  | cons c rest =>
      have hc : c.isDigit = true := by
        rw [allDigits_iff] at h
        exact h c (List.mem_cons_self _ _)
      simp [List.dropWhile, digit_not_pyWs c hc]

theorem pyStrip_of_digits (ds : List Char) (h : allDigits ds = true) :
    pyStrip ds = ds := by
  have hrev : allDigits ds.reverse = true := by
    rw [allDigits_iff] at h ⊢
    intro c hc
    exact h c (List.mem_reverse.mp hc)
  unfold pyStrip
  rw [dropWhile_pyWs_of_digits ds h, dropWhile_pyWs_of_digits ds.reverse hrev,
    List.reverse_reverse]

theorem foldl_digits_acc (ds : List Char) (a : Nat) :
    ds.foldl (fun acc c => acc * 10 + (c.toNat - 48)) a
      = a * 10 ^ ds.length + ds.foldl (fun acc c => acc * 10 + (c.toNat - 48)) 0 := by
  induction ds generalizing a with
  | nil => simp
  | cons c rest ih =>
      simp only [List.foldl_cons, List.length_cons]
      rw [ih (a * 10 + (c.toNat - 48)), ih (0 * 10 + (c.toNat - 48))]
      ring

theorem pyIntDigits_eq_foldl (ds : List Char) (hne : ds ≠ []) (h : allDigits ds = true) :
    pyIntDigits ds = some (ds.foldl (fun acc c => acc * 10 + (c.toNat - 48)) 0) := by
  induction ds with
  | nil => exact absurd rfl hne
  | cons c rest ih =>
      have hc : c.isDigit = true := by
        rw [allDigits_iff] at h
        exact h c (List.mem_cons_self _ _)
      have hrest : allDigits rest = true := by
        rw [allDigits_iff] at h ⊢
        intro x hx
        exact h x (List.mem_cons_of_mem _ hx)
      cases rest with
      | nil => simp [pyIntDigits, hc]
      | cons d rest2 =>
          have ihr := ih (by simp) hrest
          have e1 : List.foldl (fun acc c => acc * 10 + (c.toNat - 48)) 0 (c :: d :: rest2)
              = (c.toNat - 48) * 10 ^ (d :: rest2).length
                + List.foldl (fun acc c => acc * 10 + (c.toNat - 48)) 0 (d :: rest2) := by
            rw [List.foldl_cons, foldl_digits_acc]
            simp
          simp only [pyIntDigits, hc, if_true, ihr, e1]

theorem pyInt_numeral (s : String) (h : isNumeral s = true) :
    pyInt s = .ok ((decValue s : Nat) : Int) := by
  obtain ⟨hne, hdig⟩ : ¬s.data.isEmpty = true ∧ allDigits s.data = true := by
    simpa [isNumeral] using h
  have hne' : s.data ≠ [] := by
    intro he
    rw [he] at hne
    exact hne rfl
  unfold pyInt
  rw [pyStrip_of_digits s.data hdig]
  have hval := pyIntDigits_eq_foldl s.data hne' hdig
  obtain ⟨c, rest, hds⟩ : ∃ c rest, s.data = c :: rest := by
    cases hd : s.data with
    | nil => exact absurd hd hne'
    | cons c rest => exact ⟨c, rest, rfl⟩
  have hc : c.isDigit = true := by
    rw [allDigits_iff] at hdig
    exact hdig c (by rw [hds]; exact List.mem_cons_self _ _)
  have hcm : c ≠ '-' := by
    intro he
    rw [he] at hc
    simp [Char.isDigit] at hc
  have hcp : c ≠ '+' := by
    intro he
    rw [he] at hc
    simp [Char.isDigit] at hc
  rw [hds] at hval ⊢
  split
  · next ds heq =>
      obtain ⟨h1, h2⟩ := List.cons_eq_cons.mp heq
      exact absurd h1 hcm
  · next ds heq =>
      obtain ⟨h1, h2⟩ := List.cons_eq_cons.mp heq
      exact absurd h1 hcp
  · next ds hne1 hne2 =>
      rw [hval]
      unfold decValue
      rw [hds]

theorem setNested_jLookup_other {cfg c2 : Json} {sect key k : String} {v : Json}
    (h : setNested cfg sect key v = .ok c2) (hk : sect ≠ k) :
    jLookup c2 k = jLookup cfg k := by
  cases cfg with
  | obj es =>
      cases hl : dlookup es sect with
      | some u =>
          cases u <;> simp [setNested, hl] at h
          case obj inner =>
            subst h
            simp [jLookup, dinsert_dlookup, hk]
      | none => simp [setNested, hl] at h
  | null => simp [setNested] at h
  | bool b => simp [setNested] at h
  | int n => simp [setNested] at h
  | str s => simp [setNested] at h
  | arr xs => simp [setNested] at h

theorem envSet_jLookup_other {env : List (String × String)} {var sect key k : String}
    {conv : String → Except PyError Json} {cfg c2 : Json}
    (h : envSet env var sect key conv cfg = .ok c2) (hk : sect ≠ k) :
    jLookup c2 k = jLookup cfg k := by
  unfold envSet at h
  cases hg : getenv env var with
  | none => rw [hg] at h; cases h; rfl
  | some s =>
      rw [hg] at h
      dsimp only at h
      by_cases hs : s = ""
      · rw [if_pos hs] at h; cases h; rfl
      · rw [if_neg hs] at h
        cases hc : conv s with
        | ok v => rw [hc] at h; exact setNested_jLookup_other h hk
        | error e => rw [hc] at h; exact absurd h (by simp)

/-- Decompose a successful run of the environment-override phase into its
nine `envSet` steps. -/
theorem applyEnv_decompose {env : List (String × String)} {cfg c : Json}
    (h : applyEnv env cfg = .ok c) :
    ∃ c1 c2 c3 c4 c5 c6 c7 c8,
      envSet env "POSTGRES_HOST" "database" "host" convStr cfg = .ok c1
      ∧ envSet env "POSTGRES_PORT" "database" "port" convInt c1 = .ok c2
      ∧ envSet env "POSTGRES_DB" "database" "dbname" convStr c2 = .ok c3
      ∧ envSet env "POSTGRES_USER" "database" "user" convStr c3 = .ok c4
      ∧ envSet env "POSTGRES_PASSWORD" "database" "password" convStr c4 = .ok c5
      ∧ envSet env "OUTPUT_DIR" "output" "directory" convStr c5 = .ok c6
      ∧ envSet env "OUTPUT_OVERWRITE" "output" "overwrite" convTruthy c6 = .ok c7
      ∧ envSet env "LOG_LEVEL" "logging" "level" convStr c7 = .ok c8
      ∧ envSet env "LOG_FILE" "logging" "file" convStr c8 = .ok c := by
  unfold applyEnv at h
  obtain ⟨c1, h1, h⟩ := except_bind_ok h
  obtain ⟨c2, h2, h⟩ := except_bind_ok h
  obtain ⟨c3, h3, h⟩ := except_bind_ok h
  obtain ⟨c4, h4, h⟩ := except_bind_ok h
  obtain ⟨c5, h5, h⟩ := except_bind_ok h
  obtain ⟨c6, h6, h⟩ := except_bind_ok h
  obtain ⟨c7, h7, h⟩ := except_bind_ok h
  obtain ⟨c8, h8, h⟩ := except_bind_ok h
  exact ⟨c1, c2, c3, c4, c5, c6, c7, c8, h1, h2, h3, h4, h5, h6, h7, h8, h⟩

/-- After a successful environment phase in which `POSTGRES_PORT` was set
to a nonempty value, the `database.port` entry holds its converted value. -/
theorem applyEnv_port {env : List (String × String)} {cfg c : Json} {s : String} {v : Json}
    (h : applyEnv env cfg = .ok c)
    (hg : getenv env "POSTGRES_PORT" = some s) (hs : s ≠ "") (hc : convInt s = .ok v) :
    jLookup2 c "database" "port" = some v := by
  obtain ⟨c1, c2, c3, c4, c5, c6, c7, c8, h1, h2, h3, h4, h5, h6, h7, h8, h9⟩ :=
    applyEnv_decompose h
  have e2 : jLookup2 c2 "database" "port" = some v := envSet_jLookup2_self h2 hg hs hc
  rw [envSet_jLookup2_other h9 (by right; decide), envSet_jLookup2_other h8 (by right; decide),
    envSet_jLookup2_other h7 (by left; decide), envSet_jLookup2_other h6 (by left; decide),
    envSet_jLookup2_other h5 (by right; decide), envSet_jLookup2_other h4 (by right; decide),
    envSet_jLookup2_other h3 (by right; decide)]
  exact e2

/-- After a successful environment phase in which `POSTGRES_HOST` was set
to a nonempty value, the `database.host` entry holds that string. -/
theorem applyEnv_host {env : List (String × String)} {cfg c : Json} {s : String}
    (h : applyEnv env cfg = .ok c)
    (hg : getenv env "POSTGRES_HOST" = some s) (hs : s ≠ "") :
    jLookup2 c "database" "host" = some (.str s) := by
  obtain ⟨c1, c2, c3, c4, c5, c6, c7, c8, h1, h2, h3, h4, h5, h6, h7, h8, h9⟩ :=
    applyEnv_decompose h
  have e1 : jLookup2 c1 "database" "host" = some (.str s) :=
    envSet_jLookup2_self h1 hg hs rfl
  rw [envSet_jLookup2_other h9 (by right; decide), envSet_jLookup2_other h8 (by right; decide),
    envSet_jLookup2_other h7 (by left; decide), envSet_jLookup2_other h6 (by left; decide),
    envSet_jLookup2_other h5 (by right; decide), envSet_jLookup2_other h4 (by right; decide),
    envSet_jLookup2_other h3 (by right; decide), envSet_jLookup2_other h2 (by right; decide)]
  exact e1

/-- The environment phase never touches the `message_types` entry. -/
theorem applyEnv_message_types {env : List (String × String)} {cfg c : Json}
    (h : applyEnv env cfg = .ok c) :
    jLookup c "message_types" = jLookup cfg "message_types" := by
  obtain ⟨c1, c2, c3, c4, c5, c6, c7, c8, h1, h2, h3, h4, h5, h6, h7, h8, h9⟩ :=
    applyEnv_decompose h
  rw [envSet_jLookup_other h9 (by decide), envSet_jLookup_other h8 (by decide),
    envSet_jLookup_other h7 (by decide), envSet_jLookup_other h6 (by decide),
    envSet_jLookup_other h5 (by decide), envSet_jLookup_other h4 (by decide),
    envSet_jLookup_other h3 (by decide), envSet_jLookup_other h2 (by decide),
    envSet_jLookup_other h1 (by decide)]

/-- The environment phase can only add or replace entries, never drop them. -/
theorem applyEnv_jLookup_isSome {env : List (String × String)} {cfg c : Json} {k : String}
    (h : applyEnv env cfg = .ok c) (hk : (jLookup cfg k).isSome = true) :
    (jLookup c k).isSome = true := by
  obtain ⟨c1, c2, c3, c4, c5, c6, c7, c8, h1, h2, h3, h4, h5, h6, h7, h8, h9⟩ :=
    applyEnv_decompose h
  exact envSet_jLookup_isSome h9 (envSet_jLookup_isSome h8 (envSet_jLookup_isSome h7
    (envSet_jLookup_isSome h6 (envSet_jLookup_isSome h5 (envSet_jLookup_isSome h4
      (envSet_jLookup_isSome h3 (envSet_jLookup_isSome h2
        (envSet_jLookup_isSome h1 hk))))))))

theorem applyMessageTypesFile_isSome (cfg1 : List (String × Json)) (mf : Option Json)
    (k : String) (h : (dlookup cfg1 k).isSome = true) :
    (dlookup (applyMessageTypesFile cfg1 mf) k).isSome = true := by
  have hins : ∀ (t : List (String × Json)) (a : String) (v : Json),
      (dlookup t k).isSome = true → (dlookup (dinsert t a v) k).isSome = true := by
    intro t a v ht
    rw [dinsert_dlookup]
    by_cases hak : a = k <;> simp [hak, ht]
  cases mf with
  | none => exact h
  | some j =>
      cases j with
      | obj src =>
          simp only [applyMessageTypesFile]
          cases hmt : dlookup src "message_types" <;>
            cases hdf : dlookup src "default_message_format" <;>
            simp only [] <;>
            first
              | exact h
              | exact hins _ _ _ h
              | exact hins _ _ _ (hins _ _ _ h)
      | null => exact h
      | bool b => exact h
      | int n => exact h
      | str s => exact h
      | arr xs => exact h

theorem applyMessageTypesFile_mt_none (cfg1 : List (String × Json)) (mf : Option Json)
    (hmf : ∀ src, mf = some (.obj src) → dlookup src "message_types" = none) :
    dlookup (applyMessageTypesFile cfg1 mf) "message_types"
      = dlookup cfg1 "message_types" := by
  cases mf with
  | none => rfl
  | some j =>
      cases j with
      | obj src =>
          have hmt : dlookup src "message_types" = none := hmf src rfl
          simp only [applyMessageTypesFile, hmt]
          cases hdf : dlookup src "default_message_format"
          · rfl
          · rw [dinsert_dlookup]
            simp
      | null => rfl
      | bool b => rfl
      | int n => rfl
      | str s => rfl
      | arr xs => rfl

/-! ## Claim C9 -/

/-- C9: with no files and no environment, `load_config` returns exactly the
built-in defaults; and whenever `POSTGRES_PORT` is bound to a decimal
numeral in the environment and `load_config` returns, the returned
configuration's `database.port` is that numeral's value as an integer
(`Json.int`, not `Json.str`). -/
theorem load_config_defaults_and_port :
    load_config none none [] = .ok defaultConfigJson
    ∧ ∀ (cf mf : Option Json) (env : List (String × String)) (s : String) (c : Json),
        getenv env "POSTGRES_PORT" = some s → isNumeral s = true →
        load_config cf mf env = .ok c →
        jLookup2 c "database" "port" = some (.int (decValue s)) := by
  refine ⟨rfl, ?_⟩
  intro cf mf env s c hg hnum hok
  have hs : s ≠ "" := by
    intro he
    subst he
    simp [isNumeral] at hnum
  have hc : convInt s = .ok (.int (decValue s)) := by
    unfold convInt
    rw [pyInt_numeral s hnum]
  unfold load_config at hok
  exact applyEnv_port hok hg hs hc

/-- The value of a successful computation, or the fallback. -/
def okOr (x : Except PyError Json) (d : Json) : Json :=
  match x with
  | .ok v => v
  | .error _ => d

/-- Witness for C9 with `POSTGRES_PORT=6543`. -/
theorem load_config_defaults_and_port_witness :
    jLookup2 (okOr (load_config none none [("POSTGRES_PORT", "6543")]) Json.null)
      "database" "port" = some (.int 6543) :=
  load_config_defaults_and_port.2 none none [("POSTGRES_PORT", "6543")] "6543"
    (okOr (load_config none none [("POSTGRES_PORT", "6543")]) Json.null)
    rfl (by decide) rfl

/-! ## Claim C2 -/

/-- A message-types file carrying a table with the single entry `X`. -/
def mtFileCex : Json := .obj [("message_types", .obj [("X", .str "y")])]

/-- C2 counterexample: the claim fails for the message-types file.  The key
`Event/Call` is present in `DEFAULT_CONFIG.message_types` and is not
overridden by the file (whose table does not mention it) nor by the (empty)
environment, yet it is absent after `load_config`: the message-types-file
branch assigns the whole table instead of deep-merging it. -/
theorem load_config_mt_file_drops_default_entries :
    dlookup defaultMessageTypes "Event/Call" = some (.str "***A call started/ended***")
    ∧ jLookup mtFileCex "message_types" = some (.obj [("X", .str "y")])
    ∧ dlookup [("X", Json.str "y")] "Event/Call" = none
    ∧ (load_config none (some mtFileCex) []).map
        (fun c => jLookup2 c "message_types" "Event/Call") = .ok none :=
  ⟨rfl, rfl, rfl, rfl⟩

/-- C2, amended: after a successful `load_config`,

* every top-level key of `DEFAULT_CONFIG` is still present;
* the whole default `message_types` table survives unchanged provided
  neither the message-types file nor the main config file carries a
  `message_types` key (whereas a message-types file that does carry one
  replaces the table wholesale — see
  `load_config_mt_file_drops_default_entries` — and the main config file
  deep-merges into it);
* a nonempty environment value always wins over any file value:
  `POSTGRES_PORT` (as an integer) and `POSTGRES_HOST` land in the result
  regardless of the file arguments. -/
theorem load_config_merge_invariants
    (cf mf : Option Json) (env : List (String × String)) (c : Json)
    (hok : load_config cf mf env = .ok c) :
    (∀ k, (dlookup defaultEntries k).isSome = true → (jLookup c k).isSome = true)
    ∧ ((∀ src, mf = some (.obj src) → dlookup src "message_types" = none) →
       (∀ src, cf = some (.obj src) → dlookup src "message_types" = none) →
       jLookup c "message_types" = some (.obj defaultMessageTypes))
    ∧ (∀ s, getenv env "POSTGRES_PORT" = some s → isNumeral s = true →
        jLookup2 c "database" "port" = some (.int (decValue s)))
    ∧ (∀ s, getenv env "POSTGRES_HOST" = some s → s ≠ "" →
        jLookup2 c "database" "host" = some (.str s)) := by
  have hsplit : ∃ cfg1 : List (String × Json),
      applyEnv env (.obj (applyMessageTypesFile cfg1 mf)) = .ok c
      ∧ (∀ k, (dlookup defaultEntries k).isSome = true → (dlookup cfg1 k).isSome = true)
      ∧ ((∀ src, cf = some (.obj src) → dlookup src "message_types" = none) →
          dlookup cfg1 "message_types" = some (.obj defaultMessageTypes)) := by
    unfold load_config at hok
    rcases cf with _ | j
    · exact ⟨defaultEntries, hok, fun k h => h, fun _ => rfl⟩
    · cases j with
      | obj src =>
          refine ⟨deepUpdate defaultEntries src, hok, ?_, ?_⟩
          · exact fun k h => deepUpdate_dlookup_isSome src defaultEntries k h
          · intro hcf
            rw [deepUpdate_dlookup_of_not_mem src defaultEntries _ (hcf src rfl)]
            rfl
      | null => exact ⟨defaultEntries, hok, fun k h => h, fun _ => rfl⟩
      | bool b => exact ⟨defaultEntries, hok, fun k h => h, fun _ => rfl⟩
      | int n => exact ⟨defaultEntries, hok, fun k h => h, fun _ => rfl⟩
      | str s => exact ⟨defaultEntries, hok, fun k h => h, fun _ => rfl⟩
      | arr xs => exact ⟨defaultEntries, hok, fun k h => h, fun _ => rfl⟩
  obtain ⟨cfg1, hA, hkeys, hmtc⟩ := hsplit
  refine ⟨?_, ?_, ?_, ?_⟩
  · intro k hk
    have h2 : (dlookup (applyMessageTypesFile cfg1 mf) k).isSome = true :=
      applyMessageTypesFile_isSome cfg1 mf k (hkeys k hk)
    exact applyEnv_jLookup_isSome hA (by simpa [jLookup] using h2)
  · intro hmf hcf
    rw [applyEnv_message_types hA]
    show dlookup (applyMessageTypesFile cfg1 mf) "message_types" = _
    rw [applyMessageTypesFile_mt_none cfg1 mf hmf]
    exact hmtc hcf
  · intro s hg hnum
    have hs : s ≠ "" := by
      intro he
      subst he
      simp [isNumeral] at hnum
    have hc : convInt s = .ok (.int (decValue s)) := by
      unfold convInt
      rw [pyInt_numeral s hnum]
    exact applyEnv_port hA hg hs hc
  · intro s hg hs
    exact applyEnv_host hA hg hs

/-- Witness for C2 (amended), at the default inputs with
`POSTGRES_PORT=6543` and `POSTGRES_HOST=db9` set. -/
theorem load_config_merge_invariants_witness :
    (jLookup (okOr
        (load_config none none [("POSTGRES_PORT", "6543"), ("POSTGRES_HOST", "db9")])
        Json.null) "output").isSome = true
    ∧ jLookup (okOr
        (load_config none none [("POSTGRES_PORT", "6543"), ("POSTGRES_HOST", "db9")])
        Json.null) "message_types" = some (.obj defaultMessageTypes)
    ∧ jLookup2 (okOr
        (load_config none none [("POSTGRES_PORT", "6543"), ("POSTGRES_HOST", "db9")])
        Json.null) "database" "port" = some (.int 6543)
    ∧ jLookup2 (okOr
        (load_config none none [("POSTGRES_PORT", "6543"), ("POSTGRES_HOST", "db9")])
        Json.null) "database" "host" = some (.str "db9") := by
  obtain ⟨h1, h2, h3, h4⟩ := load_config_merge_invariants none none
    [("POSTGRES_PORT", "6543"), ("POSTGRES_HOST", "db9")]
    (okOr
      (load_config none none [("POSTGRES_PORT", "6543"), ("POSTGRES_HOST", "db9")])
      Json.null) rfl
  exact ⟨h1 "output" rfl, h2 (by intro src h; cases h) (by intro src h; cases h),
    h3 "6543" rfl (by decide), h4 "db9" rfl (by decide)⟩

/-! ## UTF-8 (`bytes.decode('utf-8')` in `file_handler.py` lines 69 and 143)

Bytes are modelled as `Nat`s below 256.  `utf8Decode` is the strict decoder
(`errors='strict'`, the default): malformed sequences — stray continuation
bytes, overlong encodings, surrogate code points, values above `0x10FFFF` —
yield `none`, modelling `UnicodeDecodeError`. -/

/-- UTF-8 encoding of one scalar value (RFC 3629). -/
def utf8EncodeChar (c : Char) : List Nat :=
  if c.toNat < 0x80 then [c.toNat]
  else if c.toNat < 0x800 then [0xC0 + c.toNat / 0x40, 0x80 + c.toNat % 0x40]
  else if c.toNat < 0x10000 then
    [0xE0 + c.toNat / 0x1000, 0x80 + c.toNat / 0x40 % 0x40, 0x80 + c.toNat % 0x40]
  else
    [0xF0 + c.toNat / 0x40000, 0x80 + c.toNat / 0x1000 % 0x40,
     0x80 + c.toNat / 0x40 % 0x40, 0x80 + c.toNat % 0x40]

/-- UTF-8 encoding of a string's characters. -/
def utf8Encode (cs : List Char) : List Nat := (cs.map utf8EncodeChar).flatten

/-- Is this byte a UTF-8 continuation byte? -/
def isCont (b : Nat) : Bool := 0x80 ≤ b && b < 0xC0

/-- Scalar value assembled from a 3-byte sequence. -/
def utf3Val (b b2 b3 : Nat) : Nat :=
  (b - 0xE0) * 0x1000 + (b2 - 0x80) * 0x40 + (b3 - 0x80)

/-- Validity of a 3-byte sequence value: not overlong, not a surrogate. -/
def utf3Ok (b b2 b3 : Nat) : Bool :=
  0x800 <= utf3Val b b2 b3
    && (utf3Val b b2 b3 < 0xD800 || 0xE000 <= utf3Val b b2 b3)

/-- Scalar value assembled from a 4-byte sequence. -/
def utf4Val (b b2 b3 b4 : Nat) : Nat :=
  (b - 0xF0) * 0x40000 + (b2 - 0x80) * 0x1000 + (b3 - 0x80) * 0x40 + (b4 - 0x80)

/-- Validity of a 4-byte sequence value: not overlong, in Unicode range. -/
def utf4Ok (b b2 b3 b4 : Nat) : Bool :=
  0x10000 <= utf4Val b b2 b3 b4 && utf4Val b b2 b3 b4 < 0x110000

/-- Decode one UTF-8 sequence: the first byte and the following bytes;
returns the decoded character and the bytes after the sequence. -/
def utf8Step (b : Nat) (rest : List Nat) : Option (Char × List Nat) :=
  if b < 0x80 then some (Char.ofNat b, rest)
  else if b < 0xC2 then none
  else if b < 0xE0 then
    match rest with
    | [] => none
    | b2 :: r =>
        if isCont b2 then some (Char.ofNat ((b - 0xC0) * 0x40 + (b2 - 0x80)), r)
        else none
  else if b < 0xF0 then
    match rest with
    | b2 :: b3 :: r =>
        if isCont b2 && isCont b3 && utf3Ok b b2 b3 then
          some (Char.ofNat (utf3Val b b2 b3), r)
        else none
    | _ => none
  else if b < 0xF5 then
    match rest with
    | b2 :: b3 :: b4 :: r =>
        if isCont b2 && isCont b3 && isCont b4 && utf4Ok b b2 b3 b4 then
          some (Char.ofNat (utf4Val b b2 b3 b4), r)
        else none
    | _ => none
  else none

/-- Strict UTF-8 decoding with fuel; one unit of fuel per decoded
character, so `length + 1` always suffices. -/
def utf8DecodeAux : Nat → List Nat → Option (List Char)
  | 0, _ => none
  | _ + 1, [] => some []
  | f + 1, b :: rest =>
      match utf8Step b rest with
      | some (c, r) => (utf8DecodeAux f r).map (fun cs => c :: cs)
      | none => none

/-- Strict UTF-8 decoding (`bytes.decode('utf-8')`). -/
def utf8Decode (bs : List Nat) : Option (List Char) :=
  utf8DecodeAux (bs.length + 1) bs

theorem utf8Step_encodeChar (c : Char) (r : List Nat) :
    utf8EncodeChar c ++ r ≠ []
    ∧ utf8Step ((utf8EncodeChar c ++ r).headD 0) ((utf8EncodeChar c ++ r).tail)
        = some (c, r) := by
  have hval : c.toNat < 0xD800 ∨ (0xE000 ≤ c.toNat ∧ c.toNat < 0x110000) := by
    have h := c.valid
    unfold UInt32.isValidChar at h
    unfold Nat.isValidChar at h
    exact h
  have hofn : Char.ofNat c.toNat = c := Char.ofNat_toNat c
  by_cases h1 : c.toNat < 0x80
  · rw [show utf8EncodeChar c = [c.toNat] by
      unfold utf8EncodeChar; rw [if_pos h1]]
    refine ⟨by simp, ?_⟩
    show utf8Step c.toNat r = some (c, r)
    unfold utf8Step
    rw [if_pos h1, hofn]
  · by_cases h2 : c.toNat < 0x800
    · rw [show utf8EncodeChar c = [0xC0 + c.toNat / 0x40, 0x80 + c.toNat % 0x40] by
        unfold utf8EncodeChar; rw [if_neg h1, if_pos h2]]
      refine ⟨by simp, ?_⟩
      show utf8Step (0xC0 + c.toNat / 0x40) ((0x80 + c.toNat % 0x40) :: r) = some (c, r)
      unfold utf8Step
      rw [if_neg (by omega)]
      rw [if_neg (by omega)]
      rw [if_pos (by omega)]
      dsimp only
      rw [show isCont (0x80 + c.toNat % 0x40) = true by
        simp only [isCont, Bool.and_eq_true, decide_eq_true_eq]; omega]
      rw [if_pos rfl]
      rw [show (0xC0 + c.toNat / 0x40 - 0xC0) * 0x40 + (0x80 + c.toNat % 0x40 - 0x80)
          = c.toNat by omega, hofn]
    · by_cases h3 : c.toNat < 0x10000
      · rw [show utf8EncodeChar c
            = [0xE0 + c.toNat / 0x1000, 0x80 + c.toNat / 0x40 % 0x40, 0x80 + c.toNat % 0x40] by
          unfold utf8EncodeChar; rw [if_neg h1, if_neg h2, if_pos h3]]
        refine ⟨by simp, ?_⟩
        show utf8Step (0xE0 + c.toNat / 0x1000)
          ((0x80 + c.toNat / 0x40 % 0x40) :: (0x80 + c.toNat % 0x40) :: r) = some (c, r)
        unfold utf8Step
        rw [if_neg (by omega)]
        rw [if_neg (by omega)]
        rw [if_neg (by omega)]
        rw [if_pos (by omega)]
        dsimp only
        have hv : utf3Val (0xE0 + c.toNat / 0x1000) (0x80 + c.toNat / 0x40 % 0x40)
            (0x80 + c.toNat % 0x40) = c.toNat := by
          unfold utf3Val
          omega
        rw [show (isCont (0x80 + c.toNat / 0x40 % 0x40) && isCont (0x80 + c.toNat % 0x40)
            && utf3Ok (0xE0 + c.toNat / 0x1000) (0x80 + c.toNat / 0x40 % 0x40)
              (0x80 + c.toNat % 0x40)) = true by
          simp only [isCont, utf3Ok, hv, Bool.and_eq_true, Bool.or_eq_true, decide_eq_true_eq]
          omega]
        rw [if_pos rfl, hv, hofn]
      · have h4 : c.toNat < 0x110000 := by omega
        rw [show utf8EncodeChar c
            = [0xF0 + c.toNat / 0x40000, 0x80 + c.toNat / 0x1000 % 0x40,
               0x80 + c.toNat / 0x40 % 0x40, 0x80 + c.toNat % 0x40] by
          unfold utf8EncodeChar; rw [if_neg h1, if_neg h2, if_neg h3]]
        refine ⟨by simp, ?_⟩
        show utf8Step (0xF0 + c.toNat / 0x40000)
          ((0x80 + c.toNat / 0x1000 % 0x40) :: (0x80 + c.toNat / 0x40 % 0x40)
            :: (0x80 + c.toNat % 0x40) :: r) = some (c, r)
        unfold utf8Step
        rw [if_neg (by omega)]
        rw [if_neg (by omega)]
        rw [if_neg (by omega)]
        rw [if_neg (by omega)]
        rw [if_pos (by omega)]
        dsimp only
        have hv : utf4Val (0xF0 + c.toNat / 0x40000) (0x80 + c.toNat / 0x1000 % 0x40)
            (0x80 + c.toNat / 0x40 % 0x40) (0x80 + c.toNat % 0x40) = c.toNat := by
          unfold utf4Val
          omega
        rw [show (isCont (0x80 + c.toNat / 0x1000 % 0x40)
            && isCont (0x80 + c.toNat / 0x40 % 0x40) && isCont (0x80 + c.toNat % 0x40)
            && utf4Ok (0xF0 + c.toNat / 0x40000) (0x80 + c.toNat / 0x1000 % 0x40)
              (0x80 + c.toNat / 0x40 % 0x40) (0x80 + c.toNat % 0x40)) = true by
          simp only [isCont, utf4Ok, hv, Bool.and_eq_true, decide_eq_true_eq]
          omega]
        rw [if_pos rfl, hv, hofn]

theorem utf8DecodeAux_encodeChar (c : Char) (r : List Nat) (f : Nat) :
    utf8DecodeAux (f + 1) (utf8EncodeChar c ++ r)
      = (utf8DecodeAux f r).map (fun cs => c :: cs) := by
  obtain ⟨hne, hstep⟩ := utf8Step_encodeChar c r
  cases he : utf8EncodeChar c ++ r with
  | nil => exact absurd he hne
  | cons b rest =>
      rw [he] at hstep
      simp only [List.headD, List.tail] at hstep
      rw [utf8DecodeAux, hstep]

theorem utf8DecodeAux_encode (cs : List Char) :
    utf8DecodeAux (cs.length + 1) (utf8Encode cs) = some cs := by
  induction cs with
  | nil => rfl
  | cons c rest ih =>
      show utf8DecodeAux (rest.length + 1 + 1)
        ((utf8EncodeChar c :: List.map utf8EncodeChar rest).flatten) = _
      rw [List.flatten_cons]
      rw [utf8DecodeAux_encodeChar c _ (rest.length + 1)]
      show Option.map (fun cs => c :: cs) (utf8DecodeAux (rest.length + 1) (utf8Encode rest)) = _
      rw [ih]
      rfl

theorem utf8DecodeAux_mono (f g : Nat) (bs : List Nat) (cs : List Char)
    (hfg : f ≤ g) (h : utf8DecodeAux f bs = some cs) :
    utf8DecodeAux g bs = some cs := by
  induction f generalizing g bs cs with
  | zero => simp [utf8DecodeAux] at h
  | succ f ih =>
      obtain ⟨g, rfl⟩ : ∃ g2, g = g2 + 1 := ⟨g - 1, by omega⟩
      cases bs with
      | nil => simpa [utf8DecodeAux] using h
      | cons b rest =>
          rw [utf8DecodeAux] at h ⊢
          cases hs : utf8Step b rest with
          | none => rw [hs] at h; exact absurd h (by simp)
          | some p =>
              obtain ⟨c0, r⟩ := p
              rw [hs] at h
              dsimp only at h ⊢
              cases hr : utf8DecodeAux f r with
              | none => rw [hr] at h; exact absurd h (by simp)
              | some cs0 =>
                  rw [hr] at h
                  rw [ih g r cs0 (by omega) hr]
                  exact h

theorem encode_length_ge (cs : List Char) : cs.length ≤ (utf8Encode cs).length := by
  induction cs with
  | nil => simp [utf8Encode]
  | cons c rest ih =>
      show _ ≤ ((utf8EncodeChar c :: List.map utf8EncodeChar rest).flatten).length
      rw [List.flatten_cons, List.length_append]
      have h1 : 1 ≤ (utf8EncodeChar c).length := by
        unfold utf8EncodeChar
        by_cases h1 : c.toNat < 0x80
        · rw [if_pos h1]; simp
        · rw [if_neg h1]
          by_cases h2 : c.toNat < 0x800
          · rw [if_pos h2]; simp
          · rw [if_neg h2]
            by_cases h3 : c.toNat < 0x10000
            · rw [if_pos h3]; simp
            · rw [if_neg h3]; simp
      have h2 : rest.length ≤ (utf8Encode rest).length := ih
      show rest.length + 1 ≤ _
      have : (utf8Encode rest).length = (List.map utf8EncodeChar rest).flatten.length := rfl
      omega

/-- UTF-8 round trip: strict decoding inverts encoding. -/
theorem utf8Decode_encode (cs : List Char) : utf8Decode (utf8Encode cs) = some cs := by
  unfold utf8Decode
  exact utf8DecodeAux_mono (cs.length + 1) ((utf8Encode cs).length + 1) _ cs
    (by have := encode_length_ge cs; omega) (utf8DecodeAux_encode cs)

/-! ## JSON parsing (`json.loads` in `file_handler.py` lines 71 and 143)

The parser follows CPython's `json` scanner: JSON whitespace is
`' '`, `'\t'`, `'\n'`, `'\r'`; strings are double-quoted with the standard
backslash escapes (including `\uXXXX` and surrogate pairs; a lone
surrogate, which CPython tolerantly decodes to an unpaired surrogate
character, has no `Char` counterpart and is a parse failure here); numbers
follow the JSON grammar (`-?(0|[1-9][0-9]*)` plus optional
fraction/exponent).  A fraction or exponent makes the number a float,
which is outside this embedding (see `Json`); such inputs fail to parse
instead of producing a float.  Duplicate object keys follow dict
semantics: the later value wins (`dinsert`). -/

/-- JSON whitespace. -/
def jsonWs (c : Char) : Bool := c = ' ' || c = '\t' || c = '\n' || c = '\r'

/-- Skip leading JSON whitespace. -/
def skipWs (cs : List Char) : List Char := cs.dropWhile jsonWs

/-- Value of one hexadecimal digit. -/
def hexVal (c : Char) : Option Nat :=
  if 48 ≤ c.toNat && c.toNat ≤ 57 then some (c.toNat - 48)
  else if 97 ≤ c.toNat && c.toNat ≤ 102 then some (c.toNat - 87)
  else if 65 ≤ c.toNat && c.toNat ≤ 70 then some (c.toNat - 55)
  else none

/-- One step inside a string literal: `some (none, rest)` on the closing
quote, `some (some c, rest)` after reading one (possibly escaped)
character, `none` on malformed input (including raw control characters,
which strict mode rejects). -/
def strStep (cs : List Char) : Option (Option Char × List Char) :=
  match cs with
  | [] => none
  | c :: rest =>
      if c = '"' then some (none, rest)
      else if c = '\\' then
        match rest with
        | [] => none
        | e :: rest2 =>
            if e = '"' then some (some '"', rest2)
            else if e = '\\' then some (some '\\', rest2)
            else if e = '/' then some (some '/', rest2)
            else if e = 'b' then some (some (Char.ofNat 8), rest2)
            else if e = 'f' then some (some (Char.ofNat 12), rest2)
            else if e = 'n' then some (some '\n', rest2)
            else if e = 'r' then some (some (Char.ofNat 13), rest2)
            else if e = 't' then some (some '\t', rest2)
            else if e = 'u' then
              match rest2 with
              | h1 :: h2 :: h3 :: h4 :: rest3 =>
                  match hexVal h1, hexVal h2, hexVal h3, hexVal h4 with
                  | some a, some b, some c3, some d =>
                      if a * 4096 + b * 256 + c3 * 16 + d < 0xD800
                          || 0xE000 ≤ a * 4096 + b * 256 + c3 * 16 + d then
                        some (some (Char.ofNat (a * 4096 + b * 256 + c3 * 16 + d)), rest3)
                      else if a * 4096 + b * 256 + c3 * 16 + d < 0xDC00 then
                        match rest3 with
                        | '\\' :: 'u' :: g1 :: g2 :: g3 :: g4 :: rest4 =>
                            match hexVal g1, hexVal g2, hexVal g3, hexVal g4 with
                            | some a2, some b2, some c4, some d2 =>
                                if 0xDC00 ≤ a2 * 4096 + b2 * 256 + c4 * 16 + d2
                                    && a2 * 4096 + b2 * 256 + c4 * 16 + d2 < 0xE000 then
                                  some (some (Char.ofNat
                                    (0x10000
                                      + (a * 4096 + b * 256 + c3 * 16 + d - 0xD800) * 0x400
                                      + (a2 * 4096 + b2 * 256 + c4 * 16 + d2 - 0xDC00))), rest4)
                                else none
                            | _, _, _, _ => none
                        | _ => none
                      else none
                  | _, _, _, _ => none
              | _ => none
            else none
      else if c.toNat < 0x20 then none
      else some (some c, rest)

/-- Parse the inside of a string literal (the opening quote already
consumed), with one unit of fuel per character. -/
def parseJStrAux : Nat → List Char → Option (List Char × List Char)
  | 0, _ => none
  | f + 1, cs =>
      match strStep cs with
      | some (none, rest) => some ([], rest)
      | some (some ch, rest) => (parseJStrAux f rest).map (fun p => (ch :: p.1, p.2))
      | none => none

/-- Parse the inside of a string literal. -/
def parseJStr (cs : List Char) : Option (List Char × List Char) :=
  parseJStrAux (cs.length + 1) cs

/-- Leading decimal digits of the input, and the rest. -/
def spanDigits : List Char → List Char × List Char
  | [] => ([], [])
  | c :: rest =>
      if c.isDigit then
        match spanDigits rest with
        | (a, b) => (c :: a, b)
      else ([], c :: rest)

/-- Number denoted by a digit string (most significant first). -/
def digitsToNat (ds : List Char) : Nat :=
  ds.foldl (fun acc c => acc * 10 + (c.toNat - 48)) 0

/-- After the integer part: a fraction or exponent would make the number a
float, which the embedding does not represent (see module comment). -/
def floatGuard (n : Nat) (rest : List Char) : Option (Nat × List Char) :=
  match rest with
  | [] => some (n, [])
  | c :: _ =>
      if c = '.' || c = 'e' || c = 'E' then none
      else some (n, rest)

/-- `(0|[1-9][0-9]*)` and the remaining input. -/
def parseNatPart : List Char → Option (Nat × List Char)
  | [] => none
  | c :: rest =>
      if c = '0' then floatGuard 0 rest
      else if c.isDigit then
        match spanDigits rest with
        | (ds, rest2) => floatGuard (digitsToNat (c :: ds)) rest2
      else none

/-- A JSON number (integers only, see `floatGuard`). -/
def parseNum (cs : List Char) : Option (Json × List Char) :=
  match cs with
  | [] => none
  | c :: rest =>
      if c = '-' then (parseNatPart rest).map (fun p => (.int (-(p.1 : Int)), p.2))
      else (parseNatPart (c :: rest)).map (fun p => (.int ((p.1 : Nat) : Int), p.2))

/-- Does the list start with the given prefix of characters? -/
def startsWithL : List Char → List Char → Bool
  | [], _ => true
  | _ :: _, [] => false
  | p :: ps, c :: cs => p = c && startsWithL ps cs

/-- The parser's mutually recursive entry points, as one fuel-indexed
function: parse a value, the elements of an array (first / subsequent),
the members of an object (first / subsequent), or one `"key": value`
member. -/
inductive JIn where
  | v (cs : List Char) : JIn
  | arrFirst (cs : List Char) : JIn
  | arrRest (acc : List Json) (cs : List Char) : JIn
  | objFirst (cs : List Char) : JIn
  | objRest (acc : List (String × Json)) (cs : List Char) : JIn
  | member (acc : List (String × Json)) (cs : List Char) : JIn

/-- The JSON scanner.  Fuel is consumed at every recursive call. -/
def pAux : Nat → JIn → Option (Json × List Char)
  | 0, _ => none
  | f + 1, .v cs =>
      match skipWs cs with
      | [] => none
      | c :: rest =>
          if c = lbrace then pAux f (.objFirst rest)
          else if c = '[' then pAux f (.arrFirst rest)
          else if c = '"' then (parseJStr rest).map (fun p => (.str (String.mk p.1), p.2))
          else if c = 't' then
            if startsWithL ['r', 'u', 'e'] rest then some (.bool true, rest.drop 3) else none
          else if c = 'f' then
            if startsWithL ['a', 'l', 's', 'e'] rest then some (.bool false, rest.drop 4)
            else none
          else if c = 'n' then
            if startsWithL ['u', 'l', 'l'] rest then some (.null, rest.drop 3) else none
          else if c = '-' || c.isDigit then parseNum (c :: rest)
          else none
  | f + 1, .arrFirst cs =>
      match skipWs cs with
      | [] => none
      | c :: rest =>
          if c = ']' then some (.arr [], rest)
          else (pAux f (.v (c :: rest))).bind (fun q => pAux f (.arrRest [q.1] q.2))
  | f + 1, .arrRest acc cs =>
      match skipWs cs with
      | [] => none
      | c :: rest =>
          if c = ']' then some (.arr acc, rest)
          else if c = ',' then
            (pAux f (.v rest)).bind (fun q => pAux f (.arrRest (acc ++ [q.1]) q.2))
          else none
  | f + 1, .objFirst cs =>
      match skipWs cs with
      | [] => none
      | c :: rest =>
          if c = rbrace then some (.obj [], rest)
          else if c = '"' then pAux f (.member [] (c :: rest))
          else none
  | f + 1, .objRest acc cs =>
      match skipWs cs with
      | [] => none
      | c :: rest =>
          if c = rbrace then some (.obj acc, rest)
          else if c = ',' then pAux f (.member acc (skipWs rest))
          else none
  | f + 1, .member acc cs =>
      match cs with
      | [] => none
      | c :: rest =>
          if c = '"' then
            (parseJStr rest).bind (fun p =>
              match skipWs p.2 with
              | [] => none
              | c2 :: r2 =>
                  if c2 = ':' then
                    (pAux f (.v r2)).bind (fun q =>
                      pAux f (.objRest (dinsert acc (String.mk p.1) q.1) q.2))
                  else none)
          else none

/-- `json.loads` on already-decoded text: parse one value, then require
only whitespace to follow ("Extra data" otherwise). -/
def jsonLoads (cs : List Char) : Except PyError Json :=
  match pAux (cs.length + 1) (.v cs) with
  | some (v, rest) => if skipWs rest = [] then .ok v else .error .jsonDecodeError
  | none => .error .jsonDecodeError

/-! ## A JSON serializer (the `toStream`/serialization side of the
round-trip property; compact, `ensure_ascii=False`-style except that all
control characters use `\u00XX`) -/

/-- Lower-case hex digit. -/
def hexDigitChar (n : Nat) : Char :=
  if n < 10 then Char.ofNat (48 + n) else Char.ofNat (87 + n)

/-- Serialize one character of a string literal. -/
def serChar (c : Char) : List Char :=
  if c = '"' then ['\\', '"']
  else if c = '\\' then ['\\', '\\']
  else if c.toNat < 0x20 then
    '\\' :: 'u' :: '0' :: ['0', hexDigitChar (c.toNat / 16), hexDigitChar (c.toNat % 16)]
  else [c]

/-- Serialize the body of a string literal (no quotes). -/
def serStrBody (s : List Char) : List Char := (s.map serChar).flatten

/-- Decimal digits of a natural number, most significant first. -/
def serNat (m : Nat) : List Char :=
  if m < 10 then [Char.ofNat (48 + m)]
  else serNat (m / 10) ++ [Char.ofNat (48 + m % 10)]
termination_by m
decreasing_by omega

/-- Decimal representation of an integer. -/
def serInt : Int → List Char
  | .ofNat m => serNat m
  | .negSucc m => '-' :: serNat (m + 1)

mutual
/-- Compact serialization of a `Json` value. -/
def serJson : Json → List Char
  | .null => 'n' :: ['u', 'l', 'l']
  | .bool true => 't' :: ['r', 'u', 'e']
  | .bool false => 'f' :: ['a', 'l', 's', 'e']
  | .int n => serInt n
  | .str s => '"' :: (serStrBody s.data ++ ['"'])
  | .arr xs => '[' :: serElems xs
  | .obj xs => lbrace :: serMembers xs

/-- Elements of an array after the opening bracket. -/
def serElems : List Json → List Char
  | [] => [']']
  | x :: rest => serJson x ++ serElemsRest rest

/-- Elements of an array after the first element. -/
def serElemsRest : List Json → List Char
  | [] => [']']
  | x :: rest => ',' :: (serJson x ++ serElemsRest rest)

/-- Members of an object after the opening brace. -/
def serMembers : List (String × Json) → List Char
  | [] => [rbrace]
  | (k, v) :: rest =>
      '"' :: (serStrBody k.data ++ '"' :: ':' :: (serJson v ++ serMembersRest rest))

/-- Members of an object after the first member. -/
def serMembersRest : List (String × Json) → List Char
  | [] => [rbrace]
  | (k, v) :: rest =>
      ',' :: '"' :: (serStrBody k.data ++ '"' :: ':' :: (serJson v ++ serMembersRest rest))
end

mutual
/-- Fuel sufficient for `pAux` on the serialization of a value. -/
def needV : Json → Nat
  | .arr xs => 1 + needSeq xs
  | .obj xs => 1 + needMseq xs
  | _ => 1

/-- Fuel sufficient for the element chain of an array. -/
def needSeq : List Json → Nat
  | [] => 1
  | x :: xs => 1 + max (needV x) (needSeq xs)

/-- Fuel sufficient for the member chain of an object. -/
def needMseq : List (String × Json) → Nat
  | [] => 1
  | (_k, v) :: rest => 2 + max (needV v) (needMseq rest)
end

/-- Is the string one of the listed keys? -/
def keyMem (k : String) : List String → Bool
  | [] => false
  | a :: rest => a = k || keyMem k rest

/-- No string occurs twice. -/
def keysNodup : List String → Bool
  | [] => true
  | k :: rest => !keyMem k rest && keysNodup rest

mutual
/-- No duplicate keys in any object of the document — the invariant of
every value obtained from a Python `dict` (and from `json.loads`). -/
def objKeysOk : Json → Bool
  | .arr xs => objKeysOkSeq xs
  | .obj xs => keysNodup (xs.map Prod.fst) && objKeysOkMem xs
  | _ => true

/-- `objKeysOk` on every element. -/
def objKeysOkSeq : List Json → Bool
  | [] => true
  | x :: xs => objKeysOk x && objKeysOkSeq xs

/-- `objKeysOk` on every member value. -/
def objKeysOkMem : List (String × Json) → Bool
  | [] => true
  | (_, v) :: rest => objKeysOk v && objKeysOkMem rest
end


/-! ## Round-trip lemmas: strings and numbers -/

theorem toNat_ofNat_valid (n : Nat) (h : n < 0xD800) : (Char.ofNat n).toNat = n := by
  have hv : n.isValidChar := Or.inl h
  unfold Char.ofNat
  rw [dif_pos hv]
  rfl

theorem hexVal_hexDigitChar (k : Nat) (h : k < 16) : hexVal (hexDigitChar k) = some k := by
  unfold hexDigitChar
  by_cases h10 : k < 10
  · rw [if_pos h10]
    unfold hexVal
    rw [toNat_ofNat_valid (48 + k) (by omega)]
    rw [if_pos (by simp only [Bool.and_eq_true, decide_eq_true_eq]; omega)]
    simp
  · rw [if_neg h10]
    unfold hexVal
    rw [toNat_ofNat_valid (87 + k) (by omega)]
    rw [if_neg (by simp only [Bool.and_eq_true, decide_eq_true_eq]; omega)]
    rw [if_pos (by simp only [Bool.and_eq_true, decide_eq_true_eq]; omega)]
    simp

theorem strStep_serChar (c : Char) (rest : List Char) :
    strStep (serChar c ++ rest) = some (some c, rest) := by
  by_cases hq : c = '"'
  · subst hq
    rfl
  · by_cases hb : c = '\\'
    · subst hb
      rfl
    · by_cases hc : c.toNat < 0x20
      · rw [show serChar c = '\\' :: 'u' :: '0' :: ['0', hexDigitChar (c.toNat / 16),
            hexDigitChar (c.toNat % 16)] by
          unfold serChar; rw [if_neg hq, if_neg hb, if_pos hc]]
        show strStep ('\\' :: 'u' :: '0' :: '0' :: hexDigitChar (c.toNat / 16)
          :: hexDigitChar (c.toNat % 16) :: rest) = _
        unfold strStep
        dsimp only
        rw [if_neg (by decide), if_pos (by decide), if_neg (by decide), if_neg (by decide),
          if_neg (by decide), if_neg (by decide), if_neg (by decide), if_neg (by decide),
          if_neg (by decide), if_neg (by decide), if_pos (by decide)]
        rw [show hexVal '0' = some 0 from rfl,
          hexVal_hexDigitChar (c.toNat / 16) (by omega),
          hexVal_hexDigitChar (c.toNat % 16) (by omega)]
        dsimp only
        rw [show (decide (0 * 4096 + 0 * 256 + c.toNat / 16 * 16 + c.toNat % 16 < 55296)
            || decide (57344 ≤ 0 * 4096 + 0 * 256 + c.toNat / 16 * 16 + c.toNat % 16)) = true by
          simp only [Bool.or_eq_true, decide_eq_true_eq]
          omega]
        rw [if_pos rfl]
        rw [show 0 * 4096 + 0 * 256 + c.toNat / 16 * 16 + c.toNat % 16 = c.toNat by omega]
        rw [Char.ofNat_toNat]
      · rw [show serChar c = [c] by unfold serChar; rw [if_neg hq, if_neg hb, if_neg hc]]
        show strStep (c :: rest) = _
        unfold strStep
        dsimp only
        rw [if_neg hq, if_neg hb, if_neg hc]

theorem parseJStrAux_serChar (c : Char) (rest : List Char) (f : Nat) :
    parseJStrAux (f + 1) (serChar c ++ rest)
      = (parseJStrAux f rest).map (fun p => (c :: p.1, p.2)) := by
  rw [parseJStrAux, strStep_serChar]

theorem parseJStrAux_serBody (s : List Char) :
    ∀ f rest, s.length + 1 ≤ f →
      parseJStrAux f (serStrBody s ++ '"' :: rest) = some (s, rest) := by
  induction s with
  | nil =>
      intro f rest hf
      obtain ⟨g, rfl⟩ : ∃ g, f = g + 1 := ⟨f - 1, by omega⟩
      rw [show serStrBody [] ++ '"' :: rest = '"' :: rest from rfl]
      rw [parseJStrAux]
      rfl
  | cons c s ih =>
      intro f rest hf
      obtain ⟨g, rfl⟩ : ∃ g, f = g + 1 := ⟨f - 1, by omega⟩
      rw [show serStrBody (c :: s) = serChar c ++ serStrBody s by
        unfold serStrBody; rw [List.map_cons, List.flatten_cons]]
      rw [List.append_assoc, parseJStrAux_serChar]
      rw [ih g rest (by simpa using hf)]
      rfl

theorem serChar_length_pos (c : Char) : 1 ≤ (serChar c).length := by
  unfold serChar
  by_cases hq : c = '"'
  · rw [if_pos hq]; simp
  · rw [if_neg hq]
    by_cases hb : c = '\\'
    · rw [if_pos hb]; simp
    · rw [if_neg hb]
      by_cases hc : c.toNat < 0x20
      · rw [if_pos hc]; simp
      · rw [if_neg hc]; simp

theorem serStrBody_length_ge (s : List Char) : s.length ≤ (serStrBody s).length := by
  induction s with
  | nil => simp [serStrBody]
  | cons c s ih =>
      rw [show serStrBody (c :: s) = serChar c ++ serStrBody s by
        unfold serStrBody; rw [List.map_cons, List.flatten_cons]]
      rw [List.length_append, List.length_cons]
      have := serChar_length_pos c
      omega

theorem parseJStr_serBody (s rest : List Char) :
    parseJStr (serStrBody s ++ '"' :: rest) = some (s, rest) := by
  unfold parseJStr
  apply parseJStrAux_serBody
  rw [List.length_append, List.length_cons]
  have := serStrBody_length_ge s
  omega

theorem isDigit_digitChar (m : Nat) (h : m < 10) : (Char.ofNat (48 + m)).isDigit = true := by
  interval_cases m <;> decide

theorem serNat_digits (m : Nat) : allDigits (serNat m) = true ∧ serNat m ≠ [] := by
  induction m using Nat.strong_induction_on with
  | _ m ih =>
      by_cases h10 : m < 10
      · rw [show serNat m = [Char.ofNat (48 + m)] by rw [serNat, if_pos h10]]
        refine ⟨?_, by simp⟩
        simp only [allDigits, Bool.and_eq_true]
        exact ⟨isDigit_digitChar m h10, by trivial⟩
      · rw [show serNat m = serNat (m / 10) ++ [Char.ofNat (48 + m % 10)] by
          rw [serNat, if_neg h10]]
        obtain ⟨hd, hne⟩ := ih (m / 10) (by omega)
        constructor
        · rw [allDigits_iff] at hd ⊢
          intro x hx
          rcases List.mem_append.mp hx with hx | hx
          · exact hd x hx
          · have hx0 : x = Char.ofNat (48 + m % 10) := by simpa using hx
            subst hx0
            exact isDigit_digitChar (m % 10) (by omega)
        · simp

theorem digitsToNat_serNat (m : Nat) : digitsToNat (serNat m) = m := by
  induction m using Nat.strong_induction_on with
  | _ m ih =>
      by_cases h10 : m < 10
      · rw [show serNat m = [Char.ofNat (48 + m)] by rw [serNat, if_pos h10]]
        unfold digitsToNat
        simp [toNat_ofNat_valid (48 + m) (by omega)]
      · rw [show serNat m = serNat (m / 10) ++ [Char.ofNat (48 + m % 10)] by
          rw [serNat, if_neg h10]]
        unfold digitsToNat
        rw [List.foldl_append]
        have := ih (m / 10) (by omega)
        unfold digitsToNat at this
        rw [this]
        simp only [List.foldl_cons, List.foldl_nil]
        rw [toNat_ofNat_valid (48 + m % 10) (by omega)]
        omega

theorem serNat_head (m : Nat) :
    ∃ c cs, serNat m = c :: cs ∧ c.isDigit = true ∧ (c = '0' → m = 0) := by
  induction m using Nat.strong_induction_on with
  | _ m ih =>
      by_cases h10 : m < 10
      · refine ⟨Char.ofNat (48 + m), [], by rw [serNat, if_pos h10], isDigit_digitChar m h10, ?_⟩
        · intro h0
          have := congrArg Char.toNat h0
          rw [toNat_ofNat_valid (48 + m) (by omega)] at this
          have h48 : ('0').toNat = 48 := rfl
          omega
      · obtain ⟨c, cs, hds, hdig, h0⟩ := ih (m / 10) (by omega)
        refine ⟨c, cs ++ [Char.ofNat (48 + m % 10)], ?_, hdig, ?_⟩
        · rw [serNat, if_neg h10, hds]
          rfl
        · intro hc
          have := h0 hc
          omega

/-- The character after a serialized number never extends it. -/
def numDelim : List Char → Prop
  | [] => True
  | c :: _ => c.isDigit = false ∧ c ≠ '.' ∧ c ≠ 'e' ∧ c ≠ 'E'

theorem spanDigits_append (ds rest : List Char) (hds : allDigits ds = true)
    (hrest : numDelim rest) : spanDigits (ds ++ rest) = (ds, rest) := by
  induction ds with
  | nil =>
      cases rest with
      | nil => rfl
      | cons c r =>
          obtain ⟨hd, _, _, _⟩ := hrest
          simp [spanDigits, hd]
  | cons c ds ih =>
      have hc : c.isDigit = true := by
        rw [allDigits_iff] at hds
        exact hds c (List.mem_cons_self _ _)
      have hrest2 : allDigits ds = true := by
        rw [allDigits_iff] at hds ⊢
        intro x hx
        exact hds x (List.mem_cons_of_mem _ hx)
      show spanDigits (c :: (ds ++ rest)) = _
      unfold spanDigits
      rw [if_pos hc, ih hrest2]

theorem floatGuard_delim (n : Nat) (rest : List Char) (h : numDelim rest) :
    floatGuard n rest = some (n, rest) := by
  cases rest with
  | nil => rfl
  | cons c r =>
      obtain ⟨_, h1, h2, h3⟩ := h
      unfold floatGuard
      dsimp only
      rw [if_neg (by simp [h1, h2, h3])]

theorem parseNatPart_serNat (m : Nat) (rest : List Char) (h : numDelim rest) :
    parseNatPart (serNat m ++ rest) = some (m, rest) := by
  obtain ⟨c, cs, hds, hdig, h0⟩ := serNat_head m
  obtain ⟨had, _⟩ := serNat_digits m
  by_cases hm0 : c = '0'
  · have hm := h0 hm0
    subst hm
    have : serNat 0 = ['0'] := by
      rw [serNat, if_pos (by omega)]
    rw [this]
    show parseNatPart ('0' :: rest) = _
    unfold parseNatPart
    dsimp only
    rw [if_pos rfl]
    exact floatGuard_delim 0 rest h
  · rw [hds]
    show parseNatPart (c :: (cs ++ rest)) = _
    unfold parseNatPart
    dsimp only
    rw [if_neg hm0, if_pos hdig]
    have hcs : allDigits cs = true := by
      rw [hds] at had
      rw [allDigits_iff] at had ⊢
      intro x hx
      exact had x (List.mem_cons_of_mem _ hx)
    rw [spanDigits_append cs rest hcs h]
    dsimp only
    have hval : digitsToNat (c :: cs) = m := by
      rw [← hds]
      exact digitsToNat_serNat m
    rw [hval]
    exact floatGuard_delim m rest h

theorem parseNum_serInt (n : Int) (rest : List Char) (h : numDelim rest) :
    parseNum (serInt n ++ rest) = some (.int n, rest) := by
  cases n with
  | ofNat m =>
      show parseNum (serNat m ++ rest) = _
      obtain ⟨c, cs, hds, hdig, _⟩ := serNat_head m
      rw [hds]
      show parseNum (c :: (cs ++ rest)) = _
      unfold parseNum
      dsimp only
      have hcm : ¬(c = '-') := by
        intro he
        rw [he] at hdig
        simp [Char.isDigit] at hdig
      rw [if_neg hcm]
      rw [show c :: (cs ++ rest) = serNat m ++ rest by rw [hds]; rfl]
      rw [parseNatPart_serNat m rest h]
      rfl
  | negSucc m =>
      show parseNum ('-' :: (serNat (m + 1) ++ rest)) = _
      unfold parseNum
      dsimp only
      rw [if_pos rfl, parseNatPart_serNat (m + 1) rest h]
      have he : (-(((m + 1 : Nat) : Int))) = Int.negSucc m := by
        rw [Int.negSucc_eq]
        push_cast
        ring
      simp only [Option.map]
      rw [show Json.int (-(((m + 1 : Nat) : Int))) = Json.int (Int.negSucc m) by rw [he]]

/-! ## Round-trip lemmas: heads and delimiters -/

theorem isDigit_toNat (c : Char) (h : c.isDigit = true) : 48 ≤ c.toNat ∧ c.toNat ≤ 57 := by
  simp only [Char.isDigit, Bool.and_eq_true, decide_eq_true_eq] at h
  exact h

theorem char_ne_of_toNat_ne {c d : Char} (h : c.toNat ≠ d.toNat) : c ≠ d :=
  fun he => h (congrArg Char.toNat he)

theorem digit_not_jsonWs (c : Char) (h : c.isDigit = true) : jsonWs c = false := by
  by_contra hw
  rw [Bool.not_eq_false] at hw
  simp only [jsonWs, Bool.or_eq_true, decide_eq_true_eq] at hw
  rcases hw with ((h1 | h1) | h1) | h1 <;> subst h1 <;> simp [Char.isDigit] at h

theorem skipWs_cons (c : Char) (r : List Char) (h : jsonWs c = false) :
    skipWs (c :: r) = c :: r := by
  simp [skipWs, List.dropWhile, h]

/-- What may legally follow a serialized value: nothing (top level), a
comma, or a closing bracket or brace. -/
def delimOk : List Char → Prop
  | [] => True
  | c :: _ => c = ',' ∨ c = ']' ∨ c = rbrace

theorem delimOk_numDelim (rest : List Char) (h : delimOk rest) : numDelim rest := by
  cases rest with
  | nil => trivial
  | cons c r =>
      rcases h with h | h | h <;> subst h <;>
        (refine ⟨?_, ?_, ?_, ?_⟩ <;> decide)

/-- The serialization of a value starts with a character that is neither
whitespace nor a closing bracket or brace nor a comma. -/
theorem serJson_head (v : Json) :
    ∃ c cs, serJson v = c :: cs ∧ jsonWs c = false ∧ c ≠ ']' ∧ c ≠ rbrace ∧ c ≠ ',' := by
  cases v with
  | null => refine ⟨'n', _, by rw [serJson], ?_, ?_, ?_, ?_⟩ <;> decide
  | bool b =>
      cases b with
      | true => refine ⟨'t', _, by rw [serJson], ?_, ?_, ?_, ?_⟩ <;> decide
      | false => refine ⟨'f', _, by rw [serJson], ?_, ?_, ?_, ?_⟩ <;> decide
  | int n =>
      cases n with
      | ofNat m =>
          obtain ⟨c, cs, hds, hdig, _⟩ := serNat_head m
          obtain ⟨hlo, hhi⟩ := isDigit_toNat c hdig
          refine ⟨c, cs, by rw [serJson]; exact hds, digit_not_jsonWs c hdig, ?_, ?_, ?_⟩
          · exact char_ne_of_toNat_ne (by rw [show (']').toNat = 93 from rfl]; omega)
          · exact char_ne_of_toNat_ne (by rw [show rbrace.toNat = 125 from rfl]; omega)
          · exact char_ne_of_toNat_ne (by rw [show (',').toNat = 44 from rfl]; omega)
      | negSucc m =>
          refine ⟨'-', _, by rw [serJson]; rfl, ?_, ?_, ?_, ?_⟩ <;> decide
  | str s => refine ⟨'"', _, by rw [serJson], ?_, ?_, ?_, ?_⟩ <;> decide
  | arr xs => refine ⟨'[', _, by rw [serJson], ?_, ?_, ?_, ?_⟩ <;> decide
  | obj xs => refine ⟨lbrace, _, by rw [serJson], ?_, ?_, ?_, ?_⟩ <;> decide

theorem keyMem_append (k : String) (as bs : List String) :
    keyMem k (as ++ bs) = (keyMem k as || keyMem k bs) := by
  induction as with
  | nil => simp [keyMem]
  | cons a as ih => simp [keyMem, ih, Bool.or_assoc]

theorem keysNodup_append_cons (as bs : List String) (k : String)
    (h : keysNodup (as ++ k :: bs) = true) : keyMem k as = false := by
  induction as with
  | nil => rfl
  | cons a as ih =>
      simp only [List.cons_append, keysNodup, Bool.and_eq_true, Bool.not_eq_true',
        List.append_eq] at h
      obtain ⟨hmem, hrest⟩ := h
      rw [keyMem_append] at hmem
      simp only [Bool.or_eq_false_iff] at hmem
      obtain ⟨_, hkb⟩ := hmem
      have hak : (decide (a = k)) = false := by
        simp only [keyMem, Bool.or_eq_false_iff] at hkb
        rcases hkb with ⟨hka, _⟩
        simp only [decide_eq_false_iff_not] at hka ⊢
        exact fun he => hka he.symm
      simp only [keyMem, Bool.or_eq_false_iff]
      exact ⟨hak, ih hrest⟩

theorem dlookup_none_of_keyMem_false (acc : List (String × Json)) (k : String)
    (h : keyMem k (acc.map Prod.fst) = false) : dlookup acc k = none := by
  induction acc with
  | nil => rfl
  | cons p rest ih =>
      obtain ⟨a, v⟩ := p
      simp only [List.map_cons, keyMem, Bool.or_eq_false_iff, decide_eq_false_iff_not] at h
      obtain ⟨hak, hrest⟩ := h
      simp [dlookup, hak, ih hrest]

theorem dinsert_append_of_dlookup_none (acc : List (String × Json)) (k : String) (v : Json)
    (h : dlookup acc k = none) : dinsert acc k v = acc ++ [(k, v)] := by
  induction acc with
  | nil => rfl
  | cons p rest ih =>
      obtain ⟨a, w⟩ := p
      by_cases hak : a = k
      · simp [dlookup, hak] at h
      · simp only [dlookup, if_neg hak] at h
        simp [dinsert, hak, ih h]

theorem serElemsRest_delim (xs : List Json) (rest : List Char) :
    delimOk (serElemsRest xs ++ rest) := by
  cases xs with
  | nil =>
      rw [serElemsRest]
      exact Or.inr (Or.inl rfl)
  | cons x xs =>
      rw [serElemsRest]
      exact Or.inl rfl

theorem serMembersRest_delim (xs : List (String × Json)) (rest : List Char) :
    delimOk (serMembersRest xs ++ rest) := by
  cases xs with
  | nil =>
      rw [serMembersRest]
      exact Or.inr (Or.inr rfl)
  | cons m xs =>
      obtain ⟨k, v⟩ := m
      rw [serMembersRest]
      exact Or.inl rfl

theorem needV_pos (v : Json) : 1 ≤ needV v := by
  cases v <;> simp [needV]

theorem needSeq_pos (xs : List Json) : 1 ≤ needSeq xs := by
  cases xs <;> simp [needSeq]

theorem needMseq_pos (xs : List (String × Json)) : 1 ≤ needMseq xs := by
  cases xs with
  | nil => simp [needMseq]
  | cons m xs =>
      obtain ⟨k, v⟩ := m
      simp only [needMseq]
      omega

/-! ## Round-trip: values -/

theorem pAux_v_null (f : Nat) (rest : List Char) :
    pAux (f + 1) (.v (serJson .null ++ rest)) = some (.null, rest) := by
  rw [serJson]
  rfl

theorem pAux_v_true (f : Nat) (rest : List Char) :
    pAux (f + 1) (.v (serJson (.bool true) ++ rest)) = some (.bool true, rest) := by
  rw [serJson]
  rfl

theorem pAux_v_false (f : Nat) (rest : List Char) :
    pAux (f + 1) (.v (serJson (.bool false) ++ rest)) = some (.bool false, rest) := by
  rw [serJson]
  rfl

theorem pAux_v_str (s : String) (f : Nat) (rest : List Char) :
    pAux (f + 1) (.v (serJson (.str s) ++ rest)) = some (.str s, rest) := by
  rw [serJson]
  rw [show ('"' :: (serStrBody s.data ++ ['"'])) ++ rest
      = '"' :: (serStrBody s.data ++ '"' :: rest) by simp]
  rw [pAux]
  rw [skipWs_cons _ _ (by decide)]
  dsimp only
  rw [if_neg (by decide), if_neg (by decide), if_pos rfl]
  rw [parseJStr_serBody s.data rest]
  rfl

theorem pAux_v_int (n : Int) (f : Nat) (rest : List Char) (h : numDelim rest) :
    pAux (f + 1) (.v (serJson (.int n) ++ rest)) = some (.int n, rest) := by
  obtain ⟨c, cs, hds, hc⟩ :
      ∃ c cs, serInt n = c :: cs ∧ (c.isDigit = true ∨ c = '-') := by
    cases n with
    | ofNat m =>
        obtain ⟨c, cs, hds, hdig, _⟩ := serNat_head m
        exact ⟨c, cs, hds, Or.inl hdig⟩
    | negSucc m => exact ⟨'-', _, rfl, Or.inr rfl⟩
  have htn : 48 ≤ c.toNat ∧ c.toNat ≤ 57 ∨ c.toNat = 45 := by
    rcases hc with hd | hd
    · exact Or.inl (isDigit_toNat c hd)
    · subst hd
      exact Or.inr rfl
  rw [serJson, hds]
  rw [show (c :: cs) ++ rest = c :: (cs ++ rest) from rfl]
  rw [pAux]
  rw [skipWs_cons _ _ (by
    rcases hc with hd | hd
    · exact digit_not_jsonWs c hd
    · subst hd; decide)]
  dsimp only
  rw [if_neg (char_ne_of_toNat_ne (by rw [show lbrace.toNat = 123 from rfl]; omega)),
    if_neg (char_ne_of_toNat_ne (by rw [show ('[').toNat = 91 from rfl]; omega)),
    if_neg (char_ne_of_toNat_ne (by rw [show ('"').toNat = 34 from rfl]; omega)),
    if_neg (char_ne_of_toNat_ne (by rw [show ('t').toNat = 116 from rfl]; omega)),
    if_neg (char_ne_of_toNat_ne (by rw [show ('f').toNat = 102 from rfl]; omega)),
    if_neg (char_ne_of_toNat_ne (by rw [show ('n').toNat = 110 from rfl]; omega)),
    if_pos (by
      rcases hc with hd | hd
      · simp [hd]
      · simp [hd])]
  rw [show c :: (cs ++ rest) = serInt n ++ rest by rw [hds]; rfl]
  exact parseNum_serInt n rest h

mutual
theorem pAux_serV (v : Json) (f : Nat) (rest : List Char)
    (hf : needV v ≤ f) (hd : delimOk rest) (hk : objKeysOk v = true) :
    pAux f (.v (serJson v ++ rest)) = some (v, rest) := by
  obtain ⟨g, rfl⟩ : ∃ g, f = g + 1 := ⟨f - 1, by have := needV_pos v; omega⟩
  cases v with
  | null => exact pAux_v_null g rest
  | bool b =>
      cases b with
      | true => exact pAux_v_true g rest
      | false => exact pAux_v_false g rest
  | int n => exact pAux_v_int n g rest (delimOk_numDelim rest hd)
  | str s => exact pAux_v_str s g rest
  | arr xs =>
      rw [serJson]
      rw [show ('[' :: serElems xs) ++ rest = '[' :: (serElems xs ++ rest) from rfl]
      rw [pAux]
      rw [skipWs_cons _ _ (by decide)]
      try dsimp only
      rw [if_neg (by decide), if_pos rfl]
      have hf2 : needSeq xs ≤ g := by
        rw [show needV (.arr xs) = 1 + needSeq xs by rw [needV]] at hf
        omega
      have hk2 : objKeysOkSeq xs = true := by
        rw [objKeysOk] at hk
        exact hk
      exact pAux_serSeqFirst xs g rest hf2 hd hk2
  | obj xs =>
      rw [serJson]
      rw [show (lbrace :: serMembers xs) ++ rest = lbrace :: (serMembers xs ++ rest) from rfl]
      rw [pAux]
      rw [skipWs_cons _ _ (by decide)]
      try dsimp only
      rw [if_pos rfl]
      have hf2 : needMseq xs ≤ g := by
        rw [show needV (.obj xs) = 1 + needMseq xs by rw [needV]] at hf
        omega
      have hk2 : keysNodup (xs.map Prod.fst) = true ∧ objKeysOkMem xs = true := by
        rw [objKeysOk, Bool.and_eq_true] at hk
        exact hk
      exact pAux_serMemFirst xs g rest hf2 hd hk2.2 hk2.1
termination_by f
decreasing_by all_goals (simp_wf; omega)

theorem pAux_serSeqFirst (xs : List Json) (f : Nat) (rest : List Char)
    (hf : needSeq xs ≤ f) (hd : delimOk rest) (hk : objKeysOkSeq xs = true) :
    pAux f (.arrFirst (serElems xs ++ rest)) = some (.arr xs, rest) := by
  obtain ⟨g, rfl⟩ : ∃ g, f = g + 1 := ⟨f - 1, by have := needSeq_pos xs; omega⟩
  cases xs with
  | nil =>
      rw [serElems]
      rfl
  | cons x xs =>
      obtain ⟨c, cs, hds, hws, hne, _, _⟩ := serJson_head x
      have hkx : objKeysOk x = true ∧ objKeysOkSeq xs = true := by
        rw [objKeysOkSeq, Bool.and_eq_true] at hk
        exact hk
      have hfx : needV x ≤ g ∧ needSeq xs ≤ g := by
        rw [show needSeq (x :: xs) = 1 + max (needV x) (needSeq xs) by rw [needSeq]] at hf
        omega
      rw [serElems]
      rw [show (serJson x ++ serElemsRest xs) ++ rest
          = c :: (cs ++ (serElemsRest xs ++ rest)) by rw [hds]; simp]
      rw [pAux]
      rw [skipWs_cons _ _ hws]
      try dsimp only
      rw [if_neg hne]
      rw [show c :: (cs ++ (serElemsRest xs ++ rest))
          = serJson x ++ (serElemsRest xs ++ rest) by rw [hds]; rfl]
      rw [pAux_serV x g (serElemsRest xs ++ rest) hfx.1 (serElemsRest_delim xs rest) hkx.1]
      try dsimp only
      exact pAux_serSeqRest xs [x] g rest hfx.2 hd hkx.2
termination_by f
decreasing_by all_goals (simp_wf; omega)

theorem pAux_serSeqRest (xs : List Json) (acc : List Json) (f : Nat) (rest : List Char)
    (hf : needSeq xs ≤ f) (hd : delimOk rest) (hk : objKeysOkSeq xs = true) :
    pAux f (.arrRest acc (serElemsRest xs ++ rest)) = some (.arr (acc ++ xs), rest) := by
  obtain ⟨g, rfl⟩ : ∃ g, f = g + 1 := ⟨f - 1, by have := needSeq_pos xs; omega⟩
  cases xs with
  | nil =>
      rw [serElemsRest, List.append_nil]
      rfl
  | cons x xs =>
      have hkx : objKeysOk x = true ∧ objKeysOkSeq xs = true := by
        rw [objKeysOkSeq, Bool.and_eq_true] at hk
        exact hk
      have hfx : needV x ≤ g ∧ needSeq xs ≤ g := by
        rw [show needSeq (x :: xs) = 1 + max (needV x) (needSeq xs) by rw [needSeq]] at hf
        omega
      rw [serElemsRest]
      rw [show (',' :: (serJson x ++ serElemsRest xs)) ++ rest
          = ',' :: (serJson x ++ (serElemsRest xs ++ rest)) by simp]
      rw [pAux]
      rw [skipWs_cons _ _ (by decide)]
      try dsimp only
      rw [if_neg (by decide), if_pos rfl]
      rw [pAux_serV x g (serElemsRest xs ++ rest) hfx.1 (serElemsRest_delim xs rest) hkx.1]
      try dsimp only
      rw [show (.arr (acc ++ x :: xs) : Json) = .arr ((acc ++ [x]) ++ xs) by
        rw [List.append_cons]]
      exact pAux_serSeqRest xs (acc ++ [x]) g rest hfx.2 hd hkx.2
termination_by f
decreasing_by all_goals (simp_wf; omega)

theorem pAux_serMemFirst (xs : List (String × Json)) (f : Nat) (rest : List Char)
    (hf : needMseq xs ≤ f) (hd : delimOk rest)
    (hk : objKeysOkMem xs = true) (hnd : keysNodup (xs.map Prod.fst) = true) :
    pAux f (.objFirst (serMembers xs ++ rest)) = some (.obj xs, rest) := by
  obtain ⟨g, rfl⟩ : ∃ g, f = g + 1 := ⟨f - 1, by have := needMseq_pos xs; omega⟩
  cases xs with
  | nil =>
      rw [serMembers]
      rfl
  | cons m ms =>
      obtain ⟨k, v⟩ := m
      have hkv : objKeysOk v = true ∧ objKeysOkMem ms = true := by
        rw [objKeysOkMem, Bool.and_eq_true] at hk
        exact hk
      have hfx : 1 + max (needV v) (needMseq ms) ≤ g := by
        rw [show needMseq ((k, v) :: ms) = 2 + max (needV v) (needMseq ms) by
          rw [needMseq]] at hf
        omega
      rw [serMembers]
      rw [show ('"' :: (serStrBody k.data ++ '"' :: ':' :: (serJson v ++ serMembersRest ms)))
            ++ rest
          = '"' :: (serStrBody k.data
            ++ '"' :: ':' :: (serJson v ++ (serMembersRest ms ++ rest))) by simp]
      rw [pAux]
      rw [skipWs_cons _ _ (by decide)]
      try dsimp only
      rw [if_neg (by decide), if_pos rfl]
      have hmem := pAux_serMember k v ms [] g rest hfx hd hkv.1 hkv.2 rfl (by
        rw [List.map_cons] at hnd
        simpa using hnd)
      simpa using hmem
termination_by f
decreasing_by all_goals (simp_wf; omega)

theorem pAux_serMemRest (xs : List (String × Json)) (acc : List (String × Json))
    (f : Nat) (rest : List Char)
    (hf : needMseq xs ≤ f) (hd : delimOk rest) (hk : objKeysOkMem xs = true)
    (hnd : keysNodup (acc.map Prod.fst ++ xs.map Prod.fst) = true) :
    pAux f (.objRest acc (serMembersRest xs ++ rest)) = some (.obj (acc ++ xs), rest) := by
  obtain ⟨g, rfl⟩ : ∃ g, f = g + 1 := ⟨f - 1, by have := needMseq_pos xs; omega⟩
  cases xs with
  | nil =>
      rw [serMembersRest, List.append_nil]
      rfl
  | cons m ms =>
      obtain ⟨k, v⟩ := m
      have hkv : objKeysOk v = true ∧ objKeysOkMem ms = true := by
        rw [objKeysOkMem, Bool.and_eq_true] at hk
        exact hk
      have hfx : 1 + max (needV v) (needMseq ms) ≤ g := by
        rw [show needMseq ((k, v) :: ms) = 2 + max (needV v) (needMseq ms) by
          rw [needMseq]] at hf
        omega
      rw [List.map_cons] at hnd
      have hka : dlookup acc k = none :=
        dlookup_none_of_keyMem_false acc k (keysNodup_append_cons _ _ _ hnd)
      have hnd2 : keysNodup ((acc.map Prod.fst ++ [k]) ++ ms.map Prod.fst) = true := by
        rw [← List.append_cons]
        exact hnd
      rw [serMembersRest]
      rw [show (',' :: '"' :: (serStrBody k.data
            ++ '"' :: ':' :: (serJson v ++ serMembersRest ms))) ++ rest
          = ',' :: ('"' :: (serStrBody k.data
            ++ '"' :: ':' :: (serJson v ++ (serMembersRest ms ++ rest)))) by simp]
      rw [pAux]
      rw [skipWs_cons _ _ (by decide)]
      try dsimp only
      rw [if_neg (by decide), if_pos rfl]
      rw [skipWs_cons _ _ (by decide)]
      rw [show (.obj (acc ++ (k, v) :: ms) : Json) = .obj ((acc ++ [(k, v)]) ++ ms) by
        rw [List.append_cons]]
      exact pAux_serMember k v ms acc g rest hfx hd hkv.1 hkv.2 hka hnd2
termination_by f
decreasing_by all_goals (simp_wf; omega)

theorem pAux_serMember (k : String) (v : Json) (ms : List (String × Json))
    (acc : List (String × Json)) (f : Nat) (rest : List Char)
    (hf : 1 + max (needV v) (needMseq ms) ≤ f) (hd : delimOk rest)
    (hkv : objKeysOk v = true) (hkm : objKeysOkMem ms = true)
    (hka : dlookup acc k = none)
    (hnd : keysNodup ((acc.map Prod.fst ++ [k]) ++ ms.map Prod.fst) = true) :
    pAux f (.member acc ('"' :: (serStrBody k.data
        ++ '"' :: ':' :: (serJson v ++ (serMembersRest ms ++ rest)))))
      = some (.obj ((acc ++ [(k, v)]) ++ ms), rest) := by
  obtain ⟨g, rfl⟩ : ∃ g, f = g + 1 := ⟨f - 1, by omega⟩
  rw [pAux]
  try dsimp only
  rw [if_pos rfl]
  rw [parseJStr_serBody k.data (':' :: (serJson v ++ (serMembersRest ms ++ rest)))]
  simp only [Option.bind]
  rw [skipWs_cons _ _ (by decide)]
  try dsimp only
  rw [if_pos rfl]
  rw [pAux_serV v g (serMembersRest ms ++ rest) (by omega)
    (serMembersRest_delim ms rest) hkv]
  try dsimp only
  rw [show String.mk k.data = k from rfl]
  rw [dinsert_append_of_dlookup_none acc k v hka]
  have hnd3 : keysNodup ((acc ++ [(k, v)]).map Prod.fst ++ ms.map Prod.fst) = true := by
    rw [List.map_append]
    simpa using hnd
  exact pAux_serMemRest ms (acc ++ [(k, v)]) g rest (by omega) hd hkm hnd3
termination_by f
decreasing_by all_goals (simp_wf; omega)

end

/-! ## Fuel bounds: the scanner's fuel budget `length + 1` always suffices
for serialized input -/

theorem need_le_serLength (N : Nat) :
    (∀ v : Json, sizeOf v ≤ N → needV v ≤ (serJson v).length + 1)
    ∧ (∀ xs : List Json, sizeOf xs ≤ N →
        needSeq xs ≤ (serElemsRest xs).length ∧ needSeq xs ≤ (serElems xs).length + 1)
    ∧ (∀ xs : List (String × Json), sizeOf xs ≤ N →
        needMseq xs ≤ (serMembersRest xs).length
          ∧ needMseq xs ≤ (serMembers xs).length + 1) := by
  induction N with
  | zero =>
      refine ⟨?_, ?_, ?_⟩
      · intro v hv
        exact absurd hv (by cases v <;> simp_arith)
      · intro xs hxs
        exact absurd hxs (by cases xs <;> simp_arith)
      · intro xs hxs
        exact absurd hxs (by cases xs <;> simp_arith)
  | succ N ih =>
      obtain ⟨ihV, ihSeq, ihM⟩ := ih
      refine ⟨?_, ?_, ?_⟩
      · intro v hv
        cases v with
        | null => simp [needV, serJson]
        | bool b => cases b <;> simp [needV, serJson]
        | int n => simp [needV]
        | str s => simp [needV]
        | arr xs =>
            have hxs : sizeOf xs ≤ N := by
              have : sizeOf (Json.arr xs) = 1 + sizeOf xs := by simp_arith
              omega
            have h2 := (ihSeq xs hxs).2
            rw [show needV (.arr xs) = 1 + needSeq xs by rw [needV]]
            rw [show serJson (.arr xs) = '[' :: serElems xs by rw [serJson]]
            rw [List.length_cons]
            omega
        | obj xs =>
            have hxs : sizeOf xs ≤ N := by
              have : sizeOf (Json.obj xs) = 1 + sizeOf xs := by simp_arith
              omega
            have h2 := (ihM xs hxs).2
            rw [show needV (.obj xs) = 1 + needMseq xs by rw [needV]]
            rw [show serJson (.obj xs) = lbrace :: serMembers xs by rw [serJson]]
            rw [List.length_cons]
            omega
      · intro xs hxs
        cases xs with
        | nil =>
            constructor <;> simp [needSeq, serElemsRest, serElems]
        | cons x xs =>
            have hx : sizeOf x ≤ N ∧ sizeOf xs ≤ N := by
              have : sizeOf (x :: xs) = 1 + sizeOf x + sizeOf xs := by simp_arith
              have hp : 1 ≤ sizeOf x := by cases x <;> simp_arith
              have hp2 : 1 ≤ sizeOf xs := by cases xs <;> simp_arith
              omega
            have hVx := ihV x hx.1
            have hSx := ihSeq xs hx.2
            have hpos := needSeq_pos xs
            have hrestpos : 1 ≤ (serElemsRest xs).length := le_trans hpos hSx.1
            rw [show needSeq (x :: xs) = 1 + max (needV x) (needSeq xs) by rw [needSeq]]
            constructor
            · rw [show serElemsRest (x :: xs) = ',' :: (serJson x ++ serElemsRest xs) by
                rw [serElemsRest]]
              rw [List.length_cons, List.length_append]
              omega
            · rw [show serElems (x :: xs) = serJson x ++ serElemsRest xs by rw [serElems]]
              rw [List.length_append]
              omega
      · intro xs hxs
        cases xs with
        | nil =>
            constructor <;> simp [needMseq, serMembersRest, serMembers]
        | cons m ms =>
            obtain ⟨k, v⟩ := m
            have hx : sizeOf v ≤ N ∧ sizeOf ms ≤ N := by
              have h1 : sizeOf ((k, v) :: ms) = 1 + (1 + sizeOf k + sizeOf v) + sizeOf ms := by
                simp_arith
              have hp : 1 ≤ sizeOf v := by cases v <;> simp_arith
              have hp2 : 1 ≤ sizeOf ms := by cases ms <;> simp_arith
              have hp3 : 0 ≤ sizeOf k := Nat.zero_le _
              omega
            have hVv := ihV v hx.1
            have hMm := ihM ms hx.2
            have hpos := needMseq_pos ms
            have hrestpos : 1 ≤ (serMembersRest ms).length := le_trans hpos hMm.1
            rw [show needMseq ((k, v) :: ms) = 2 + max (needV v) (needMseq ms) by rw [needMseq]]
            constructor
            · rw [show serMembersRest ((k, v) :: ms)
                  = ',' :: '"' :: (serStrBody k.data
                    ++ '"' :: ':' :: (serJson v ++ serMembersRest ms)) by rw [serMembersRest]]
              simp only [List.length_cons, List.length_append]
              omega
            · rw [show serMembers ((k, v) :: ms)
                  = '"' :: (serStrBody k.data
                    ++ '"' :: ':' :: (serJson v ++ serMembersRest ms)) by rw [serMembers]]
              simp only [List.length_cons, List.length_append]
              omega

/-- `json.loads` inverts serialization (for documents whose objects have
no duplicate keys, i.e. everything a Python `dict` can denote). -/
theorem jsonLoads_serJson (d : Json) (hk : objKeysOk d = true) :
    jsonLoads (serJson d) = .ok d := by
  unfold jsonLoads
  have hb : needV d ≤ (serJson d).length + 1 := (need_le_serLength (sizeOf d)).1 d le_rfl
  have h := pAux_serV d ((serJson d).length + 1) [] hb trivial hk
  rw [List.append_nil] at h
  rw [h]
  rfl

/-! ## `read_file_object` (`file_handler.py`, lines 48-78) and claim C8 -/

/-- An open binary stream: its full byte contents and the current
position.  `read_file_object` calls `seek(0)` before `read()`, so the
position never influences what is read. -/
structure ByteStream where
  bytes : List Nat
  pos : Nat

/-- `read_file_object(file_obj)` (`file_handler.py` lines 48-78):
`file_obj.seek(0)`, `file_obj.read()` (all bytes), decode as UTF-8 when
the content is `bytes` (a `BinaryIO` stream always yields bytes), then
`json.loads`. -/
def read_file_object (file_obj : ByteStream) : Except PyError Json :=
  match utf8Decode file_obj.bytes with
  | some content => jsonLoads content
  | none => .error .unicodeDecodeError

/-- C8: for every JSON document `d` (objects with unique keys, as every
Python value serialized by `json.dumps` has) and every initial stream
position, reading the UTF-8 serialization of `d` from the stream returns
a value deep-equal to `d`: the stream is rewound to the start before
reading and the bytes are decoded as UTF-8 before parsing. -/
theorem read_file_object_roundtrip (d : Json) (pos : Nat) (hk : objKeysOk d = true) :
    read_file_object ⟨utf8Encode (serJson d), pos⟩ = .ok d := by
  unfold read_file_object
  rw [show (ByteStream.mk (utf8Encode (serJson d)) pos).bytes
      = utf8Encode (serJson d) from rfl]
  rw [utf8Decode_encode (serJson d)]
  exact jsonLoads_serJson d hk

/-- Witness for C8 at a nested concrete document and a nonzero initial
position. -/
theorem read_file_object_roundtrip_witness :
    read_file_object
        ⟨utf8Encode (serJson (.obj [("a", .arr [.int 1, .str "x"]), ("b", .null)])), 7⟩
      = .ok (.obj [("a", .arr [.int 1, .str "x"]), ("b", .null)]) :=
  read_file_object_roundtrip (.obj [("a", .arr [.int 1, .str "x"]), ("b", .null)]) 7
    (by simp [objKeysOk, objKeysOkMem, objKeysOkSeq, keysNodup, keyMem])

/-! ## `read_tarfile` (`file_handler.py`, lines 80-153)

A tar archive is modelled after `tarfile.open` has succeeded: the ordered
list of its members.  A member's `content` is `some bytes` when
`extractfile` returns a file object (regular files) and `none` when it
returns `None` (directories, links), which `read_tarfile` turns into a
`KeyError` (lines 140-141).  `tar.getmember(name)` resolves to the last
member with that name, as `tarfile` documents.  The interactive `input()`
selection loop (lines 121-134) is modelled as the distinguished outcome
`PyError.interactivePrompt`; no claim reaches it. -/

/-- One member of a tar archive. -/
structure TarMember where
  name : String
  content : Option (List Nat)

/-- Does `re.compile(r'.*\.json').match(name)` succeed?  `re.match`
anchors at the start only; `.*` matches any characters except newline, so
the regex succeeds exactly when `".json"` occurs at a position preceded
only by non-newline characters — a containment test, not a suffix test. -/
def matchDotStarJson : List Char → Bool
  | [] => false
  | c :: rest =>
      startsWithL ['.', 'j', 's', 'o', 'n'] (c :: rest)
        || (c != '\n' && matchDotStarJson rest)

/-- The member names `read_tarfile` considers JSON candidates
(`file_handler.py` lines 103-107). -/
def tarJsonNames (archive : List TarMember) : List String :=
  (archive.map (fun m => m.name)).filter (fun nm => matchDotStarJson nm.data)

/-- The selection logic of `read_tarfile` (lines 113-136): with more than
one candidate, an in-range `select_json` wins, else `auto_select` picks
index 0, else the interactive prompt; with one candidate, index 0. -/
def selectJsonIndex (tarFiles : List String) (select_json : Option Int)
    (auto_select : Bool) : Except PyError Nat :=
  if 1 < tarFiles.length then
    match select_json with
    | some i =>
        if 0 ≤ i ∧ i < (tarFiles.length : Int) then .ok i.toNat
        else if auto_select then .ok 0
        else .error .interactivePrompt
    | none => if auto_select then .ok 0 else .error .interactivePrompt
  else .ok 0

/-- `tar.getmember(name)`: the last member with that name. -/
def getmember : List TarMember → String → Option TarMember
  | [], _ => none
  | m :: rest, nm =>
      match getmember rest nm with
      | some r => some r
      | none => if m.name = nm then some m else none

/-- Lines 139-144: `tar.extractfile(tar.getmember(nm))`, `KeyError` when
no file object comes back, then `.read().decode('utf-8')` and
`json.loads`. -/
def readMemberData (archive : List TarMember) (nm : String) : Except PyError Json :=
  match getmember archive nm with
  | none => .error .keyError
  | some m =>
      match m.content with
      | none => .error .keyError
      | some bytes =>
          match utf8Decode bytes with
          | some chars => jsonLoads chars
          | none => .error .unicodeDecodeError

/-- `read_tarfile(filename, select_json, auto_select)`
(`file_handler.py` lines 80-153) over an opened archive. -/
def read_tarfile (archive : List TarMember) (select_json : Option Int)
    (auto_select : Bool) : Except PyError Json :=
  let tar_files := tarJsonNames archive
  if tar_files.isEmpty then .error .indexError
  else
    match selectJsonIndex tar_files select_json auto_select with
    | .error e => .error e
    | .ok i =>
        match tar_files[i]? with
        | none => .error .indexError
        | some nm => readMemberData archive nm

/-! ## Claim C5 -/

/-- C5: an archive in which no member name matches the JSON pattern makes
`read_tarfile` fail with `IndexError` (the `EmptyArchiveError` of the
spec), for every combination of `select_json` and `auto_select`. -/
theorem read_tarfile_no_json_members (archive : List TarMember)
    (select_json : Option Int) (auto_select : Bool)
    (h : tarJsonNames archive = []) :
    read_tarfile archive select_json auto_select = .error .indexError := by
  unfold read_tarfile
  rw [h]
  rfl

/-- Witness for C5 on an archive holding only `readme.txt`. -/
theorem read_tarfile_no_json_members_witness :
    read_tarfile [⟨"readme.txt", some []⟩] (some 3) false = .error .indexError :=
  read_tarfile_no_json_members [⟨"readme.txt", some []⟩] (some 3) false rfl

/-! ## Claim C6 -/

/-- C6: with two or more JSON candidates, `select_json = None` and
`auto_select = True`, `read_tarfile` deterministically reads the first
candidate in the archive's listing order; in particular, for listing
order `["b.json", "a.json"]` it reads `"b.json"`. -/
theorem read_tarfile_auto_selects_first :
    (∀ (archive : List TarMember), 2 ≤ (tarJsonNames archive).length →
      read_tarfile archive none true
        = readMemberData archive ((tarJsonNames archive).headD ""))
    ∧ read_tarfile [⟨"b.json", some [49]⟩, ⟨"a.json", some [50]⟩] none true
        = .ok (.int 1) := by
  constructor
  · intro archive hlen
    unfold read_tarfile
    cases htf : tarJsonNames archive with
    | nil => rw [htf] at hlen; simp at hlen
    | cons nm rest =>
        rw [htf] at hlen
        have hsel : selectJsonIndex (nm :: rest) none true = .ok 0 := by
          unfold selectJsonIndex
          rw [if_pos (by simpa using hlen)]
          rfl
        dsimp only
        rw [hsel]
        simp [List.isEmpty]
  · rfl

/-- Witness for C6: the general half applied to the two-member archive of
the concrete half. -/
theorem read_tarfile_auto_selects_first_witness :
    read_tarfile [⟨"b.json", some [49]⟩, ⟨"a.json", some [50]⟩] none true
      = readMemberData [⟨"b.json", some [49]⟩, ⟨"a.json", some [50]⟩] "b.json"
    ∧ read_tarfile [⟨"b.json", some [49]⟩, ⟨"a.json", some [50]⟩] none true
      = .ok (.int 1) :=
  ⟨read_tarfile_auto_selects_first.1 [⟨"b.json", some [49]⟩, ⟨"a.json", some [50]⟩]
    (by decide), read_tarfile_auto_selects_first.2⟩

/-! ## Claim C3 -/

/-- The property the specification asks for: the name ends with the
literal, case-sensitive suffix `".json"`. -/
def endsWithDotJson (s : String) : Bool :=
  startsWithL ['n', 'o', 's', 'j', '.'] s.data.reverse

/-- C3 evaluation at the failing input: `read_tarfile` treats
`"a.json.bak"` as a JSON candidate — the pattern `.*\.json` under
`re.match` is anchored at the start but not at the end, so it accepts any
name merely containing `".json"` — although the name does not end with
`".json"`, so the candidate set is not the suffix-match set the
specification fixes (the inline comment "Only get the files with .json
extension" states the intended behavior). -/
theorem read_tarfile_pattern_not_suffix_match :
    matchDotStarJson "a.json.bak".data = true
    ∧ endsWithDotJson "a.json.bak" = false
    ∧ tarJsonNames [⟨"a.json.bak", some [49]⟩] = ["a.json.bak"]
    ∧ matchDotStarJson "a.json".data = true
    ∧ endsWithDotJson "a.json" = true := by
  refine ⟨rfl, rfl, rfl, rfl, rfl⟩

/-! ## `extract_tar_contents` (`file_handler.py`, lines 195-230) and claim C1 -/

/-- Result of an extraction call: the returned list, and the filesystem
paths actually written (empty in the no-`output_dir` listing mode). -/
structure ExtractResult where
  returned : List String
  extractedPaths : List String
deriving Repr

/-- `os.path.join(dir, name)` for POSIX paths. -/
def osPathJoin (dir name : String) : String :=
  if name.data.head? = some '/' then name
  else if dir = "" then name
  else if dir.data.getLast? = some '/' then dir ++ name
  else dir ++ "/" ++ name

/-- `extract_tar_contents(tar_filename, output_dir, file_pattern)`
(`file_handler.py` lines 195-230) over an opened archive.  The optional
`file_pattern` is a caller-supplied regex, abstracted as a predicate on
member names (no claim depends on its syntax).  With an `output_dir` the
function runs `os.makedirs` and `tar.extractall(path=output_dir,
members=members)` — which, with no `filter` argument (Python's historical
default behavior), writes every member at `join(output_dir, member.name)`
without any name sanitization — and returns those paths; with no
`output_dir` it returns the member names and extracts nothing. -/
def extract_tar_contents (archive : List TarMember) (output_dir : Option String)
    (filePattern : Option (String → Bool)) : ExtractResult :=
  let members : List TarMember :=
    match filePattern with
    | some p => archive.filter (fun m => p m.name)
    | none => archive
  match output_dir with
  | some d =>
      ⟨members.map (fun m => osPathJoin d m.name),
       members.map (fun m => osPathJoin d m.name)⟩
  | none => ⟨members.map (fun m => m.name), []⟩

/-- Split a path at `'/'`. -/
def splitSlash : List Char → List (List Char)
  | [] => [[]]
  | c :: rest =>
      if c = '/' then [] :: splitSlash rest
      else
        match splitSlash rest with
        | seg :: segs => (c :: seg) :: segs
        | [] => [[c]]

/-- Does the path contain a `..` segment? -/
def pathHasDotDot (s : String) : Bool :=
  (splitSlash s.data).any (fun seg => seg == ['.', '.'])

/-- C1 evaluation at the failing input: `extract_tar_contents` performs
no path-safety check at all.  The member named `"../../etc/passwd"` is
extracted (not rejected with any error, let alone a `PathSafetyError`) to
`"out/../../etc/passwd"`, a path with `..` segments escaping the
extraction root; and `read_tarfile` likewise processes a
traversal-named member without any safety check. -/
theorem extract_tar_contents_no_path_safety :
    extract_tar_contents [⟨"../../etc/passwd", some []⟩] (some "out") none
      = ⟨["out/../../etc/passwd"], ["out/../../etc/passwd"]⟩
    ∧ pathHasDotDot "out/../../etc/passwd" = true
    ∧ read_tarfile [⟨"../../evil.json", some [49]⟩] none true = .ok (.int 1) := by
  refine ⟨rfl, rfl, rfl⟩

/-! ## Heap-level model of `load_config` and claim C10

C10 is about Python object identity: `config.py` line 63 copies
`DEFAULT_CONFIG` with `copy.deepcopy`, and every later update mutates only
the copy, so the module-level `DEFAULT_CONFIG` — including its nested
section dicts — is never altered, and the returned config shares no
mutable object with it.  The pure value model above cannot express
mutation, so this section gives a small heap semantics: dict objects live
in a store indexed by addresses; strings, ints, bools and `None` are
immutable immediates; lists are immediate values whose elements may be
references (`load_config` never mutates a list in place). -/

/-- A heap address of a dict object. -/
abbrev Addr := Nat

/-- A runtime value: an immutable immediate, a list, or a reference to a
dict object in the store. -/
inductive HVal where
  | hstr (s : String) : HVal
  | hint (n : Int) : HVal
  | hbool (b : Bool) : HVal
  | hnone : HVal
  | harr (xs : List HVal) : HVal
  | href (a : Addr) : HVal
deriving Repr

/-- A dict object: ordered key/value pairs. -/
abbrev Obj := List (String × HVal)

/-- The heap: allocated dict objects and the next fresh address. -/
structure Store where
  heap : List (Addr × Obj)
  next : Addr
deriving Repr

/-- First-match lookup in a heap fragment. -/
def hGetList : List (Addr × Obj) → Addr → Option Obj
  | [], _ => none
  | (b, o) :: rest, a => if b = a then some o else hGetList rest a

/-- Read a dict object. -/
def storeGet (s : Store) (a : Addr) : Option Obj :=
  hGetList s.heap a

/-- Overwrite a binding in a heap fragment. -/
def hSetList : List (Addr × Obj) → Addr → Obj → List (Addr × Obj)
  | [], _, _ => []
  | (c, w) :: rest, b, o =>
      if c = b then (b, o) :: hSetList rest b o else (c, w) :: hSetList rest b o

/-- Overwrite the object at an (existing) address. -/
def storeSet (s : Store) (a : Addr) (o : Obj) : Store :=
  ⟨hSetList s.heap a o, s.next⟩

/-- Allocate a fresh dict object; its address is the old `s.next`. -/
def storeAlloc (s : Store) (o : Obj) : Store :=
  ⟨s.heap ++ [(s.next, o)], s.next + 1⟩

/-- `o[k]` on a dict object. -/
def hlookup : Obj → String → Option HVal
  | [], _ => none
  | (k, v) :: rest, key => if k = key then some v else hlookup rest key

/-- `o[k] = v` on a dict object. -/
def hinsert : Obj → String → HVal → Obj
  | [], key, v => [(key, v)]
  | (k, w) :: rest, key, v =>
      if k = key then (k, v) :: rest else (k, w) :: hinsert rest key v

/-- Argument of the `copy.deepcopy` recursion: a value, a dict object's
entries, or a list's elements. -/
inductive DcArg where
  | dv (v : HVal) : DcArg
  | dobj (o : Obj) : DcArg
  | dlist (xs : List HVal) : DcArg

/-- Result of the `copy.deepcopy` recursion. -/
inductive DcRes where
  | dv (v : HVal) : DcRes
  | dobj (o : Obj) : DcRes
  | dlist (xs : List HVal) : DcRes

/-- `copy.deepcopy`: immediates are returned as-is (immutable), lists are
rebuilt from deep-copied elements, and a dict reference becomes a
reference to a freshly allocated copy with deep-copied values.  Fuel
bounds the recursion depth (Python would hit the recursion limit on a
cyclic or extremely deep structure). -/
def deepcopyAux : Nat → Store → DcArg → Option (Store × DcRes)
  | 0, _, _ => none
  | f + 1, s, .dv (.href a) =>
      match storeGet s a with
      | none => none
      | some o =>
          match deepcopyAux f s (.dobj o) with
          | some (s1, .dobj o1) => some (storeAlloc s1 o1, .dv (.href s1.next))
          | _ => none
  | f + 1, s, .dv (.harr xs) =>
      match deepcopyAux f s (.dlist xs) with
      | some (s1, .dlist ys) => some (s1, .dv (.harr ys))
      | _ => none
  | _ + 1, s, .dv v => some (s, .dv v)
  | _ + 1, s, .dobj [] => some (s, .dobj [])
  | f + 1, s, .dobj ((k, v) :: rest) =>
      match deepcopyAux f s (.dv v) with
      | some (s1, .dv v1) =>
          match deepcopyAux f s1 (.dobj rest) with
          | some (s2, .dobj r1) => some (s2, .dobj ((k, v1) :: r1))
          | _ => none
      | _ => none
  | _ + 1, s, .dlist [] => some (s, .dlist [])
  | f + 1, s, .dlist (v :: rest) =>
      match deepcopyAux f s (.dv v) with
      | some (s1, .dv v1) =>
          match deepcopyAux f s1 (.dlist rest) with
          | some (s2, .dlist r1) => some (s2, .dlist (v1 :: r1))
          | _ => none
      | _ => none

/-- Argument of the allocation of a parsed JSON value into the heap
(`json.load` builds fresh objects). -/
inductive AjArg where
  | av (j : Json) : AjArg
  | aobj (es : List (String × Json)) : AjArg
  | alist (xs : List Json) : AjArg

/-- Result of the allocation. -/
inductive AjRes where
  | av (v : HVal) : AjRes
  | aobj (o : Obj) : AjRes
  | alist (xs : List HVal) : AjRes

/-- Build the heap representation of a parsed JSON value: every JSON
object becomes a freshly allocated dict. -/
def allocJsonAux : Nat → Store → AjArg → Option (Store × AjRes)
  | 0, _, _ => none
  | _ + 1, s, .av .null => some (s, .av .hnone)
  | _ + 1, s, .av (.bool b) => some (s, .av (.hbool b))
  | _ + 1, s, .av (.int n) => some (s, .av (.hint n))
  | _ + 1, s, .av (.str x) => some (s, .av (.hstr x))
  | f + 1, s, .av (.arr xs) =>
      match allocJsonAux f s (.alist xs) with
      | some (s1, .alist ys) => some (s1, .av (.harr ys))
      | _ => none
  | f + 1, s, .av (.obj es) =>
      match allocJsonAux f s (.aobj es) with
      | some (s1, .aobj o) => some (storeAlloc s1 o, .av (.href s1.next))
      | _ => none
  | _ + 1, s, .aobj [] => some (s, .aobj [])
  | f + 1, s, .aobj ((k, v) :: rest) =>
      match allocJsonAux f s (.av v) with
      | some (s1, .av v1) =>
          match allocJsonAux f s1 (.aobj rest) with
          | some (s2, .aobj r1) => some (s2, .aobj ((k, v1) :: r1))
          | _ => none
      | _ => none
  | _ + 1, s, .alist [] => some (s, .alist [])
  | f + 1, s, .alist (v :: rest) =>
      match allocJsonAux f s (.av v) with
      | some (s1, .av v1) =>
          match allocJsonAux f s1 (.alist rest) with
          | some (s2, .alist r1) => some (s2, .alist (v1 :: r1))
          | _ => none
      | _ => none

/-- `_deep_update(target, source)` on the heap: iterate the source
entries; when the existing entry and the new value are both dict
references, recurse on the referenced objects, otherwise assign the new
value (which may alias an object of the source) into the target object in
place. -/
def deepUpdateH : Nat → Store → Addr → Obj → Option Store
  | _, s, _, [] => some s
  | 0, _, _, _ :: _ => none
  | f + 1, s, t, (k, v) :: rest =>
      match storeGet s t with
      | none => none
      | some tObj =>
          match hlookup tObj k with
          | some (.href ta) =>
              match v with
              | .href sa =>
                  match storeGet s sa with
                  | none => none
                  | some srcObj =>
                      match deepUpdateH f s ta srcObj with
                      | some s1 => deepUpdateH f s1 t rest
                      | none => none
              | _ => deepUpdateH f (storeSet s t (hinsert tObj k v)) t rest
          | _ => deepUpdateH f (storeSet s t (hinsert tObj k v)) t rest

/-- The environment conversions always produce a primitive; a primitive
JSON value as a heap immediate. -/
def jsonPrimToH : Json → Option HVal
  | .str x => some (.hstr x)
  | .int n => some (.hint n)
  | .bool b => some (.hbool b)
  | .null => some .hnone
  | _ => none

/-- `config[sect][key] = v` on the heap: read the section reference in
the config object, then mutate the referenced section object in place.
`none` models the `TypeError`/`KeyError` raised when `sect` is absent or
is not a dict. -/
def setNestedH (s : Store) (cfgAddr : Addr) (sect key : String) (v : HVal) :
    Option Store :=
  match storeGet s cfgAddr with
  | none => none
  | some o =>
      match hlookup o sect with
      | some (.href da) =>
          match storeGet s da with
          | none => none
          | some innerObj => some (storeSet s da (hinsert innerObj key v))
      | _ => none

/-- One `if os.getenv(VAR): config[sect][key] = conv(os.getenv(VAR))`
block on the heap. -/
def envSetH (env : List (String × String)) (var sect key : String)
    (conv : String → Except PyError Json) (s : Store) (cfgAddr : Addr) :
    Option Store :=
  match getenv env var with
  | none => some s
  | some str =>
      if str = "" then some s
      else
        match conv str with
        | .error _ => none
        | .ok j =>
            match jsonPrimToH j with
            | none => none
            | some v => setNestedH s cfgAddr sect key v

/-- The environment-override phase on the heap, in source order. -/
def applyEnvH (env : List (String × String)) (s : Store) (cfgAddr : Addr) :
    Option Store :=
  (envSetH env "POSTGRES_HOST" "database" "host" convStr s cfgAddr).bind fun s1 =>
  (envSetH env "POSTGRES_PORT" "database" "port" convInt s1 cfgAddr).bind fun s2 =>
  (envSetH env "POSTGRES_DB" "database" "dbname" convStr s2 cfgAddr).bind fun s3 =>
  (envSetH env "POSTGRES_USER" "database" "user" convStr s3 cfgAddr).bind fun s4 =>
  (envSetH env "POSTGRES_PASSWORD" "database" "password" convStr s4 cfgAddr).bind fun s5 =>
  (envSetH env "OUTPUT_DIR" "output" "directory" convStr s5 cfgAddr).bind fun s6 =>
  (envSetH env "OUTPUT_OVERWRITE" "output" "overwrite" convTruthy s6 cfgAddr).bind fun s7 =>
  (envSetH env "LOG_LEVEL" "logging" "level" convStr s7 cfgAddr).bind fun s8 =>
  envSetH env "LOG_FILE" "logging" "file" convStr s8 cfgAddr

/-- Assign one entry of the message-types file wholesale into the config
object: the file's value is first built as fresh heap objects
(`json.load`), then stored under `key` in the config object. -/
def mtAssignH (fuel : Nat) (s : Store) (cfgAddr : Addr) (key : String) :
    Option Json → Option Store
  | none => some s
  | some v =>
      match allocJsonAux fuel s (.av v) with
      | some (s1, .av hv) =>
          match storeGet s1 cfgAddr with
          | none => none
          | some o => some (storeSet s1 cfgAddr (hinsert o key hv))
      | _ => none

/-- The message-types-file branch on the heap (`config.py` lines 77-88):
wholesale assignment of the file's `message_types` and
`default_message_format` entries when present. -/
def applyMessageTypesFileH (fuel : Nat) (mf : Option Json) (s : Store)
    (cfgAddr : Addr) : Option Store :=
  match mf with
  | some (.obj src) =>
      match mtAssignH fuel s cfgAddr "message_types" (dlookup src "message_types") with
      | none => none
      | some s1 =>
          mtAssignH fuel s1 cfgAddr "default_message_format"
            (dlookup src "default_message_format")
  | _ => some s

/-- The main-config-file phase of `load_config` on the heap
(`config.py` lines 66-75): the parsed file's objects are freshly
allocated (`json.load`), then `_deep_update(config, file_config)` merges
them into the copied config in place. -/
def loadStep2 (fuel : Nat) (cf : Option Json) (s1 : Store) (copyAddr : Addr) :
    Option Store :=
  match cf with
  | some (.obj src) =>
      match allocJsonAux fuel s1 (.aobj src) with
      | some (s2, .aobj srcObj) => deepUpdateH fuel s2 copyAddr srcObj
      | _ => none
  | _ => some s1

/-- The last two phases of `load_config` on the heap: the message-types
assignments, then the environment overrides. -/
def loadTail (fuel : Nat) (mf : Option Json) (env : List (String × String))
    (copyAddr : Addr) (s3 : Store) : Option (Store × Addr) :=
  match applyMessageTypesFileH fuel mf s3 copyAddr with
  | none => none
  | some s4 =>
      match applyEnvH env s4 copyAddr with
      | none => none
      | some s5 => some (s5, copyAddr)

/-- `load_config` on the heap, starting from a store `s0` in which the
module-level `DEFAULT_CONFIG` object graph lives at `defaultsAddr`:
line 63's `copy.deepcopy(DEFAULT_CONFIG)`, then the deep merge of the
main config file, then the message-types assignments, then the
environment overrides.  Returns the final store and the address of the
returned config object. -/
def load_config_heap (fuel : Nat) (cf mf : Option Json)
    (env : List (String × String)) (s0 : Store) (defaultsAddr : Addr) :
    Option (Store × Addr) :=
  match deepcopyAux fuel s0 (.dv (.href defaultsAddr)) with
  | some (s1, .dv (.href copyAddr)) =>
      match loadStep2 fuel cf s1 copyAddr with
      | none => none
      | some s3 => loadTail fuel mf env copyAddr s3
  | _ => none

/-- A well-formed store: every allocated address is below `next`. -/
def wfStore (s : Store) : Prop := ∀ p ∈ s.heap, p.1 < s.next

instance : DecidablePred wfStore := fun s =>
  inferInstanceAs (Decidable (∀ p ∈ s.heap, p.1 < s.next))

mutual
/-- Every dict reference inside a value points at or above `n`. -/
def refsGeV (n : Nat) : HVal → Bool
  | .href a => decide (n ≤ a)
  | .harr xs => refsGeL n xs
  | _ => true
/-- Elementwise `refsGeV` over a list value. -/
def refsGeL (n : Nat) : List HVal → Bool
  | [] => true
  | v :: rest => refsGeV n v && refsGeL n rest
end

/-- Every dict reference inside a dict object points at or above `n`. -/
def refsGeO (n : Nat) : Obj → Bool
  | [] => true
  | (_, v) :: rest => refsGeV n v && refsGeO n rest

/-- The region of the store at or above `n0` is closed: objects in it
refer only to addresses at or above `n0`. -/
def freshClosed (s : Store) (n0 : Nat) : Prop :=
  ∀ p ∈ s.heap, n0 ≤ p.1 → refsGeO n0 p.2 = true

theorem hGetList_append (h1 h2 : List (Addr × Obj)) (a : Addr) :
    hGetList (h1 ++ h2) a =
      match hGetList h1 a with
      | some o => some o
      | none => hGetList h2 a := by
  induction h1 with
  | nil => simp [hGetList]
  | cons q t ih =>
      obtain ⟨b, o⟩ := q
      by_cases hb : b = a
      · simp [hGetList, hb]
      · simp [hGetList, hb, ih]

theorem storeGet_set (s : Store) (b a : Addr) (o : Obj) :
    storeGet (storeSet s b o) a =
      if a = b then (storeGet s b).map (fun _ => o) else storeGet s a := by
  obtain ⟨h, n⟩ := s
  simp only [storeSet, storeGet]
  induction h with
  | nil => simp [hGetList, hSetList]
  | cons q t ih =>
      obtain ⟨c, w⟩ := q
      by_cases hcb : c = b
      · subst hcb
        by_cases hab : a = c
        · subst hab; simp [hGetList, hSetList]
        · simp [hGetList, hSetList, hab, Ne.symm hab, ih]
      · by_cases hca : c = a
        · subst hca
          simp [hGetList, hSetList, hcb]
        · simp [hGetList, hSetList, hcb, hca, ih]

theorem hSetList_mem (h : List (Addr × Obj)) (b : Addr) (o : Obj) :
    ∀ p ∈ hSetList h b o, ∃ q ∈ h, p.1 = q.1 ∧ (p.2 = o ∨ p = q) := by
  induction h with
  | nil => simp [hSetList]
  | cons q t ih =>
      obtain ⟨c, w⟩ := q
      intro p hp
      simp only [hSetList] at hp
      by_cases hcb : c = b
      · rw [if_pos hcb] at hp
        rcases List.mem_cons.mp hp with hp | hp
        · subst hp
          exact ⟨(c, w), List.mem_cons_self _ _, by simp [hcb], Or.inl rfl⟩
        · obtain ⟨q, hq, h1, h2⟩ := ih p hp
          exact ⟨q, List.mem_cons_of_mem _ hq, h1, h2⟩
      · rw [if_neg hcb] at hp
        rcases List.mem_cons.mp hp with hp | hp
        · subst hp
          exact ⟨(c, w), List.mem_cons_self _ _, rfl, Or.inr rfl⟩
        · obtain ⟨q, hq, h1, h2⟩ := ih p hp
          exact ⟨q, List.mem_cons_of_mem _ hq, h1, h2⟩

theorem storeGet_alloc (s : Store) (o : Obj) (a : Addr) :
    storeGet (storeAlloc s o) a =
      match storeGet s a with
      | some w => some w
      | none => if s.next = a then some o else none := by
  obtain ⟨h, n⟩ := s
  simp only [storeAlloc, storeGet, hGetList_append]
  cases hGetList h a <;> simp [hGetList]

theorem storeGet_alloc_lt (s : Store) (o : Obj) (a : Addr) (h : a < s.next) :
    storeGet (storeAlloc s o) a = storeGet s a := by
  rw [storeGet_alloc]
  cases hg : storeGet s a
  · simp [Nat.ne_of_gt h]
  · rfl

theorem storeGet_mem (s : Store) (a : Addr) (o : Obj)
    (h : storeGet s a = some o) : (a, o) ∈ s.heap := by
  obtain ⟨hp, n⟩ := s
  simp only [storeGet] at h
  induction hp with
  | nil => simp [hGetList] at h
  | cons q t ih =>
      obtain ⟨b, w⟩ := q
      by_cases hb : b = a
      · subst hb
        simp [hGetList] at h
        simp [h]
      · simp [hGetList, hb] at h
        exact List.mem_cons_of_mem _ (ih h)

theorem storeGet_lt_next (s : Store) (a : Addr) (o : Obj)
    (hwf : wfStore s) (h : storeGet s a = some o) : a < s.next :=
  hwf _ (storeGet_mem s a o h)

theorem storeSet_next (s : Store) (b : Addr) (o : Obj) :
    (storeSet s b o).next = s.next := rfl

theorem storeAlloc_next (s : Store) (o : Obj) :
    (storeAlloc s o).next = s.next + 1 := rfl

theorem wfStore_set (s : Store) (b : Addr) (o : Obj) (hwf : wfStore s) :
    wfStore (storeSet s b o) := by
  intro p hp
  obtain ⟨q, hq, h1, _⟩ := hSetList_mem s.heap b o p hp
  exact h1 ▸ hwf q hq

theorem wfStore_alloc (s : Store) (o : Obj) (hwf : wfStore s) :
    wfStore (storeAlloc s o) := by
  intro p hp
  simp only [storeAlloc, List.mem_append, List.mem_singleton] at hp
  rcases hp with hp | hp
  · exact Nat.lt_succ_of_lt (hwf p hp)
  · subst hp; exact Nat.lt_succ_self _

theorem freshClosed_set (s : Store) (b : Addr) (o : Obj) (n0 : Nat)
    (hfc : freshClosed s n0) (ho : refsGeO n0 o = true) :
    freshClosed (storeSet s b o) n0 := by
  intro p hp hge
  obtain ⟨q, hq, h1, h2⟩ := hSetList_mem s.heap b o p hp
  rcases h2 with h2 | h2
  · rw [h2]; exact ho
  · subst h2; exact hfc p hq hge

theorem freshClosed_alloc (s : Store) (o : Obj) (n0 : Nat)
    (hfc : freshClosed s n0) (ho : refsGeO n0 o = true) :
    freshClosed (storeAlloc s o) n0 := by
  intro p hp hge
  simp only [storeAlloc, List.mem_append, List.mem_singleton] at hp
  rcases hp with hp | hp
  · exact hfc p hp hge
  · subst hp; exact ho

theorem refsGe_mono_aux (N : Nat) : ∀ (m n : Nat), m ≤ n →
    (∀ v : HVal, sizeOf v ≤ N → refsGeV n v = true → refsGeV m v = true) ∧
    (∀ xs : List HVal, sizeOf xs ≤ N → refsGeL n xs = true → refsGeL m xs = true) := by
  induction N with
  | zero =>
      intro m n _
      constructor
      · intro v hv _
        exfalso; cases v <;> simp at hv
      · intro xs hx _
        exfalso; cases xs <;> simp at hx
  | succ N ih =>
      intro m n hmn
      refine ⟨?_, ?_⟩
      · intro v hv hn
        cases v with
        | href a =>
            simp only [refsGeV, decide_eq_true_eq] at hn ⊢
            omega
        | harr xs =>
            simp only [refsGeV] at hn ⊢
            refine (ih m n hmn).2 xs ?_ hn
            simp at hv; omega
        | hstr x => simp [refsGeV]
        | hint x => simp [refsGeV]
        | hbool b => simp [refsGeV]
        | hnone => simp [refsGeV]
      · intro xs hx hn
        cases xs with
        | nil => simp [refsGeL]
        | cons v rest =>
            simp only [refsGeL, Bool.and_eq_true] at hn ⊢
            have hsz : sizeOf v ≤ N ∧ sizeOf rest ≤ N := by simp at hx; omega
            exact ⟨(ih m n hmn).1 v hsz.1 hn.1, (ih m n hmn).2 rest hsz.2 hn.2⟩

theorem refsGeV_mono (m n : Nat) (h : m ≤ n) (v : HVal)
    (hv : refsGeV n v = true) : refsGeV m v = true :=
  (refsGe_mono_aux (sizeOf v) m n h).1 v le_rfl hv

theorem refsGeL_mono (m n : Nat) (h : m ≤ n) (xs : List HVal)
    (hx : refsGeL n xs = true) : refsGeL m xs = true :=
  (refsGe_mono_aux (sizeOf xs) m n h).2 xs le_rfl hx

theorem refsGeO_mono (m n : Nat) (h : m ≤ n) : ∀ o : Obj,
    refsGeO n o = true → refsGeO m o = true := by
  intro o
  induction o with
  | nil => intro; rfl
  | cons p rest ih =>
      obtain ⟨k, v⟩ := p
      simp only [refsGeO, Bool.and_eq_true]
      rintro ⟨h1, h2⟩
      exact ⟨refsGeV_mono m n h v h1, ih h2⟩

theorem refsGeO_hlookup (n : Nat) (o : Obj) (k : String) (v : HVal)
    (ho : refsGeO n o = true) (hl : hlookup o k = some v) :
    refsGeV n v = true := by
  induction o with
  | nil => simp [hlookup] at hl
  | cons p rest ih =>
      obtain ⟨c, w⟩ := p
      simp only [refsGeO, Bool.and_eq_true] at ho
      simp only [hlookup] at hl
      by_cases hc : c = k
      · rw [if_pos hc] at hl
        cases hl
        exact ho.1
      · rw [if_neg hc] at hl
        exact ih ho.2 hl

theorem refsGeO_hinsert (n : Nat) (o : Obj) (k : String) (v : HVal)
    (ho : refsGeO n o = true) (hv : refsGeV n v = true) :
    refsGeO n (hinsert o k v) = true := by
  induction o with
  | nil => simp [hinsert, refsGeO, hv]
  | cons p rest ih =>
      obtain ⟨c, w⟩ := p
      simp only [refsGeO, Bool.and_eq_true] at ho
      simp only [hinsert]
      by_cases hc : c = k
      · rw [if_pos hc]
        simp [refsGeO, Bool.and_eq_true, hv, ho.2]
      · rw [if_neg hc]
        simp [refsGeO, Bool.and_eq_true, ho.1, ih ho.2]

/-- References of a deep-copy result. -/
def dcResRefsGe (n : Nat) : DcRes → Bool
  | .dv v => refsGeV n v
  | .dobj o => refsGeO n o
  | .dlist xs => refsGeL n xs

/-- References of an allocation result. -/
def ajResRefsGe (n : Nat) : AjRes → Bool
  | .av v => refsGeV n v
  | .aobj o => refsGeO n o
  | .alist xs => refsGeL n xs

theorem deepcopyAux_spec : ∀ (f : Nat) (s : Store) (arg : DcArg) (s2 : Store) (res : DcRes),
    wfStore s → deepcopyAux f s arg = some (s2, res) →
    (∀ a, a < s.next → storeGet s2 a = storeGet s a) ∧
    s.next ≤ s2.next ∧ wfStore s2 ∧ dcResRefsGe s.next res = true ∧
    (∀ n0, n0 ≤ s.next → freshClosed s n0 → freshClosed s2 n0) := by
  intro f
  induction f with
  | zero =>
      intro s arg s2 res _ h
      simp [deepcopyAux] at h
  | succ f ih =>
      intro s arg s2 res hwf h
      cases arg with
      | dv v =>
          cases v with
          | href a =>
              simp only [deepcopyAux] at h
              cases hga : storeGet s a with
              | none => rw [hga] at h; simp at h
              | some o =>
                  rw [hga] at h
                  dsimp only at h
                  cases hdc : deepcopyAux f s (.dobj o) with
                  | none => rw [hdc] at h; simp at h
                  | some pr =>
                      obtain ⟨s1, r1⟩ := pr
                      rw [hdc] at h
                      cases r1 with
                      | dv _ => simp at h
                      | dlist _ => simp at h
                      | dobj o1 =>
                          dsimp only at h
                          simp only [Option.some.injEq, Prod.mk.injEq] at h
                          obtain ⟨hs2, hres⟩ := h
                          subst hs2; subst hres
                          obtain ⟨fr1, mono1, wf1, refs1, fc1⟩ :=
                            ih s (.dobj o) s1 (.dobj o1) hwf hdc
                          refine ⟨?_, ?_, ?_, ?_, ?_⟩
                          · intro b hb
                            rw [storeGet_alloc_lt s1 o1 b (lt_of_lt_of_le hb mono1),
                              fr1 b hb]
                          · rw [storeAlloc_next]
                            exact Nat.le_succ_of_le mono1
                          · exact wfStore_alloc s1 o1 wf1
                          · simp [dcResRefsGe, refsGeV, mono1]
                          · intro n0 hn0 hfc
                            exact freshClosed_alloc s1 o1 n0 (fc1 n0 hn0 hfc)
                              (refsGeO_mono n0 s.next hn0 o1
                                (by simpa [dcResRefsGe] using refs1))
          | harr xs =>
              simp only [deepcopyAux] at h
              cases hdc : deepcopyAux f s (.dlist xs) with
              | none => rw [hdc] at h; simp at h
              | some pr =>
                  obtain ⟨s1, r1⟩ := pr
                  rw [hdc] at h
                  cases r1 with
                  | dv _ => simp at h
                  | dobj _ => simp at h
                  | dlist ys =>
                      dsimp only at h
                      simp only [Option.some.injEq, Prod.mk.injEq] at h
                      obtain ⟨hs2, hres⟩ := h
                      subst hs2; subst hres
                      obtain ⟨fr1, mono1, wf1, refs1, fc1⟩ :=
                        ih s (.dlist xs) s1 (.dlist ys) hwf hdc
                      exact ⟨fr1, mono1, wf1,
                        by simpa [dcResRefsGe, refsGeV] using refs1, fc1⟩
          | hstr x =>
              simp only [deepcopyAux, Option.some.injEq, Prod.mk.injEq] at h
              obtain ⟨hs2, hres⟩ := h
              subst hs2; subst hres
              exact ⟨fun a _ => rfl, le_rfl, hwf, by simp [dcResRefsGe, refsGeV],
                fun _ _ hfc => hfc⟩
          | hint x =>
              simp only [deepcopyAux, Option.some.injEq, Prod.mk.injEq] at h
              obtain ⟨hs2, hres⟩ := h
              subst hs2; subst hres
              exact ⟨fun a _ => rfl, le_rfl, hwf, by simp [dcResRefsGe, refsGeV],
                fun _ _ hfc => hfc⟩
          | hbool b =>
              simp only [deepcopyAux, Option.some.injEq, Prod.mk.injEq] at h
              obtain ⟨hs2, hres⟩ := h
              subst hs2; subst hres
              exact ⟨fun a _ => rfl, le_rfl, hwf, by simp [dcResRefsGe, refsGeV],
                fun _ _ hfc => hfc⟩
          | hnone =>
              simp only [deepcopyAux, Option.some.injEq, Prod.mk.injEq] at h
              obtain ⟨hs2, hres⟩ := h
              subst hs2; subst hres
              exact ⟨fun a _ => rfl, le_rfl, hwf, by simp [dcResRefsGe, refsGeV],
                fun _ _ hfc => hfc⟩
      | dobj o =>
          cases o with
          | nil =>
              simp only [deepcopyAux, Option.some.injEq, Prod.mk.injEq] at h
              obtain ⟨hs2, hres⟩ := h
              subst hs2; subst hres
              exact ⟨fun a _ => rfl, le_rfl, hwf, rfl, fun _ _ hfc => hfc⟩
          | cons p rest =>
              obtain ⟨k, v⟩ := p
              simp only [deepcopyAux] at h
              cases hd1 : deepcopyAux f s (.dv v) with
              | none => rw [hd1] at h; simp at h
              | some pr1 =>
                  obtain ⟨s1, r1⟩ := pr1
                  rw [hd1] at h
                  cases r1 with
                  | dobj _ => simp at h
                  | dlist _ => simp at h
                  | dv v1 =>
                      dsimp only at h
                      cases hd2 : deepcopyAux f s1 (.dobj rest) with
                      | none => rw [hd2] at h; simp at h
                      | some pr2 =>
                          obtain ⟨s2', r2⟩ := pr2
                          rw [hd2] at h
                          cases r2 with
                          | dv _ => simp at h
                          | dlist _ => simp at h
                          | dobj r1' =>
                              dsimp only at h
                              simp only [Option.some.injEq, Prod.mk.injEq] at h
                              obtain ⟨hs2, hres⟩ := h
                              subst hs2; subst hres
                              obtain ⟨frA, monoA, wfA, refsA, fcA⟩ :=
                                ih s (.dv v) s1 (.dv v1) hwf hd1
                              obtain ⟨frB, monoB, wfB, refsB, fcB⟩ :=
                                ih s1 (.dobj rest) s2' (.dobj r1') wfA hd2
                              refine ⟨?_, le_trans monoA monoB, wfB, ?_, ?_⟩
                              · intro b hb
                                rw [frB b (lt_of_lt_of_le hb monoA), frA b hb]
                              · simp only [dcResRefsGe, refsGeO, Bool.and_eq_true]
                                exact ⟨by simpa [dcResRefsGe] using refsA,
                                  refsGeO_mono s.next s1.next monoA r1'
                                    (by simpa [dcResRefsGe] using refsB)⟩
                              · intro n0 hn0 hfc
                                exact fcB n0 (le_trans hn0 monoA) (fcA n0 hn0 hfc)
      | dlist xs =>
          cases xs with
          | nil =>
              simp only [deepcopyAux, Option.some.injEq, Prod.mk.injEq] at h
              obtain ⟨hs2, hres⟩ := h
              subst hs2; subst hres
              exact ⟨fun a _ => rfl, le_rfl, hwf, rfl, fun _ _ hfc => hfc⟩
          | cons v rest =>
              simp only [deepcopyAux] at h
              cases hd1 : deepcopyAux f s (.dv v) with
              | none => rw [hd1] at h; simp at h
              | some pr1 =>
                  obtain ⟨s1, r1⟩ := pr1
                  rw [hd1] at h
                  cases r1 with
                  | dobj _ => simp at h
                  | dlist _ => simp at h
                  | dv v1 =>
                      dsimp only at h
                      cases hd2 : deepcopyAux f s1 (.dlist rest) with
                      | none => rw [hd2] at h; simp at h
                      | some pr2 =>
                          obtain ⟨s2', r2⟩ := pr2
                          rw [hd2] at h
                          cases r2 with
                          | dv _ => simp at h
                          | dobj _ => simp at h
                          | dlist r1' =>
                              dsimp only at h
                              simp only [Option.some.injEq, Prod.mk.injEq] at h
                              obtain ⟨hs2, hres⟩ := h
                              subst hs2; subst hres
                              obtain ⟨frA, monoA, wfA, refsA, fcA⟩ :=
                                ih s (.dv v) s1 (.dv v1) hwf hd1
                              obtain ⟨frB, monoB, wfB, refsB, fcB⟩ :=
                                ih s1 (.dlist rest) s2' (.dlist r1') wfA hd2
                              refine ⟨?_, le_trans monoA monoB, wfB, ?_, ?_⟩
                              · intro b hb
                                rw [frB b (lt_of_lt_of_le hb monoA), frA b hb]
                              · simp only [dcResRefsGe, refsGeL, Bool.and_eq_true]
                                exact ⟨by simpa [dcResRefsGe] using refsA,
                                  refsGeL_mono s.next s1.next monoA r1'
                                    (by simpa [dcResRefsGe] using refsB)⟩
                              · intro n0 hn0 hfc
                                exact fcB n0 (le_trans hn0 monoA) (fcA n0 hn0 hfc)

theorem allocJsonAux_spec : ∀ (f : Nat) (s : Store) (arg : AjArg) (s2 : Store) (res : AjRes),
    wfStore s → allocJsonAux f s arg = some (s2, res) →
    (∀ a, a < s.next → storeGet s2 a = storeGet s a) ∧
    s.next ≤ s2.next ∧ wfStore s2 ∧ ajResRefsGe s.next res = true ∧
    (∀ n0, n0 ≤ s.next → freshClosed s n0 → freshClosed s2 n0) := by
  intro f
  induction f with
  | zero =>
      intro s arg s2 res _ h
      simp [allocJsonAux] at h
  | succ f ih =>
      intro s arg s2 res hwf h
      cases arg with
      | av j =>
          cases j with
          | null =>
              simp only [allocJsonAux, Option.some.injEq, Prod.mk.injEq] at h
              obtain ⟨hs2, hres⟩ := h
              subst hs2; subst hres
              exact ⟨fun a _ => rfl, le_rfl, hwf, by simp [ajResRefsGe, refsGeV],
                fun _ _ hfc => hfc⟩
          | bool b =>
              simp only [allocJsonAux, Option.some.injEq, Prod.mk.injEq] at h
              obtain ⟨hs2, hres⟩ := h
              subst hs2; subst hres
              exact ⟨fun a _ => rfl, le_rfl, hwf, by simp [ajResRefsGe, refsGeV],
                fun _ _ hfc => hfc⟩
          | int n =>
              simp only [allocJsonAux, Option.some.injEq, Prod.mk.injEq] at h
              obtain ⟨hs2, hres⟩ := h
              subst hs2; subst hres
              exact ⟨fun a _ => rfl, le_rfl, hwf, by simp [ajResRefsGe, refsGeV],
                fun _ _ hfc => hfc⟩
          | str x =>
              simp only [allocJsonAux, Option.some.injEq, Prod.mk.injEq] at h
              obtain ⟨hs2, hres⟩ := h
              subst hs2; subst hres
              exact ⟨fun a _ => rfl, le_rfl, hwf, by simp [ajResRefsGe, refsGeV],
                fun _ _ hfc => hfc⟩
          | arr xs =>
              simp only [allocJsonAux] at h
              cases hdc : allocJsonAux f s (.alist xs) with
              | none => rw [hdc] at h; simp at h
              | some pr =>
                  obtain ⟨s1, r1⟩ := pr
                  rw [hdc] at h
                  cases r1 with
                  | av _ => simp at h
                  | aobj _ => simp at h
                  | alist ys =>
                      dsimp only at h
                      simp only [Option.some.injEq, Prod.mk.injEq] at h
                      obtain ⟨hs2, hres⟩ := h
                      subst hs2; subst hres
                      obtain ⟨fr1, mono1, wf1, refs1, fc1⟩ :=
                        ih s (.alist xs) s1 (.alist ys) hwf hdc
                      exact ⟨fr1, mono1, wf1,
                        by simpa [ajResRefsGe, refsGeV] using refs1, fc1⟩
          | obj es =>
              simp only [allocJsonAux] at h
              cases hdc : allocJsonAux f s (.aobj es) with
              | none => rw [hdc] at h; simp at h
              | some pr =>
                  obtain ⟨s1, r1⟩ := pr
                  rw [hdc] at h
                  cases r1 with
                  | av _ => simp at h
                  | alist _ => simp at h
                  | aobj o1 =>
                      dsimp only at h
                      simp only [Option.some.injEq, Prod.mk.injEq] at h
                      obtain ⟨hs2, hres⟩ := h
                      subst hs2; subst hres
                      obtain ⟨fr1, mono1, wf1, refs1, fc1⟩ :=
                        ih s (.aobj es) s1 (.aobj o1) hwf hdc
                      refine ⟨?_, ?_, ?_, ?_, ?_⟩
                      · intro b hb
                        rw [storeGet_alloc_lt s1 o1 b (lt_of_lt_of_le hb mono1),
                          fr1 b hb]
                      · rw [storeAlloc_next]
                        exact Nat.le_succ_of_le mono1
                      · exact wfStore_alloc s1 o1 wf1
                      · simp [ajResRefsGe, refsGeV, mono1]
                      · intro n0 hn0 hfc
                        exact freshClosed_alloc s1 o1 n0 (fc1 n0 hn0 hfc)
                          (refsGeO_mono n0 s.next hn0 o1
                            (by simpa [ajResRefsGe] using refs1))
      | aobj es =>
          cases es with
          | nil =>
              simp only [allocJsonAux, Option.some.injEq, Prod.mk.injEq] at h
              obtain ⟨hs2, hres⟩ := h
              subst hs2; subst hres
              exact ⟨fun a _ => rfl, le_rfl, hwf, rfl, fun _ _ hfc => hfc⟩
          | cons p rest =>
              obtain ⟨k, v⟩ := p
              simp only [allocJsonAux] at h
              cases hd1 : allocJsonAux f s (.av v) with
              | none => rw [hd1] at h; simp at h
              | some pr1 =>
                  obtain ⟨s1, r1⟩ := pr1
                  rw [hd1] at h
                  cases r1 with
                  | aobj _ => simp at h
                  | alist _ => simp at h
                  | av v1 =>
                      dsimp only at h
                      cases hd2 : allocJsonAux f s1 (.aobj rest) with
                      | none => rw [hd2] at h; simp at h
                      | some pr2 =>
                          obtain ⟨s2', r2⟩ := pr2
                          rw [hd2] at h
                          cases r2 with
                          | av _ => simp at h
                          | alist _ => simp at h
                          | aobj r1' =>
                              dsimp only at h
                              simp only [Option.some.injEq, Prod.mk.injEq] at h
                              obtain ⟨hs2, hres⟩ := h
                              subst hs2; subst hres
                              obtain ⟨frA, monoA, wfA, refsA, fcA⟩ :=
                                ih s (.av v) s1 (.av v1) hwf hd1
                              obtain ⟨frB, monoB, wfB, refsB, fcB⟩ :=
                                ih s1 (.aobj rest) s2' (.aobj r1') wfA hd2
                              refine ⟨?_, le_trans monoA monoB, wfB, ?_, ?_⟩
                              · intro b hb
                                rw [frB b (lt_of_lt_of_le hb monoA), frA b hb]
                              · simp only [ajResRefsGe, refsGeO, Bool.and_eq_true]
                                exact ⟨by simpa [ajResRefsGe] using refsA,
                                  refsGeO_mono s.next s1.next monoA r1'
                                    (by simpa [ajResRefsGe] using refsB)⟩
                              · intro n0 hn0 hfc
                                exact fcB n0 (le_trans hn0 monoA) (fcA n0 hn0 hfc)
      | alist xs =>
          cases xs with
          | nil =>
              simp only [allocJsonAux, Option.some.injEq, Prod.mk.injEq] at h
              obtain ⟨hs2, hres⟩ := h
              subst hs2; subst hres
              exact ⟨fun a _ => rfl, le_rfl, hwf, rfl, fun _ _ hfc => hfc⟩
          | cons v rest =>
              simp only [allocJsonAux] at h
              cases hd1 : allocJsonAux f s (.av v) with
              | none => rw [hd1] at h; simp at h
              | some pr1 =>
                  obtain ⟨s1, r1⟩ := pr1
                  rw [hd1] at h
                  cases r1 with
                  | aobj _ => simp at h
                  | alist _ => simp at h
                  | av v1 =>
                      dsimp only at h
                      cases hd2 : allocJsonAux f s1 (.alist rest) with
                      | none => rw [hd2] at h; simp at h
                      | some pr2 =>
                          obtain ⟨s2', r2⟩ := pr2
                          rw [hd2] at h
                          cases r2 with
                          | av _ => simp at h
                          | aobj _ => simp at h
                          | alist r1' =>
                              dsimp only at h
                              simp only [Option.some.injEq, Prod.mk.injEq] at h
                              obtain ⟨hs2, hres⟩ := h
                              subst hs2; subst hres
                              obtain ⟨frA, monoA, wfA, refsA, fcA⟩ :=
                                ih s (.av v) s1 (.av v1) hwf hd1
                              obtain ⟨frB, monoB, wfB, refsB, fcB⟩ :=
                                ih s1 (.alist rest) s2' (.alist r1') wfA hd2
                              refine ⟨?_, le_trans monoA monoB, wfB, ?_, ?_⟩
                              · intro b hb
                                rw [frB b (lt_of_lt_of_le hb monoA), frA b hb]
                              · simp only [ajResRefsGe, refsGeL, Bool.and_eq_true]
                                exact ⟨by simpa [ajResRefsGe] using refsA,
                                  refsGeL_mono s.next s1.next monoA r1'
                                    (by simpa [ajResRefsGe] using refsB)⟩
                              · intro n0 hn0 hfc
                                exact fcB n0 (le_trans hn0 monoA) (fcA n0 hn0 hfc)

theorem deepUpdateH_spec : ∀ (f : Nat) (s : Store) (t : Addr) (src : Obj) (s2 : Store) (n0 : Nat),
    wfStore s → n0 ≤ s.next → freshClosed s n0 → n0 ≤ t → refsGeO n0 src = true →
    deepUpdateH f s t src = some s2 →
    (∀ a, a < n0 → storeGet s2 a = storeGet s a) ∧
    s.next ≤ s2.next ∧ wfStore s2 ∧ freshClosed s2 n0 := by
  intro f
  induction f with
  | zero =>
      intro s t src s2 n0 hwf _ hfc _ _ h
      cases src with
      | nil =>
          simp only [deepUpdateH, Option.some.injEq] at h
          subst h
          exact ⟨fun a _ => rfl, le_rfl, hwf, hfc⟩
      | cons p rest => simp [deepUpdateH] at h
  | succ f ih =>
      intro s t src s2 n0 hwf hns hfc ht hsrc h
      cases src with
      | nil =>
          simp only [deepUpdateH, Option.some.injEq] at h
          subst h
          exact ⟨fun a _ => rfl, le_rfl, hwf, hfc⟩
      | cons p rest =>
          obtain ⟨k, v⟩ := p
          simp only [refsGeO, Bool.and_eq_true] at hsrc
          obtain ⟨hv, hrest⟩ := hsrc
          simp only [deepUpdateH] at h
          cases hgt : storeGet s t with
          | none => rw [hgt] at h; simp at h
          | some tObj =>
              rw [hgt] at h
              dsimp only at h
              have htObj : refsGeO n0 tObj = true :=
                hfc (t, tObj) (storeGet_mem s t tObj hgt) ht
              have hassign : ∀ s2,
                  deepUpdateH f (storeSet s t (hinsert tObj k v)) t rest = some s2 →
                  (∀ a, a < n0 → storeGet s2 a = storeGet s a) ∧
                  s.next ≤ s2.next ∧ wfStore s2 ∧ freshClosed s2 n0 := by
                intro s2 h'
                have hwf' : wfStore (storeSet s t (hinsert tObj k v)) :=
                  wfStore_set s t _ hwf
                have hfc' : freshClosed (storeSet s t (hinsert tObj k v)) n0 :=
                  freshClosed_set s t _ n0 hfc (refsGeO_hinsert n0 tObj k v htObj hv)
                obtain ⟨fr', mono', wf', fc'⟩ :=
                  ih (storeSet s t (hinsert tObj k v)) t rest s2 n0 hwf'
                    (by rw [storeSet_next]; exact hns) hfc' ht hrest h'
                refine ⟨?_, ?_, wf', fc'⟩
                · intro a ha
                  have hat : ¬ a = t := by omega
                  rw [fr' a ha, storeGet_set, if_neg hat]
                · rw [storeSet_next] at mono'
                  exact mono'
              cases hlk : hlookup tObj k with
              | none =>
                  rw [hlk] at h
                  dsimp only at h
                  exact hassign s2 h
              | some w =>
                  rw [hlk] at h
                  cases w with
                  | hstr x => dsimp only at h; exact hassign s2 h
                  | hint n => dsimp only at h; exact hassign s2 h
                  | hbool b => dsimp only at h; exact hassign s2 h
                  | hnone => dsimp only at h; exact hassign s2 h
                  | harr xs => dsimp only at h; exact hassign s2 h
                  | href ta =>
                      dsimp only at h
                      have hta : n0 ≤ ta := by
                        have := refsGeO_hlookup n0 tObj k (.href ta) htObj hlk
                        simpa [refsGeV, decide_eq_true_eq] using this
                      cases v with
                      | hstr x => dsimp only at h; exact hassign s2 h
                      | hint n => dsimp only at h; exact hassign s2 h
                      | hbool b => dsimp only at h; exact hassign s2 h
                      | hnone => dsimp only at h; exact hassign s2 h
                      | harr xs => dsimp only at h; exact hassign s2 h
                      | href sa =>
                          dsimp only at h
                          have hsa : n0 ≤ sa := by
                            simpa [refsGeV, decide_eq_true_eq] using hv
                          cases hgs : storeGet s sa with
                          | none => rw [hgs] at h; simp at h
                          | some srcObj =>
                              rw [hgs] at h
                              dsimp only at h
                              have hsrcObj : refsGeO n0 srcObj = true :=
                                hfc (sa, srcObj) (storeGet_mem s sa srcObj hgs) hsa
                              cases hr1 : deepUpdateH f s ta srcObj with
                              | none => rw [hr1] at h; simp at h
                              | some s1 =>
                                  rw [hr1] at h
                                  dsimp only at h
                                  obtain ⟨fr1, mono1, wf1, fc1⟩ :=
                                    ih s ta srcObj s1 n0 hwf hns hfc hta hsrcObj hr1
                                  obtain ⟨fr2, mono2, wf2, fc2⟩ :=
                                    ih s1 t rest s2 n0 wf1 (le_trans hns mono1) fc1 ht hrest h
                                  exact ⟨fun a ha => by rw [fr2 a ha, fr1 a ha],
                                    le_trans mono1 mono2, wf2, fc2⟩

theorem freshClosed_init (s : Store) (hwf : wfStore s) : freshClosed s s.next := by
  intro p hp hge
  exact absurd hge (not_le.mpr (hwf p hp))

theorem setNestedH_spec (s : Store) (cfgAddr : Addr) (sect key : String) (v : HVal)
    (s2 : Store) (n0 : Nat) (hwf : wfStore s) (hns : n0 ≤ s.next)
    (hfc : freshClosed s n0) (hca : n0 ≤ cfgAddr) (hv : refsGeV n0 v = true)
    (h : setNestedH s cfgAddr sect key v = some s2) :
    (∀ a, a < n0 → storeGet s2 a = storeGet s a) ∧
    s.next ≤ s2.next ∧ wfStore s2 ∧ freshClosed s2 n0 := by
  simp only [setNestedH] at h
  cases hgc : storeGet s cfgAddr with
  | none => rw [hgc] at h; simp at h
  | some o =>
      rw [hgc] at h
      dsimp only at h
      have ho : refsGeO n0 o = true :=
        hfc (cfgAddr, o) (storeGet_mem s cfgAddr o hgc) hca
      cases hlk : hlookup o sect with
      | none => rw [hlk] at h; simp at h
      | some w =>
          rw [hlk] at h
          cases w with
          | hstr x => simp at h
          | hint n => simp at h
          | hbool b => simp at h
          | hnone => simp at h
          | harr xs => simp at h
          | href da =>
              dsimp only at h
              have hda : n0 ≤ da := by
                have := refsGeO_hlookup n0 o sect (.href da) ho hlk
                simpa [refsGeV, decide_eq_true_eq] using this
              cases hgi : storeGet s da with
              | none => rw [hgi] at h; simp at h
              | some innerObj =>
                  rw [hgi] at h
                  simp only [Option.some.injEq] at h
                  subst h
                  have hinner : refsGeO n0 innerObj = true :=
                    hfc (da, innerObj) (storeGet_mem s da innerObj hgi) hda
                  refine ⟨?_, ?_, wfStore_set s da _ hwf, ?_⟩
                  · intro a ha
                    have had : ¬ a = da := by omega
                    rw [storeGet_set, if_neg had]
                  · rw [storeSet_next]
                  · exact freshClosed_set s da _ n0 hfc
                      (refsGeO_hinsert n0 innerObj key v hinner hv)

theorem jsonPrimToH_refsGe (j : Json) (v : HVal) (n0 : Nat)
    (h : jsonPrimToH j = some v) : refsGeV n0 v = true := by
  cases j <;> simp [jsonPrimToH] at h <;> subst h <;> simp [refsGeV]

theorem envSetH_spec (env : List (String × String)) (var sect key : String)
    (conv : String → Except PyError Json) (s : Store) (cfgAddr : Addr)
    (s2 : Store) (n0 : Nat) (hwf : wfStore s) (hns : n0 ≤ s.next)
    (hfc : freshClosed s n0) (hca : n0 ≤ cfgAddr)
    (h : envSetH env var sect key conv s cfgAddr = some s2) :
    (∀ a, a < n0 → storeGet s2 a = storeGet s a) ∧
    s.next ≤ s2.next ∧ wfStore s2 ∧ freshClosed s2 n0 := by
  simp only [envSetH] at h
  cases hge : getenv env var with
  | none =>
      rw [hge] at h
      simp only [Option.some.injEq] at h
      subst h
      exact ⟨fun a _ => rfl, le_rfl, hwf, hfc⟩
  | some str =>
      rw [hge] at h
      dsimp only at h
      by_cases hstr : str = ""
      · rw [if_pos hstr] at h
        simp only [Option.some.injEq] at h
        subst h
        exact ⟨fun a _ => rfl, le_rfl, hwf, hfc⟩
      · rw [if_neg hstr] at h
        cases hc : conv str with
        | error e => rw [hc] at h; simp at h
        | ok j =>
            rw [hc] at h
            dsimp only at h
            cases hp : jsonPrimToH j with
            | none => rw [hp] at h; simp at h
            | some v =>
                rw [hp] at h
                dsimp only at h
                exact setNestedH_spec s cfgAddr sect key v s2 n0 hwf hns hfc hca
                  (jsonPrimToH_refsGe j v n0 hp) h

theorem applyEnvH_spec (env : List (String × String)) (s : Store) (cfgAddr : Addr)
    (s2 : Store) (n0 : Nat) (hwf : wfStore s) (hns : n0 ≤ s.next)
    (hfc : freshClosed s n0) (hca : n0 ≤ cfgAddr)
    (h : applyEnvH env s cfgAddr = some s2) :
    (∀ a, a < n0 → storeGet s2 a = storeGet s a) ∧
    s.next ≤ s2.next ∧ wfStore s2 ∧ freshClosed s2 n0 := by
  simp only [applyEnvH] at h
  cases h1 : envSetH env "POSTGRES_HOST" "database" "host" convStr s cfgAddr with
  | none => rw [h1] at h; simp at h
  | some t1 =>
      rw [h1] at h
      simp only [Option.bind] at h
      obtain ⟨fr1, mono1, wf1, fc1⟩ :=
        envSetH_spec env "POSTGRES_HOST" "database" "host" convStr s cfgAddr t1 n0 hwf hns hfc hca h1
      have hns1 : n0 ≤ t1.next := le_trans hns mono1
      cases h2 : envSetH env "POSTGRES_PORT" "database" "port" convInt t1 cfgAddr with
      | none => rw [h2] at h; simp at h
      | some t2 =>
          rw [h2] at h
          simp only [Option.bind] at h
          obtain ⟨fr2, mono2, wf2, fc2⟩ :=
            envSetH_spec env "POSTGRES_PORT" "database" "port" convInt t1 cfgAddr t2 n0 wf1 hns1 fc1 hca h2
          have hns2 : n0 ≤ t2.next := le_trans hns1 mono2
          cases h3 : envSetH env "POSTGRES_DB" "database" "dbname" convStr t2 cfgAddr with
          | none => rw [h3] at h; simp at h
          | some t3 =>
              rw [h3] at h
              simp only [Option.bind] at h
              obtain ⟨fr3, mono3, wf3, fc3⟩ :=
                envSetH_spec env "POSTGRES_DB" "database" "dbname" convStr t2 cfgAddr t3 n0 wf2 hns2 fc2 hca h3
              have hns3 : n0 ≤ t3.next := le_trans hns2 mono3
              cases h4 : envSetH env "POSTGRES_USER" "database" "user" convStr t3 cfgAddr with
              | none => rw [h4] at h; simp at h
              | some t4 =>
                  rw [h4] at h
                  simp only [Option.bind] at h
                  obtain ⟨fr4, mono4, wf4, fc4⟩ :=
                    envSetH_spec env "POSTGRES_USER" "database" "user" convStr t3 cfgAddr t4 n0 wf3 hns3 fc3 hca h4
                  have hns4 : n0 ≤ t4.next := le_trans hns3 mono4
                  cases h5 : envSetH env "POSTGRES_PASSWORD" "database" "password" convStr t4 cfgAddr with
                  | none => rw [h5] at h; simp at h
                  | some t5 =>
                      rw [h5] at h
                      simp only [Option.bind] at h
                      obtain ⟨fr5, mono5, wf5, fc5⟩ :=
                        envSetH_spec env "POSTGRES_PASSWORD" "database" "password" convStr t4 cfgAddr t5 n0 wf4 hns4 fc4 hca h5
                      have hns5 : n0 ≤ t5.next := le_trans hns4 mono5
                      cases h6 : envSetH env "OUTPUT_DIR" "output" "directory" convStr t5 cfgAddr with
                      | none => rw [h6] at h; simp at h
                      | some t6 =>
                          rw [h6] at h
                          simp only [Option.bind] at h
                          obtain ⟨fr6, mono6, wf6, fc6⟩ :=
                            envSetH_spec env "OUTPUT_DIR" "output" "directory" convStr t5 cfgAddr t6 n0 wf5 hns5 fc5 hca h6
                          have hns6 : n0 ≤ t6.next := le_trans hns5 mono6
                          cases h7 : envSetH env "OUTPUT_OVERWRITE" "output" "overwrite" convTruthy t6 cfgAddr with
                          | none => rw [h7] at h; simp at h
                          | some t7 =>
                              rw [h7] at h
                              simp only [Option.bind] at h
                              obtain ⟨fr7, mono7, wf7, fc7⟩ :=
                                envSetH_spec env "OUTPUT_OVERWRITE" "output" "overwrite" convTruthy t6 cfgAddr t7 n0 wf6 hns6 fc6 hca h7
                              have hns7 : n0 ≤ t7.next := le_trans hns6 mono7
                              cases h8 : envSetH env "LOG_LEVEL" "logging" "level" convStr t7 cfgAddr with
                              | none => rw [h8] at h; simp at h
                              | some t8 =>
                                  rw [h8] at h
                                  simp only [Option.bind] at h
                                  obtain ⟨fr8, mono8, wf8, fc8⟩ :=
                                    envSetH_spec env "LOG_LEVEL" "logging" "level" convStr t7 cfgAddr t8 n0 wf7 hns7 fc7 hca h8
                                  have hns8 : n0 ≤ t8.next := le_trans hns7 mono8
                                  obtain ⟨fr9, mono9, wf9, fc9⟩ :=
                                    envSetH_spec env "LOG_FILE" "logging" "file" convStr t8 cfgAddr s2 n0 wf8 hns8 fc8 hca h
                                  refine ⟨?_, ?_, wf9, fc9⟩
                                  · intro a ha
                                    rw [fr9 a ha, fr8 a ha, fr7 a ha, fr6 a ha, fr5 a ha, fr4 a ha, fr3 a ha, fr2 a ha, fr1 a ha]
                                  · exact le_trans (le_trans (le_trans (le_trans (le_trans (le_trans (le_trans (le_trans (mono1) mono2) mono3) mono4) mono5) mono6) mono7) mono8) mono9

theorem mtAssignH_spec (fuel : Nat) (s : Store) (cfgAddr : Addr) (key : String)
    (ov : Option Json) (s2 : Store) (n0 : Nat) (hwf : wfStore s)
    (hns : n0 ≤ s.next) (hfc : freshClosed s n0) (hca : n0 ≤ cfgAddr)
    (h : mtAssignH fuel s cfgAddr key ov = some s2) :
    (∀ a, a < n0 → storeGet s2 a = storeGet s a) ∧
    s.next ≤ s2.next ∧ wfStore s2 ∧ freshClosed s2 n0 := by
  cases ov with
  | none =>
      simp only [mtAssignH, Option.some.injEq] at h
      subst h
      exact ⟨fun a _ => rfl, le_rfl, hwf, hfc⟩
  | some v =>
      simp only [mtAssignH] at h
      cases ha : allocJsonAux fuel s (.av v) with
      | none => rw [ha] at h; simp at h
      | some pr =>
          obtain ⟨s1, r1⟩ := pr
          rw [ha] at h
          cases r1 with
          | aobj _ => simp at h
          | alist _ => simp at h
          | av hv =>
              dsimp only at h
              obtain ⟨frA, monoA, wfA, refsA, fcA⟩ :=
                allocJsonAux_spec fuel s (.av v) s1 (.av hv) hwf ha
              have fcA' : freshClosed s1 n0 := fcA n0 hns (hfc)
              have hvref : refsGeV n0 hv = true :=
                refsGeV_mono n0 s.next hns hv (by simpa [ajResRefsGe] using refsA)
              cases hgc : storeGet s1 cfgAddr with
              | none => rw [hgc] at h; simp at h
              | some o =>
                  rw [hgc] at h
                  simp only [Option.some.injEq] at h
                  subst h
                  have ho : refsGeO n0 o = true :=
                    fcA' (cfgAddr, o) (storeGet_mem s1 cfgAddr o hgc) hca
                  refine ⟨?_, ?_, wfStore_set s1 cfgAddr _ wfA, ?_⟩
                  · intro a haa
                    have hac : ¬ a = cfgAddr := by omega
                    rw [storeGet_set, if_neg hac, frA a (lt_of_lt_of_le haa hns)]
                  · rw [storeSet_next]; exact monoA
                  · exact freshClosed_set s1 cfgAddr _ n0 fcA'
                      (refsGeO_hinsert n0 o key hv ho hvref)

theorem applyMessageTypesFileH_spec (fuel : Nat) (mf : Option Json) (s : Store)
    (cfgAddr : Addr) (s2 : Store) (n0 : Nat) (hwf : wfStore s)
    (hns : n0 ≤ s.next) (hfc : freshClosed s n0) (hca : n0 ≤ cfgAddr)
    (h : applyMessageTypesFileH fuel mf s cfgAddr = some s2) :
    (∀ a, a < n0 → storeGet s2 a = storeGet s a) ∧
    s.next ≤ s2.next ∧ wfStore s2 ∧ freshClosed s2 n0 := by
  cases mf with
  | none =>
      simp only [applyMessageTypesFileH, Option.some.injEq] at h
      subst h
      exact ⟨fun a _ => rfl, le_rfl, hwf, hfc⟩
  | some j =>
      cases j with
      | obj src =>
          simp only [applyMessageTypesFileH] at h
          cases h1 : mtAssignH fuel s cfgAddr "message_types" (dlookup src "message_types") with
          | none => rw [h1] at h; simp at h
          | some s1 =>
              rw [h1] at h
              dsimp only at h
              obtain ⟨frA, monoA, wfA, fcA⟩ :=
                mtAssignH_spec fuel s cfgAddr "message_types" _ s1 n0 hwf hns hfc hca h1
              obtain ⟨frB, monoB, wfB, fcB⟩ :=
                mtAssignH_spec fuel s1 cfgAddr "default_message_format" _ s2 n0 wfA
                  (le_trans hns monoA) fcA hca h
              exact ⟨fun a ha => by rw [frB a ha, frA a ha],
                le_trans monoA monoB, wfB, fcB⟩
      | null =>
          simp only [applyMessageTypesFileH, Option.some.injEq] at h
          subst h
          exact ⟨fun a _ => rfl, le_rfl, hwf, hfc⟩
      | bool b =>
          simp only [applyMessageTypesFileH, Option.some.injEq] at h
          subst h
          exact ⟨fun a _ => rfl, le_rfl, hwf, hfc⟩
      | int n =>
          simp only [applyMessageTypesFileH, Option.some.injEq] at h
          subst h
          exact ⟨fun a _ => rfl, le_rfl, hwf, hfc⟩
      | str x =>
          simp only [applyMessageTypesFileH, Option.some.injEq] at h
          subst h
          exact ⟨fun a _ => rfl, le_rfl, hwf, hfc⟩
      | arr xs =>
          simp only [applyMessageTypesFileH, Option.some.injEq] at h
          subst h
          exact ⟨fun a _ => rfl, le_rfl, hwf, hfc⟩

theorem loadStep2_spec (fuel : Nat) (cf : Option Json) (s1 : Store)
    (copyAddr : Addr) (s3 : Store) (n0 : Nat) (hwf : wfStore s1)
    (hns : n0 ≤ s1.next) (hfc : freshClosed s1 n0) (hca : n0 ≤ copyAddr)
    (h : loadStep2 fuel cf s1 copyAddr = some s3) :
    (∀ a, a < n0 → storeGet s3 a = storeGet s1 a) ∧
    s1.next ≤ s3.next ∧ wfStore s3 ∧ freshClosed s3 n0 := by
  cases cf with
  | none =>
      simp only [loadStep2, Option.some.injEq] at h
      subst h
      exact ⟨fun a _ => rfl, le_rfl, hwf, hfc⟩
  | some j =>
      cases j with
      | obj src =>
          simp only [loadStep2] at h
          cases ha : allocJsonAux fuel s1 (.aobj src) with
          | none => rw [ha] at h; simp at h
          | some pr =>
              obtain ⟨s2, r2⟩ := pr
              rw [ha] at h
              cases r2 with
              | av _ => simp at h
              | alist _ => simp at h
              | aobj srcObj =>
                  dsimp only at h
                  obtain ⟨frA, monoA, wfA, refsA, fcA⟩ :=
                    allocJsonAux_spec fuel s1 (.aobj src) s2 (.aobj srcObj) hwf ha
                  have hsrc : refsGeO n0 srcObj = true :=
                    refsGeO_mono n0 s1.next hns srcObj
                      (by simpa [ajResRefsGe] using refsA)
                  obtain ⟨frB, monoB, wfB, fcB⟩ :=
                    deepUpdateH_spec fuel s2 copyAddr srcObj s3 n0 wfA
                      (le_trans hns monoA) (fcA n0 hns hfc) hca hsrc h
                  exact ⟨fun a haa => by
                      rw [frB a haa, frA a (lt_of_lt_of_le haa hns)],
                    le_trans monoA monoB, wfB, fcB⟩
      | null =>
          simp only [loadStep2, Option.some.injEq] at h
          subst h
          exact ⟨fun a _ => rfl, le_rfl, hwf, hfc⟩
      | bool b =>
          simp only [loadStep2, Option.some.injEq] at h
          subst h
          exact ⟨fun a _ => rfl, le_rfl, hwf, hfc⟩
      | int n =>
          simp only [loadStep2, Option.some.injEq] at h
          subst h
          exact ⟨fun a _ => rfl, le_rfl, hwf, hfc⟩
      | str x =>
          simp only [loadStep2, Option.some.injEq] at h
          subst h
          exact ⟨fun a _ => rfl, le_rfl, hwf, hfc⟩
      | arr xs =>
          simp only [loadStep2, Option.some.injEq] at h
          subst h
          exact ⟨fun a _ => rfl, le_rfl, hwf, hfc⟩

theorem loadTail_spec (fuel : Nat) (mf : Option Json)
    (env : List (String × String)) (copyAddr : Addr) (s3 s' : Store) (r : Addr)
    (n0 : Nat) (hwf : wfStore s3) (hns : n0 ≤ s3.next) (hfc : freshClosed s3 n0)
    (hca : n0 ≤ copyAddr) (h : loadTail fuel mf env copyAddr s3 = some (s', r)) :
    (∀ a, a < n0 → storeGet s' a = storeGet s3 a) ∧
    s3.next ≤ s'.next ∧ wfStore s' ∧ freshClosed s' n0 ∧ r = copyAddr := by
  simp only [loadTail] at h
  cases h4 : applyMessageTypesFileH fuel mf s3 copyAddr with
  | none => rw [h4] at h; simp at h
  | some s4 =>
      rw [h4] at h
      dsimp only at h
      obtain ⟨frA, monoA, wfA, fcA⟩ :=
        applyMessageTypesFileH_spec fuel mf s3 copyAddr s4 n0 hwf hns hfc hca h4
      cases h5 : applyEnvH env s4 copyAddr with
      | none => rw [h5] at h; simp at h
      | some s5 =>
          rw [h5] at h
          simp only [Option.some.injEq, Prod.mk.injEq] at h
          obtain ⟨hs', hr⟩ := h
          subst hs'
          obtain ⟨frB, monoB, wfB, fcB⟩ :=
            applyEnvH_spec env s4 copyAddr s5 n0 wfA (le_trans hns monoA) fcA hca h5
          exact ⟨fun a ha => by rw [frB a ha, frA a ha],
            le_trans monoA monoB, wfB, fcB, hr.symm⟩

/-- C10: for every combination of arguments — any main config file, any
message-types file, and any environment — a successful call to
`load_config` leaves every pre-existing heap object unchanged: the
`DEFAULT_CONFIG` object graph (the dict at `defaultsAddr` and its nested
section dicts, all at addresses below `s0.next`) reads back exactly as
before the call.  Moreover the returned config object lies in the fresh
region at or above `s0.next`, and that region is closed under references,
so the result is a deep copy sharing no mutable object with the defaults:
mutating the returned config can never alter the defaults seen by later
calls. -/
theorem load_config_heap_preserves_defaults
    (fuel : Nat) (cf mf : Option Json) (env : List (String × String))
    (s0 : Store) (defaultsAddr : Addr) (s' : Store) (r : Addr)
    (hwf : wfStore s0)
    (h : load_config_heap fuel cf mf env s0 defaultsAddr = some (s', r)) :
    (∀ a, a < s0.next → storeGet s' a = storeGet s0 a) ∧
    s0.next ≤ r ∧ freshClosed s' s0.next ∧
    s0.next ≤ s'.next ∧ wfStore s' := by
  simp only [load_config_heap] at h
  cases hdc : deepcopyAux fuel s0 (.dv (.href defaultsAddr)) with
  | none => rw [hdc] at h; simp at h
  | some pr =>
      obtain ⟨s1, r1⟩ := pr
      rw [hdc] at h
      cases r1 with
      | dobj _ => simp at h
      | dlist _ => simp at h
      | dv v =>
          cases v with
          | hstr _ => simp at h
          | hint _ => simp at h
          | hbool _ => simp at h
          | hnone => simp at h
          | harr _ => simp at h
          | href copyAddr =>
              dsimp only at h
              obtain ⟨fr1, mono1, wf1, refs1, fc1⟩ :=
                deepcopyAux_spec fuel s0 _ s1 _ hwf hdc
              have hca : s0.next ≤ copyAddr := by
                simpa [dcResRefsGe, refsGeV, decide_eq_true_eq] using refs1
              have fc1' : freshClosed s1 s0.next :=
                fc1 s0.next le_rfl (freshClosed_init s0 hwf)
              cases h2 : loadStep2 fuel cf s1 copyAddr with
              | none => rw [h2] at h; simp at h
              | some s3 =>
                  rw [h2] at h
                  dsimp only at h
                  obtain ⟨fr2, mono2, wf2, fc2⟩ :=
                    loadStep2_spec fuel cf s1 copyAddr s3 s0.next wf1 mono1 fc1' hca h2
                  obtain ⟨fr3, mono3, wf3, fc3, hr⟩ :=
                    loadTail_spec fuel mf env copyAddr s3 s' r s0.next wf2
                      (le_trans mono1 mono2) fc2 hca h
                  subst hr
                  refine ⟨?_, hca, fc3, le_trans mono1 (le_trans mono2 mono3), wf3⟩
                  intro a ha
                  rw [fr3 a ha, fr2 a ha, fr1 a ha]

/-- The default `message_types` table as a heap object (all values are
strings). -/
def defaultMessageTypesH : Obj :=
  defaultMessageTypes.map (fun p =>
    (p.1, match p.2 with | .str s => HVal.hstr s | _ => HVal.hnone))

/-- A store holding exactly the `DEFAULT_CONFIG` object graph: the four
section dicts at addresses 0-3 and the top-level mapping at address 4. -/
def defaultStoreH : Store :=
  ⟨[ (0, [("host", .hstr "localhost"), ("port", .hint 5432),
          ("dbname", .hstr "skype_archive"), ("user", .hstr "postgres"),
          ("password", .hstr "")]),
     (1, [("directory", .hstr "output"), ("overwrite", .hbool false)]),
     (2, [("level", .hstr "INFO"), ("file", .hnone)]),
     (3, defaultMessageTypesH),
     (4, [("database", .href 0), ("output", .href 1), ("logging", .href 2),
          ("message_types", .href 3),
          ("default_message_format", .hstr defaultMessageFormat)]) ], 5⟩

/-- The store after `load_config()` with no files and an empty
environment, starting from `defaultStoreH`. -/
def c10ResultStore : Store :=
  match load_config_heap 64 none none [] defaultStoreH 4 with
  | some (s, _) => s
  | none => ⟨[], 0⟩

/-- Witness for C10: the call with no files and an empty environment on
the concrete `DEFAULT_CONFIG` store succeeds, returns the fresh copy at
address 9, and every defaults object (addresses 0-4) reads back
unchanged. -/
theorem load_config_heap_preserves_defaults_witness :
    wfStore defaultStoreH ∧
    ((∀ a, a < defaultStoreH.next →
        storeGet c10ResultStore a = storeGet defaultStoreH a) ∧
      defaultStoreH.next ≤ 9 ∧ freshClosed c10ResultStore defaultStoreH.next ∧
      defaultStoreH.next ≤ c10ResultStore.next ∧ wfStore c10ResultStore) :=
  ⟨by decide,
    load_config_heap_preserves_defaults 64 none none [] defaultStoreH 4
      c10ResultStore 9 (by decide) (by rfl)⟩
